import Mathlib

/-!
Verification of the IRS 990 grants-pipeline script
(`scripts/build-complete-grants-dataset.ts`) against its specification.

The TypeScript source is shallowly embedded below.  JavaScript strings are
modelled as Lean `String` (operated on through their character lists),
JavaScript numbers coming from `parseFloat` are modelled as exact rationals
(`ℚ`, with `none : Option ℚ` standing for `NaN` where it matters), and
JavaScript `Record<string, T>` / `Map<string, T>` values are modelled as
insertion-ordered association lists `List (String × T)` with the
first-occurrence lookup/update semantics of JS objects and maps.
Fallible code is modelled with `Option` / `Except`.
-/

namespace GrantsPipeline

/-! ### JavaScript-style character and string helpers -/

/-- Character class of the JavaScript regex `\s` (the whitespace characters
actually occurring in this pipeline's data). -/
def isWsChar (c : Char) : Bool :=
  c = ' ' || c = '\n' || c = '\t' || c = '\r' || c = '\x0c' || c = '\x0b'

/-- Character class of the JavaScript regex `\w`, i.e. `[A-Za-z0-9_]`. -/
def isWordChar (c : Char) : Bool :=
  ('a' ≤ c && c ≤ 'z') || ('A' ≤ c && c ≤ 'Z') || ('0' ≤ c && c ≤ '9') || c = '_'

/-- Character class `[a-z0-9]` used by `normalizeOrgName`'s second regex. -/
def isLowerAlnum (c : Char) : Bool :=
  ('a' ≤ c && c ≤ 'z') || ('0' ≤ c && c ≤ '9')

/-- ASCII lower-casing of one character, as done by `String.toLowerCase`. -/
def jsToLower (c : Char) : Char :=
  if 'A' ≤ c && c ≤ 'Z' then Char.ofNat (c.toNat + 32) else c

/-- Lower-case a character list (model of `String.prototype.toLowerCase`). -/
def lowerChars (cs : List Char) : List Char := cs.map jsToLower

/-- Drop leading whitespace of a character list. -/
def dropLeadWs (cs : List Char) : List Char := cs.dropWhile (fun c => isWsChar c)

/-- Model of `String.prototype.trim`: drop whitespace at both ends. -/
def trimChars (cs : List Char) : List Char :=
  ((dropLeadWs cs).reverse.dropWhile (fun c => isWsChar c)).reverse

/-- Is `pre` a prefix of `cs`?  Model of `String.prototype.startsWith`. -/
def listHasStart : List Char → List Char → Bool
  | _, [] => true
  | [], _ :: _ => false
  | c :: cs, p :: ps => c = p && listHasStart cs ps

/-- String wrapper for `listHasStart`. -/
def strHasStart (s pre : String) : Bool := listHasStart s.data pre.data

/-- Lower-case and trim a string: the normalisation
`name.toLowerCase().trim()` used by `buildHLFNetwork`. -/
def lowerTrim (s : String) : String := ⟨trimChars (lowerChars s.data)⟩

/-- Accumulator worker for `charRuns`; `cur` holds the reversed current run. -/
def charRunsGo (p : Char → Bool) : List Char → List Char → List (List Char)
  | cur, [] => if cur.isEmpty then [] else [cur.reverse]
  | cur, c :: cs =>
    if p c then charRunsGo p (c :: cur) cs
    else if cur.isEmpty then charRunsGo p [] cs
    else cur.reverse :: charRunsGo p [] cs

/-- Split a character list into the maximal runs of characters satisfying
`p`, discarding the separators (used to model splitting on `/\s+/` after a
`trim`, and the `\b`-delimited word runs of `normalizeOrgName`). -/
def charRuns (p : Char → Bool) (cs : List Char) : List (List Char) :=
  charRunsGo p [] cs

/-- Number of `/\s+/`-separated words of `org.trim()`, following the
JavaScript behaviour that `''.split(/\s+/)` is `['']` (length 1). -/
def jsWordCount (s : String) : Nat :=
  let t := trimChars s.data
  if t.isEmpty then 1 else (charRuns (fun c => !isWsChar c) t).length

/-- Stop words removed (as whole `\b`-delimited words) by
`normalizeOrgName`'s first regex. -/
def orgStopWords : List (List Char) :=
  [ "inc".data, "incorporated".data, "llc".data, "ltd".data, "limited".data,
    "corp".data, "corporation".data, "foundation".data, "fund".data,
    "trust".data, "the".data, "a".data, "an".data ]

/-- Model of `normalizeOrgName`:
lower-case, delete the stop words as whole `\b`-delimited words, then delete
every character outside `[a-z0-9]`.  Since `\b` boundaries sit exactly at the
edges of maximal `\w`-runs and the stop words are pure letter strings, the
first regex deletes precisely the maximal `\w`-runs equal to a stop word;
the trailing `.trim()` of the source is a no-op on the remaining
`[a-z0-9]`-only text. -/
def normalizeOrgName (s : String) : String :=
  let low := lowerChars s.data
  let keptRuns := (charRuns (fun c => isWordChar c) low).filter
    (fun r => !orgStopWords.contains r)
  ⟨(keptRuns.flatten).filter (fun c => isLowerAlnum c)⟩

/-- Worker for `wsToUnderscore`; the flag records whether the previous
character was whitespace (so a whitespace run yields a single underscore). -/
def wsToUnderscoreGo : Bool → List Char → List Char
  | _, [] => []
  | prevWs, c :: cs =>
    if isWsChar c then
      (if prevWs then [] else ['_']) ++ wsToUnderscoreGo true cs
    else c :: wsToUnderscoreGo false cs

/-- Collapse every maximal whitespace run into one underscore: model of
`.replace(/\s+/g, '_')` used to mint `hlf_grantee_…` node ids. -/
def wsToUnderscore (cs : List Char) : List Char := wsToUnderscoreGo false cs

/-! ### Decimal number parsing (model of `parseFloat` / `parseInt`)

`parseFloat` is modelled exactly on decimal literals (optional sign, digit
run, optional fraction); inputs it cannot interpret give `none`, standing
for `NaN`.  Exponent forms do not occur in this pipeline's inputs. -/

/-- Decimal-digit test, phrased over `Char.toNat` to keep all arithmetic
reasoning in `Nat`. -/
def isDigitChar (c : Char) : Bool := 48 ≤ c.toNat && c.toNat ≤ 57

/-- Numeric value of a decimal digit character. -/
def digVal (c : Char) : Nat := c.toNat - 48

/-- Fold a digit list into the natural number it denotes. -/
def digitsToNat (ds : List Char) : Nat :=
  ds.foldl (fun acc c => 10 * acc + digVal c) 0

/-- Leading decimal-digit run of a character list. -/
def leadDigits (cs : List Char) : List Char := cs.takeWhile (fun c => isDigitChar c)

/-- Signed integer from a parsed sign flag and magnitude. -/
def intSign (neg : Bool) (n : Nat) : Int :=
  if neg then -(n : Int) else (n : Int)

/-- Model of `parseFloat` on a character list: optional leading whitespace
and sign, an integer digit run and an optional `.`-separated fraction run;
no digit at all yields `NaN` (`none`).  The parsed prefix is used and any
trailing garbage ignored, exactly as `parseFloat` does.  The decimal value
`±ip.fp` is assembled as the single exact fraction
`±(ip·10^k + fp) / 10^k`. -/
def parseFloatChars (cs0 : List Char) : Option ℚ :=
  let cs1 := dropLeadWs cs0
  let (neg, cs2) : Bool × List Char :=
    match cs1 with
    | '-' :: rest => (true, rest)
    | '+' :: rest => (false, rest)
    | _ => (false, cs1)
  let ip := leadDigits cs2
  let rest := cs2.drop ip.length
  if ip.isEmpty then
    -- `parseFloat` also accepts a leading-dot form such as `.5`
    match rest with
    | '.' :: rest2 =>
      let fp := leadDigits rest2
      if fp.isEmpty then none
      else some (mkRat (intSign neg (digitsToNat fp)) (10 ^ fp.length))
    | _ => none
  else
    match rest with
    | '.' :: rest2 =>
      let fp := leadDigits rest2
      some (mkRat
        (intSign neg (digitsToNat ip * 10 ^ fp.length + digitsToNat fp))
        (10 ^ fp.length))
    | _ => some (mkRat (intSign neg (digitsToNat ip)) 1)

/-- String wrapper for the `parseFloat` model. -/
def parseFloatStr (s : String) : Option ℚ := parseFloatChars s.data

/-- Model of `parseFloat(x) || 0`: `NaN` (and `0` itself) becomes `0`. -/
def parseFloatOrZero (s : String) : ℚ := (parseFloatStr s).getD 0

/-- Model of `parseInt(s, 10)` restricted to the sign-and-digits prefix. -/
def parseIntStr (s : String) : Option Int :=
  let cs1 := dropLeadWs s.data
  let (neg, cs2) : Bool × List Char :=
    match cs1 with
    | '-' :: rest => (true, rest)
    | '+' :: rest => (false, rest)
    | _ => (false, cs1)
  let ip := leadDigits cs2
  if ip.isEmpty then none
  else some (if neg then -(digitsToNat ip : Int) else (digitsToNat ip : Int))

/-- First JavaScript-truthy string of an `a || b || … || dflt` chain over
possibly-absent strings: `undefined` and `''` are both falsy. -/
def firstTruthy (dflt : String) : List (Option String) → String
  | [] => dflt
  | some s :: rest => if s = "" then firstTruthy dflt rest else s
  | none :: rest => firstTruthy dflt rest

/-! ### Association-list model of JS objects and maps

JavaScript `Record<string, T>` and `Map<string, T>` are modelled as
insertion-ordered association lists.  Lookup returns the first binding;
`alPush` mirrors `if (!m.has(k)) m.set(k, []); m.get(k).push(x)`;
`alSetIfAbsent` mirrors `if (!o[k]) o[k] = v`; `alAdjust` mutates the first
binding of a key in place; `alErase` mirrors `delete o[k]`. -/

/-- First binding of key `k`. -/
def alFind {α : Type} (k : String) : List (String × α) → Option α
  | [] => none
  | (k', v) :: rest => if k' = k then some v else alFind k rest

/-- Append `x` to the bucket of `k`, creating the bucket at the end when
absent (JS `Map` grouping idiom). -/
def alPush {α : Type} (k : String) (x : α) : List (String × List α) → List (String × List α)
  | [] => [(k, [x])]
  | (k', xs) :: rest =>
    if k' = k then (k', xs ++ [x]) :: rest else (k', xs) :: alPush k x rest

/-- Insert the binding `(k, v)` at the end when `k` is absent. -/
def alSetIfAbsent {α : Type} (k : String) (v : α) (l : List (String × α)) :
    List (String × α) :=
  match alFind k l with
  | some _ => l
  | none => l ++ [(k, v)]

/-- Apply `f` to the first binding of `k` (no-op when absent). -/
def alAdjust {α : Type} (k : String) (f : α → α) : List (String × α) → List (String × α)
  | [] => []
  | (k', v) :: rest =>
    if k' = k then (k', f v) :: rest else (k', v) :: alAdjust k f rest

/-- Remove the first binding of `k` (model of `delete o[k]`). -/
def alErase {α : Type} (k : String) : List (String × α) → List (String × α)
  | [] => []
  | (k', v) :: rest =>
    if k' = k then rest else (k', v) :: alErase k rest

/-- Keys of an association list. -/
def alKeys {α : Type} (l : List (String × α)) : List String := l.map Prod.fst

/-! ### Data model (section 3 of the spec, `interface` declarations of the
script)

All JS number fields reachable from parsed filings are modelled as `ℚ`
(`Option ℚ` where the value can be JavaScript `NaN` or can be absent);
years and counters are integers in every reachable input, and are modelled
as `Int` / `Nat`. -/

/-- One grant paid, as extracted from a 990-PF filing (`interface Grant`).
The optional address fields are always assigned (possibly `''`) by
`processXmlFile`, so they are modelled as plain strings. -/
structure Grant where
  recipientEIN : String
  recipientName : String
  amount : ℚ
  year : Int
  recipientCity : String
  recipientState : String
  recipientZip : String
deriving DecidableEq, Repr

/-- One `grantsReceived` entry of an `Organization`. -/
structure GrantReceived where
  funderEIN : String
  funderName : String
  amount : ℚ
  year : Int
deriving DecidableEq, Repr

/-- Metadata attached to foundations and (via the Form 990 merge) to
organizations.  `none` models an absent (`undefined`) field; for
`assets` / `revenue` it also models `NaN` results of `parseFloat`. -/
structure MetaJs where
  address : Option String
  city : Option String
  state : Option String
  assets : Option ℚ
  revenue : Option ℚ
deriving DecidableEq, Repr

/-- A grant-making foundation (`interface Foundation`). -/
structure Foundation where
  ein : String
  name : String
  grantsGiven : List Grant
  metadata : Option MetaJs
deriving DecidableEq, Repr

/-- A grant-receiving organization (`interface Organization`). -/
structure Organization where
  ein : String
  name : String
  grantsReceived : List GrantReceived
  metadata : Option MetaJs
deriving DecidableEq, Repr

/-- Counters and timestamp of a `CompleteDataset`. -/
structure DatasetMeta where
  foundationsProcessed : Nat
  totalGrants : Nat
  generatedAt : String
deriving DecidableEq, Repr

/-- The merged bidirectional dataset (`interface CompleteDataset`). -/
structure CompleteDataset where
  foundations : List (String × Foundation)
  organizations : List (String × Organization)
  metadata : DatasetMeta
deriving DecidableEq, Repr

/-- One node of a derived `NetworkGraph`.  The JS objects carry a `central`
property only on the central node; the model gives every node a `central`
flag, `false` when the property is absent.  `metadata`, `grantsReceived`,
`grantsGiven` and `amount` are present only on some node kinds, hence
`Option`. -/
structure Node where
  id : String
  name : String
  type : String
  central : Bool
  amount : Option ℚ
  metadata : Option MetaJs
  grantsReceived : Option (List GrantReceived)
  grantsGiven : Option (List Grant)
deriving DecidableEq, Repr

/-- One link of a derived `NetworkGraph`. -/
structure Link where
  source : String
  target : String
  amount : ℚ
  type : String
  year : Int
deriving DecidableEq, Repr

/-- A derived ego-network (`{ nodes, links }`). -/
structure NetworkGraph where
  nodes : List Node
  links : List Link
deriving DecidableEq, Repr

/-! ### `extractZip` (archive extractor) -/

/-- Observable outcome of one `execFile('unzip', …)` call together with the
state of the destination directory when the callback runs.  `exitCode = none`
models a `null` error (success); `some c` models an error object whose
`code` is the numeric exit code `c`. -/
structure UnzipOutcome where
  exitCode : Option Nat
  destExists : Bool
  extractedFileCount : Nat
deriving DecidableEq, Repr

/-- Model of the `extractZip` callback: `true` means the promise resolves,
`false` means it rejects.  Mirrors the source: a `null` error resolves;
exit codes 1 and 3 resolve exactly when the destination exists and contains
at least one entry; every other exit code rejects. -/
def extractZipResolves (o : UnzipOutcome) : Bool :=
  match o.exitCode with
  | none => true
  | some code =>
    if code = 1 || code = 3 then
      o.destExists && decide (0 < o.extractedFileCount)
    else false

/-! ### `loadHLFGrantsFromExcel` row filter -/

/-- A JavaScript cell value as delivered by `xlsx.utils.sheet_to_json`. -/
inductive CellVal where
  | missing
  | str (s : String)
  | num (q : ℚ)
deriving DecidableEq, Repr

/-- JavaScript truthiness of a cell value (`undefined`, `''` and `0` are
falsy). -/
def cellTruthy : CellVal → Bool
  | .missing => false
  | .str s => !(s = "")
  | .num q => !(q = 0)

/-- Delete `$` and `,` characters: model of `.replace(/[$,]/g, '')`. -/
def stripDollarComma (s : String) : String :=
  ⟨s.data.filter (fun c => !(c = '$' || c = ','))⟩

/-- The `parseFloat((String(amount) || '0').replace(/[$,]/g, '')) || 0`
computation of the row filter.  For a numeric cell, `String` followed by
`parseFloat` is the identity on the value; for a missing cell `String`
yields `'undefined'`, which parses to `NaN` and defaults to `0`; the empty
string falls back to `'0'`. -/
def parsedAmountOfCell : CellVal → ℚ
  | .missing => 0
  | .str s => parseFloatOrZero (stripDollarComma s)
  | .num q => q

/-- One sheet row as consumed by the filter: `organization` models
`row.Organization || ''` and `amountCell` the already-resolved
`row[year + ' Amount'] || row['2025 Amount']` column chain. -/
structure ExcelRow where
  organization : String
  amountCell : CellVal
deriving DecidableEq, Repr

/-- The row-retention predicate of `loadHLFGrantsFromExcel` (the `.filter`
callback): drop rows missing an organization or amount, the two fixed
section/total names, and single-word organizations whose parsed amount is
at most 10000. -/
def keepExcelRow (r : ExcelRow) : Bool :=
  let org := r.organization
  if org = "" || !cellTruthy r.amountCell then false
  else if org = "Discretionary Grants" || org = "Mini grants for Storytelling" then false
  else
    let parsedAmount := parsedAmountOfCell r.amountCell
    let isSingleName := jsWordCount org = 1
    if isSingleName && decide (parsedAmount ≤ 10000) then false else true

/-! ### Parsed-XML shapes

`parseStringPromise` output is modelled structurally: every `x?.[0]?.F?.[0]`
optional-chain access of the script becomes an `Option`-valued field (one
field per chain), so that absence at any point of a chain is `none`. -/

/-- A `USAddress` group (both field-name generations). -/
structure UsAddressXml where
  addressLine1Txt : Option String
  addressLine1 : Option String
  cityNm : Option String
  city : Option String
  stateAbbreviationCd : Option String
  state : Option String
  zipCd : Option String
deriving DecidableEq, Repr

/-- The `Filer` group of a return header. -/
structure FilerXml where
  ein : Option String
  businessNameLine1Txt : Option String
  businessNameLine1 : Option String
  usAddress : Option UsAddressXml
deriving DecidableEq, Repr

/-- The `ReturnHeader` group. -/
structure HeaderXml where
  filer : Option FilerXml
  taxYr : Option String
deriving DecidableEq, Repr

/-- One recipient row of a 990-PF grants table. -/
structure RecipientXml where
  businessNameLine1Txt : Option String
  personNm : Option String
  organizationNm : Option String
  recipientEIN : Option String
  amt : Option String
  amount : Option String
  cashGrantAmt : Option String
  usAddress : Option UsAddressXml
deriving DecidableEq, Repr

/-- The `Form990PFBalanceSheetsGrp` group. -/
structure BalanceSheetXml where
  totalAssetsEOYAmt : Option String
  totalAssetsBOYAmt : Option String
deriving DecidableEq, Repr

/-- The `AnalysisOfRevenueAndExpenses` group. -/
structure RevExpXml where
  totalRevAndExpnssAmt : Option String
deriving DecidableEq, Repr

/-- The `IRS990PF` form body.  `suppInfoGrantGroups` models the whole chain
`SupplementaryInformationGrp?.[0]?.GrantOrContributionPdDurYrGrp`. -/
structure IRS990PFXml where
  balanceSheets : Option BalanceSheetXml
  revenueExpenses : Option RevExpXml
  suppInfoGrantGroups : Option (List RecipientXml)
  grantOrContributionPdDurYrGrp : Option (List RecipientXml)
  grantOrContribPaidDuringYear : Option (List RecipientXml)
deriving DecidableEq, Repr

/-- The `IRS990` form body (fields read by `parseXML990File`). -/
structure IRS990Xml where
  principalOfficeUSAddress : Option UsAddressXml
  totalAssetsEOYAmt : Option String
  partVIITotalAssetsEOYAmt : Option String
  cyTotalRevenueAmt : Option String
  totalRevenueCurrentYearAmt : Option String
deriving DecidableEq, Repr

/-- The `ReturnData` group. -/
structure ReturnDataXml where
  irs990PF : Option IRS990PFXml
  irs990 : Option IRS990Xml
deriving DecidableEq, Repr

/-- A whole parsed return document. -/
structure ParsedReturn where
  returnData : Option ReturnDataXml
  returnHeader : Option HeaderXml
deriving DecidableEq, Repr

/-- A thrown JavaScript error (only its message is observable here). -/
structure JsErr where
  msg : String
deriving DecidableEq, Repr

/-- One file on disk as seen by the per-document parsers: the two cheap
substring checks on the raw text, and the outcome of the full
`parseStringPromise` parse (which may throw). -/
structure RawDoc where
  hasIRS990PFTag : Bool
  hasIRS990Tag : Bool
  parsed : Except JsErr ParsedReturn
deriving Repr

/-- Display of a possibly-undefined EIN inside a template literal
(JavaScript prints `undefined`). -/
def einText : Option String → String
  | none => "undefined"
  | some s => s

/-- Model of `a || b` on two possibly-absent strings (empty strings are
falsy, and the right operand is returned as-is when the left is falsy). -/
def jsOrStr (a b : Option String) : Option String :=
  match a with
  | some s => if s = "" then b else some s
  | none => b

/-- Result record of `processXmlFile`, also the element type of the
`allGrantsData` batches fed to `buildBidirectionalDataset`.  `funderEIN`
is `Option` because the XML header may lack an `EIN` element (the TS value
is then `undefined`). -/
structure PFRecord where
  funderEIN : Option String
  funderName : String
  grants : List Grant
  metadata : Option MetaJs
deriving DecidableEq, Repr

/-- Result record of `parseXML990File`. -/
structure Org990Record where
  ein : Option String
  name : String
  metadata : MetaJs
deriving DecidableEq, Repr

/-- The grants-extraction loop of `processXmlFile`: one pass over the
grant-section rows, retaining a row exactly when the resolved recipient
name is truthy and the parsed amount is a number greater than zero (an
unparsable amount is `NaN`, which fails the comparison). -/
def extractGrantsPF (taxYear : Int) (entries : List RecipientXml) : List Grant :=
  entries.filterMap (fun r =>
    let recipientName := firstTruthy "" [r.businessNameLine1Txt, r.personNm, r.organizationNm]
    let recipientEIN := (r.recipientEIN).getD ""
    let recipientCity := (r.usAddress.bind (fun a => a.cityNm)).getD ""
    let recipientState := (r.usAddress.bind (fun a => a.stateAbbreviationCd)).getD ""
    let recipientZip := (r.usAddress.bind (fun a => a.zipCd)).getD ""
    match parseFloatStr (firstTruthy "0" [r.amt, r.amount, r.cashGrantAmt]) with
    | none => none
    | some amount =>
      if recipientName ≠ "" ∧ 0 < amount then
        some { recipientEIN := recipientEIN, recipientName := recipientName,
               amount := amount, year := taxYear, recipientCity := recipientCity,
               recipientState := recipientState, recipientZip := recipientZip }
      else none)

/-- The pure part of `processXmlFile` after a successful
`parseStringPromise`: form-type checks, identity and metadata extraction,
and the grants loop.  A `TaxYr` element that is present but unparsable
yields JavaScript `NaN`; that unreachable-in-practice corner is modelled by
the fallback year. -/
def processParsedPF (data : ParsedReturn) (year : Int) : Option PFRecord :=
  match data.returnData, data.returnHeader with
  | some root, some header =>
    match root.irs990PF with
    | none => none
    | some pf =>
      let funderEIN := header.filer.bind (fun f => f.ein)
      let funderName := firstTruthy ("Foundation " ++ einText funderEIN)
        [header.filer.bind (fun f => f.businessNameLine1Txt)]
      let taxYear : Int :=
        match header.taxYr with
        | some s => if s = "" then year else (parseIntStr s).getD year
        | none => year
      let usAddress := header.filer.bind (fun f => f.usAddress)
      let metadata : MetaJs :=
        { address := usAddress.bind (fun a => a.addressLine1Txt)
          city := usAddress.bind (fun a => a.cityNm)
          state := usAddress.bind (fun a => a.stateAbbreviationCd)
          assets := parseFloatStr (firstTruthy "0"
            [pf.balanceSheets.bind (fun b => b.totalAssetsEOYAmt),
             pf.balanceSheets.bind (fun b => b.totalAssetsBOYAmt)])
          revenue := parseFloatStr (firstTruthy "0"
            [pf.revenueExpenses.bind (fun v => v.totalRevAndExpnssAmt)]) }
      let grantSections :=
        (((pf.suppInfoGrantGroups).orElse (fun _ => pf.grantOrContributionPdDurYrGrp)).orElse
          (fun _ => pf.grantOrContribPaidDuringYear)).getD []
      some { funderEIN := funderEIN, funderName := funderName,
             grants := extractGrantsPF taxYear grantSections,
             metadata := some metadata }
  | _, _ => none

/-- The fallible body of `processXmlFile` (everything inside its `try`):
the file read and the XML parse can throw; the rest is pure. -/
def processXmlFileBody (file : Except JsErr RawDoc) (year : Int) :
    Except JsErr (Option PFRecord) :=
  match file with
  | .error e => .error e
  | .ok doc =>
    if !doc.hasIRS990PFTag then .ok none
    else
      match doc.parsed with
      | .error e => .error e
      | .ok data => .ok (processParsedPF data year)

/-- Model of `processXmlFile`: the whole body runs inside `try`, and the
`catch` clause turns any thrown error into a `null` result. -/
def processXmlFile (file : Except JsErr RawDoc) (year : Int) : Option PFRecord :=
  match processXmlFileBody file year with
  | .ok r => r
  | .error _ => none

/-- The pure part of `parseXML990File` after a successful parse. -/
def processParsed990 (data : ParsedReturn) : Option Org990Record :=
  match data.returnData, data.returnHeader with
  | some root, some header =>
    match root.irs990 with
    | none => none
    | some irs990 =>
      let ein := header.filer.bind (fun f => f.ein)
      let name := firstTruthy ("Organization " ++ einText ein)
        [header.filer.bind (fun f => f.businessNameLine1Txt),
         header.filer.bind (fun f => f.businessNameLine1)]
      let usAddress := (header.filer.bind (fun f => f.usAddress)).orElse
        (fun _ => irs990.principalOfficeUSAddress)
      some { ein := ein, name := name,
             metadata :=
              { address := jsOrStr (usAddress.bind (fun a => a.addressLine1Txt))
                  (usAddress.bind (fun a => a.addressLine1))
                city := jsOrStr (usAddress.bind (fun a => a.cityNm))
                  (usAddress.bind (fun a => a.city))
                state := jsOrStr (usAddress.bind (fun a => a.stateAbbreviationCd))
                  (usAddress.bind (fun a => a.state))
                assets := parseFloatStr (firstTruthy "0"
                  [irs990.totalAssetsEOYAmt, irs990.partVIITotalAssetsEOYAmt])
                revenue := parseFloatStr (firstTruthy "0"
                  [irs990.cyTotalRevenueAmt, irs990.totalRevenueCurrentYearAmt]) } }
  | _, _ => none

/-- The fallible body of `parseXML990File` (everything inside its `try`). -/
def parseXML990FileBody (file : Except JsErr RawDoc) :
    Except JsErr (Option Org990Record) :=
  match file with
  | .error e => .error e
  | .ok doc =>
    if !doc.hasIRS990Tag || doc.hasIRS990PFTag then .ok none
    else
      match doc.parsed with
      | .error e => .error e
      | .ok data => .ok (processParsed990 data)

/-- Model of `parseXML990File`: any thrown error is caught and becomes a
`null` result. -/
def parseXML990File (file : Except JsErr RawDoc) : Option Org990Record :=
  match parseXML990FileBody file with
  | .ok r => r
  | .error _ => none

/-! ### `buildBidirectionalDataset` -/

/-- Recipient key resolution of the dataset builder: a missing, empty or
`unknown_…` recipient EIN is replaced by the deterministic placeholder key
`no_ein_` + normalised recipient name. -/
def recipientKeyOf (grant : Grant) : String :=
  if grant.recipientEIN = "" || strHasStart grant.recipientEIN "unknown_" then
    "no_ein_" ++ normalizeOrgName grant.recipientName
  else grant.recipientEIN

/-- Fresh `Organization` entry as created by the dataset builder (no
`metadata` property). -/
def newOrgEntry (k name : String) : Organization :=
  { ein := k, name := name, grantsReceived := [], metadata := none }

/-- Fresh `Foundation` entry as created by the dataset builder. -/
def newFoundationEntry (k name : String) (md : Option MetaJs) : Foundation :=
  { ein := k, name := name, grantsGiven := [], metadata := md }

/-- Push one `grantsReceived` element onto an organization. -/
def pushReceived (e : GrantReceived) (o : Organization) : Organization :=
  { o with grantsReceived := o.grantsReceived ++ [e] }

/-- Concatenate newly parsed grants onto a foundation (the `concat`-based
large-array-safe merge). -/
def appendGiven (gs : List Grant) (f : Foundation) : Foundation :=
  { f with grantsGiven := f.grantsGiven ++ gs }

/-- Register one grant of `funderEIN` with the organizations map: create
the recipient entry when absent, then push one `grantsReceived` element. -/
def addGrantToOrgs (funderEIN funderName : String)
    (orgs : List (String × Organization)) (grant : Grant) :
    List (String × Organization) :=
  alAdjust (recipientKeyOf grant)
    (pushReceived
      { funderEIN := funderEIN, funderName := funderName,
        amount := grant.amount, year := grant.year })
    (alSetIfAbsent (recipientKeyOf grant)
      (newOrgEntry (recipientKeyOf grant) grant.recipientName) orgs)

/-- Intermediate state of the dataset-builder fold. -/
structure BuildState where
  foundations : List (String × Foundation)
  organizations : List (String × Organization)
  totalGrants : Nat
deriving Repr

/-- One iteration of the dataset builder's main loop: skip records with a
falsy funder EIN, otherwise create-or-reuse the foundation, concatenate its
grants (the `concat`-based large-array-safe merge), bump the grant counter
and register every grant with its recipient organization. -/
def addRecordStep (st : BuildState) (r : PFRecord) : BuildState :=
  match r.funderEIN with
  | none => st
  | some funderEIN =>
    if funderEIN = "" then st
    else
      { foundations :=
          alAdjust funderEIN (appendGiven r.grants)
            (alSetIfAbsent funderEIN
              (newFoundationEntry funderEIN r.funderName r.metadata) st.foundations)
        organizations := r.grants.foldl (addGrantToOrgs funderEIN r.funderName)
          st.organizations
        totalGrants := st.totalGrants + r.grants.length }

/-- Model of `buildBidirectionalDataset`; `now` is the injected
`new Date().toISOString()` timestamp. -/
def buildBidirectionalDataset (now : String) (records : List PFRecord) :
    CompleteDataset :=
  { foundations := (records.foldl addRecordStep ⟨[], [], 0⟩).foundations
    organizations := (records.foldl addRecordStep ⟨[], [], 0⟩).organizations
    metadata :=
      { foundationsProcessed := (records.foldl addRecordStep ⟨[], [], 0⟩).foundations.length
        totalGrants := (records.foldl addRecordStep ⟨[], [], 0⟩).totalGrants
        generatedAt := now } }

/-! ### Name index and the consolidation pass -/

/-- Model of `buildNameToEINIndex` over an organizations map: bucket every
organization key under its normalised name, in iteration order. -/
def buildNameToEINIndexOrgs (orgs : List (String × Organization)) :
    List (String × List String) :=
  orgs.foldl (fun idx p => alPush (normalizeOrgName p.2.name) p.1 idx) []

/-- Model of `buildNameToEINIndex` on a complete dataset. -/
def buildNameToEINIndex (dataset : CompleteDataset) : List (String × List String) :=
  buildNameToEINIndexOrgs dataset.organizations

/-- One iteration of the consolidation loop of `main`: for one placeholder
key, look the placeholder's normalised name up in the (pass-initial) name
index; when some non-placeholder key is bucketed there, merge the
placeholder's `grantsReceived` into that real entry (when it is present in
the map) and delete the placeholder. -/
def consolidateStep (nameIndex : List (String × List String))
    (orgs : List (String × Organization)) (placeholderKey : String) :
    List (String × Organization) :=
  match alFind placeholderKey orgs with
  | none => orgs
  | some org =>
    let normalizedName := normalizeOrgName org.name
    match alFind normalizedName nameIndex with
    | none => orgs
    | some matchList =>
      if matchList.length > 0 then
        match matchList.find? (fun ein => !strHasStart ein "no_ein_") with
        | some realEIN =>
          if realEIN ≠ placeholderKey then
            let orgs' :=
              if (alFind realEIN orgs).isSome then
                alAdjust realEIN (fun o =>
                  { o with grantsReceived := o.grantsReceived ++ org.grantsReceived }) orgs
              else orgs
            alErase placeholderKey orgs'
          else orgs
        | none => orgs
      else orgs

/-- The whole consolidation pass: build the name index once on the incoming
map, snapshot the placeholder keys, then run `consolidateStep` over them in
order. -/
def consolidatePass (orgs : List (String × Organization)) :
    List (String × Organization) :=
  ((alKeys orgs).filter (fun k => strHasStart k "no_ein_")).foldl
    (consolidateStep (buildNameToEINIndexOrgs orgs)) orgs

/-- Total `grantsReceived` count of an organizations map. -/
def sumGrantsReceived (orgs : List (String × Organization)) : Nat :=
  (orgs.map (fun p => p.2.grantsReceived.length)).sum

/-- Total `grantsGiven` count of a foundations map. -/
def sumGrantsGiven (fs : List (String × Foundation)) : Nat :=
  (fs.map (fun p => p.2.grantsGiven.length)).sum

/-- Contribution of one parsed record to the builder's grant counter:
records with a falsy funder EIN contribute nothing. -/
def recordContribution (r : PFRecord) : Nat :=
  match r.funderEIN with
  | none => 0
  | some e => if e = "" then 0 else r.grants.length

/-- Weighted sum of the values of an association list. -/
def alSumBy {α : Type} (w : α → Nat) (l : List (String × α)) : Nat :=
  (l.map (fun p => w p.2)).sum

/-- Weight function used by the receiving-side grant counts. -/
def wOrg (o : Organization) : Nat := o.grantsReceived.length

/-- Weight function used by the giving-side grant counts. -/
def wFnd (f : Foundation) : Nat := f.grantsGiven.length

/-- Support predicate for the consolidation proof: every non-placeholder
key bucketed anywhere in the name index is present in the current
organizations map. -/
def IdxCovered (idx : List (String × List String))
    (orgs : List (String × Organization)) : Prop :=
  ∀ q ∈ idx, ∀ e ∈ q.2, strHasStart e "no_ein_" = false →
    (alFind e orgs).isSome = true

/-! ### Network builders -/

/-- ASCII upper-casing of one character (`String.prototype.toUpperCase`). -/
def jsToUpper (c : Char) : Char :=
  if 'a' ≤ c && c ≤ 'z' then Char.ofNat (c.toNat - 32) else c

/-- Upper-case a string. -/
def strUpper (s : String) : String := ⟨s.data.map jsToUpper⟩

/-- The fixed HLF tax id (`HLF_EIN` constant of the script). -/
def HLF_EIN : String := "352338463"

/-- State threaded through the network builders: the `nodes` and `links`
output arrays plus the `addedNodes` id set (modelled as a list used only
for membership). -/
structure NetState where
  nodes : List Node
  links : List Link
  added : List String
deriving Repr

/-- Sum of the amounts of a grant list
(`grants.reduce((sum, g) => sum + g.amount, 0)`). -/
def sumAmounts (gs : List Grant) : ℚ := (gs.map (fun g => g.amount)).sum

/-- The missing-recipient-EIN test of `buildCustomEINNetwork`
(`!ein || ein === '' || ein === 'unknown' || ein.startsWith('unknown_')`). -/
def usableEINMissing (ein : String) : Bool :=
  ein = "" || ein = "unknown" || strHasStart ein "unknown_"

/-- Address check of the multiple-match disambiguation: the candidate's
recorded city and state (upper-cased) must both equal the grant's. -/
def candidateMatches (dataset : CompleteDataset) (grant : Grant)
    (candidateEIN : String) : Bool :=
  match alFind candidateEIN dataset.organizations with
  | none => false
  | some org =>
    match org.metadata with
    | none => false
    | some md =>
      (match md.city with
       | some c => strUpper c = strUpper grant.recipientCity
       | none => false) &&
      (match md.state with
       | some s => strUpper s = strUpper grant.recipientState
       | none => false)

/-- Recipient resolution of `buildCustomEINNetwork` for one grant: keep a
usable EIN; otherwise look the normalised recipient name up in the index —
a unique match is used directly, several matches are disambiguated by
city+state (falling back to the first match), and no match mints the
deterministic placeholder id. -/
def resolveGrantEIN (nameIndex : List (String × List String))
    (dataset : CompleteDataset) (grant : Grant) : String :=
  if usableEINMissing grant.recipientEIN then
    match alFind (normalizeOrgName grant.recipientName) nameIndex with
    | none => "no_ein_" ++ normalizeOrgName grant.recipientName
    | some [] => "no_ein_" ++ normalizeOrgName grant.recipientName
    | some [e] => e
    | some (m0 :: m1 :: rest) =>
      if grant.recipientCity ≠ "" && grant.recipientState ≠ "" then
        match (m0 :: m1 :: rest).find? (fun c => candidateMatches dataset grant c) with
        | some c => c
        | none => m0
      else m0
  else grant.recipientEIN

/-- The `grantsByRecipient` grouping of `buildCustomEINNetwork`: a `Map`
from resolved recipient id to the grants aimed at it, in first-occurrence
order. -/
def groupGrantsByRecipient (nameIndex : List (String × List String))
    (dataset : CompleteDataset) (grants : List Grant) :
    List (String × List Grant) :=
  grants.foldl (fun m g => alPush (resolveGrantEIN nameIndex dataset g) g m) []

/-- One `hlf-grant` link from the central node to a recipient. -/
def mkCentralLink (centralId recipientEIN : String) (g : Grant) : Link :=
  { source := centralId, target := recipientEIN, amount := g.amount,
    type := "hlf-grant", year := g.year }

/-- One `hlf-grant` link per grant of a grantee group. -/
def centralGrantLinks (centralId recipientEIN : String) (grants : List Grant) :
    List Link :=
  grants.map (mkCentralLink centralId recipientEIN)

/-- A funder node for an other-funder `grantsReceived` entry; foundation
metadata and `grantsGiven` are attached when the funder is known. -/
def funderNode (dataset : CompleteDataset) (gr : GrantReceived) : Node :=
  { id := gr.funderEIN, name := gr.funderName, type := "funder",
    central := false, amount := none,
    metadata := (alFind gr.funderEIN dataset.foundations).bind (fun f => f.metadata),
    grantsReceived := none,
    grantsGiven := some
      (((alFind gr.funderEIN dataset.foundations).map (fun f => f.grantsGiven)).getD []) }

/-- An `other-funder` link. -/
def otherFunderLink (recipientEIN : String) (gr : GrantReceived) : Link :=
  { source := gr.funderEIN, target := recipientEIN, amount := gr.amount,
    type := "other-funder", year := gr.year }

/-- One iteration of an other-funders loop: skip the central entity's own
id (`skipEIN`), add the funder node when unseen, and always add the
funder→grantee link. -/
def addOtherFunder (dataset : CompleteDataset) (skipEIN recipientEIN : String)
    (st : NetState) (gr : GrantReceived) : NetState :=
  if gr.funderEIN = skipEIN then st
  else if st.added.contains gr.funderEIN then
    { nodes := st.nodes, links := st.links ++ [otherFunderLink recipientEIN gr],
      added := st.added }
  else
    { nodes := st.nodes ++ [funderNode dataset gr],
      links := st.links ++ [otherFunderLink recipientEIN gr],
      added := st.added ++ [gr.funderEIN] }

/-- A grantee node of `buildCustomEINNetwork`: name/metadata come from the
matched organization when one exists, and `grantsReceived` falls back to
the central foundation's own grants otherwise. -/
def granteeNodeCustom (dataset : CompleteDataset)
    (centralEIN centralName recipientEIN : String)
    (grants : List Grant) (firstGrant : Grant) : Node :=
  { id := recipientEIN,
    name := firstTruthy firstGrant.recipientName
      [(alFind recipientEIN dataset.organizations).map (fun o => o.name)],
    type := "grantee", central := false,
    amount := some (sumAmounts grants),
    metadata := (alFind recipientEIN dataset.organizations).bind (fun o => o.metadata),
    grantsReceived := some
      (match alFind recipientEIN dataset.organizations with
       | some o => o.grantsReceived
       | none => grants.map (fun g =>
          { funderEIN := centralEIN, funderName := centralName,
            amount := g.amount, year := g.year })),
    grantsGiven := none }

/-- The other-funders walk of one grantee of `buildCustomEINNetwork`,
which runs only when the recipient is a known organization. -/
def granteeFunderFold (dataset : CompleteDataset)
    (centralEIN recipientEIN : String) (st2 : NetState) : NetState :=
  match alFind recipientEIN dataset.organizations with
  | some recipientOrg =>
    recipientOrg.grantsReceived.foldl
      (addOtherFunder dataset centralEIN recipientEIN) st2
  | none => st2

/-- One iteration of the grantee loop of `buildCustomEINNetwork`: add the
grantee node when unseen, always add one central link per grant, then walk
the matched organization's other funders.  Groups built by `alPush` are
never empty; the impossible empty group is a no-op.  (The source also
collects the `centralGranteeIds` set, which is never read afterwards and is
not modelled.) -/
def granteeStepCustom (dataset : CompleteDataset)
    (centralEIN centralName : String) (st : NetState)
    (group : String × List Grant) : NetState :=
  match group.2 with
  | [] => st
  | firstGrant :: _ =>
    granteeFunderFold dataset centralEIN group.1
      { nodes :=
          (if st.added.contains group.1 then st.nodes
           else st.nodes ++ [granteeNodeCustom dataset centralEIN centralName
              group.1 group.2 firstGrant])
        links := st.links ++ centralGrantLinks centralEIN group.1 group.2
        added :=
          (if st.added.contains group.1 then st.added
           else st.added ++ [group.1]) }

/-- The central node of `buildCustomEINNetwork`. -/
def centralNodeCustom (centralEIN : String) (f : Foundation) : Node :=
  { id := centralEIN, name := f.name, type := "funder", central := true,
    amount := none, metadata := f.metadata, grantsReceived := none,
    grantsGiven := none }

/-- The grantee fold of `buildCustomEINNetwork`, starting from the central
node already emitted. -/
def buildCustomEINNetworkState (dataset : CompleteDataset)
    (centralEIN : String) (centralFoundation : Foundation) : NetState :=
  (groupGrantsByRecipient (buildNameToEINIndex dataset) dataset
      centralFoundation.grantsGiven).foldl
    (granteeStepCustom dataset centralEIN centralFoundation.name)
    { nodes := [centralNodeCustom centralEIN centralFoundation],
      links := [], added := [centralEIN] }

/-- Model of `buildCustomEINNetwork`: throws when the requested foundation
is not in the dataset, otherwise emits the central node, its grantees and
their other funders. -/
def buildCustomEINNetwork (dataset : CompleteDataset) (centralEIN : String) :
    Except String NetworkGraph :=
  match alFind centralEIN dataset.foundations with
  | none => .error ("Foundation with EIN " ++ centralEIN ++ " not found in dataset")
  | some centralFoundation =>
    .ok { nodes := (buildCustomEINNetworkState dataset centralEIN centralFoundation).nodes
          links := (buildCustomEINNetworkState dataset centralEIN centralFoundation).links }

/-! ### The HLF network builder -/

/-- One `{ amount, year }` pair of the Excel-driven grant groupings. -/
structure AmountYear where
  amount : ℚ
  year : Int
deriving DecidableEq, Repr

/-- One curated HLF grant row (output of `loadHLFGrantsFromExcel`). -/
structure HLFGrant where
  organization : String
  amount : ℚ
  year : Int
deriving DecidableEq, Repr

/-- Group a grant list by lower-cased trimmed organization name (used for
both `hlfGrantsByOrg` and `unmatchedByOrg`). -/
def hlfGrantsByOrg (l : List HLFGrant) : List (String × List AmountYear) :=
  l.foldl (fun m g =>
    alPush (lowerTrim g.organization) { amount := g.amount, year := g.year } m) []

/-- The `hlfGranteeNames` set, as a duplicate-free insertion-ordered list. -/
def hlfNamesOf (l : List HLFGrant) : List String :=
  l.foldl (fun s g =>
    if s.contains (lowerTrim g.organization) then s
    else s ++ [lowerTrim g.organization]) []

/-- The curated grants whose organization name (lower-cased, trimmed)
matches no organization of the dataset. -/
def unmatchedGranteesOf (dataset : CompleteDataset) (l : List HLFGrant) :
    List HLFGrant :=
  l.filter (fun g =>
    !dataset.organizations.any (fun p =>
      lowerTrim p.2.name = lowerTrim g.organization))

/-- Node id minted for a curated grantee absent from the IRS data. -/
def hlfGranteeId (normalizedName : String) : String :=
  "hlf_grantee_" ++ ⟨wsToUnderscore normalizedName.data⟩

/-- `grantsReceived` entries attributed to HLF itself. -/
def hlfReceived (grants : List AmountYear) : List GrantReceived :=
  grants.map (fun g =>
    { funderEIN := "hlf", funderName := "Hidden Leaf Foundation",
      amount := g.amount, year := g.year })

/-- Sum of the amounts of an `AmountYear` list. -/
def sumAY (gs : List AmountYear) : ℚ := (gs.map (fun g => g.amount)).sum

/-- The node emitted for one unmatched curated grantee; the original
(pre-normalisation) spelling is recovered by a `find` over the unmatched
rows, which cannot fail for a group key (`getD ""` models the source's
non-null assertion). -/
def hlfUnmatchedNode (unmatchedGrantees : List HLFGrant)
    (normalizedName : String) (grants : List AmountYear) : Node :=
  { id := hlfGranteeId normalizedName,
    name := ((unmatchedGrantees.find? (fun g =>
        lowerTrim g.organization = normalizedName)).map
      (fun g => g.organization)).getD "",
    type := "grantee", central := false,
    amount := some (sumAY grants),
    metadata := none,
    grantsReceived := some (hlfReceived grants),
    grantsGiven := none }

/-- One `hlf-grant` link from the HLF node to a grantee id. -/
def mkHlfLink (target : String) (g : AmountYear) : Link :=
  { source := "hlf", target := target, amount := g.amount,
    type := "hlf-grant", year := g.year }

/-- `hlf-grant` links of one unmatched grantee group. -/
def hlfUnmatchedLinks (normalizedName : String) (grants : List AmountYear) :
    List Link :=
  grants.map (mkHlfLink (hlfGranteeId normalizedName))

/-- One iteration of the unmatched-grantees loop of `buildHLFNetwork`. -/
def hlfUnmatchedStep (unmatchedGrantees : List HLFGrant) (st : NetState)
    (group : String × List AmountYear) : NetState :=
  { nodes := st.nodes ++ [hlfUnmatchedNode unmatchedGrantees group.1 group.2]
    links := st.links ++ hlfUnmatchedLinks group.1 group.2
    added := st.added ++ [hlfGranteeId group.1] }

/-- The node emitted for a dataset organization matching a curated grantee
name: HLF's own grants are merged in front of the IRS `grantsReceived`. -/
def hlfGranteeNode (orgEIN : String) (org : Organization)
    (hlfGrants : List AmountYear) : Node :=
  { id := orgEIN, name := org.name, type := "grantee", central := false,
    amount := some (sumAY hlfGrants),
    metadata := org.metadata,
    grantsReceived := some (hlfReceived hlfGrants ++ org.grantsReceived),
    grantsGiven := none }

/-- `hlf-grant` links of one matched grantee. -/
def hlfMatchedLinks (orgEIN : String) (hlfGrants : List AmountYear) :
    List Link :=
  hlfGrants.map (mkHlfLink orgEIN)

/-- One iteration of the matched-grantees loop of `buildHLFNetwork`: for an
organization whose name matches a curated grantee, add the grantee node
when unseen, add one `hlf-grant` link per curated grant, then walk its
other funders (skipping `HLF_EIN`). -/
def hlfMatchedStep (dataset : CompleteDataset) (hlfGranteeNames : List String)
    (grantsByOrg : List (String × List AmountYear)) (st : NetState)
    (p : String × Organization) : NetState :=
  if hlfGranteeNames.contains (lowerTrim p.2.name) then
    p.2.grantsReceived.foldl (addOtherFunder dataset HLF_EIN p.1)
      { nodes :=
          (if st.added.contains p.1 then st.nodes
           else st.nodes ++ [hlfGranteeNode p.1 p.2
              ((alFind (lowerTrim p.2.name) grantsByOrg).getD [])])
        links := st.links ++ hlfMatchedLinks p.1
          ((alFind (lowerTrim p.2.name) grantsByOrg).getD [])
        added :=
          (if st.added.contains p.1 then st.added else st.added ++ [p.1]) }
  else st

/-- The fixed HLF central node. -/
def hlfCentralNode : Node :=
  { id := "hlf", name := "Hidden Leaf Foundation", type := "funder",
    central := true, amount := none, metadata := none,
    grantsReceived := none, grantsGiven := none }

/-- The full state fold of `buildHLFNetwork`: central node, then the
unmatched curated grantees, then the matched organizations with their
other funders. -/
def buildHLFNetworkState (dataset : CompleteDataset)
    (allHLFGrantees : List HLFGrant) : NetState :=
  dataset.organizations.foldl
    (hlfMatchedStep dataset (hlfNamesOf allHLFGrantees)
      (hlfGrantsByOrg allHLFGrantees))
    ((hlfGrantsByOrg (unmatchedGranteesOf dataset allHLFGrantees)).foldl
      (hlfUnmatchedStep (unmatchedGranteesOf dataset allHLFGrantees))
      { nodes := [hlfCentralNode], links := [], added := ["hlf"] })

/-- Model of `buildHLFNetwork` (the curated Excel grant list is passed in
as `allHLFGrantees`). -/
def buildHLFNetwork (dataset : CompleteDataset)
    (allHLFGrantees : List HLFGrant) : NetworkGraph :=
  { nodes := (buildHLFNetworkState dataset allHLFGrantees).nodes
    links := (buildHLFNetworkState dataset allHLFGrantees).links }

/-- Per-node reachability of claim C2, exactly as the claim phrases it: a
non-central grantee node carries a direct link from the central node; a
non-central funder node carries a link to some grantee that itself has a
link from the central node. -/
def NodeCovered (centralId : String) (links : List Link) (n : Node) : Prop :=
  n.central = false →
    (n.type = "grantee" ∨ n.type = "funder") ∧
    (n.type = "grantee" →
      ∃ l ∈ links, l.source = centralId ∧ l.target = n.id) ∧
    (n.type = "funder" →
      ∃ l2 ∈ links, l2.source = n.id ∧
        ∃ l1 ∈ links, l1.source = centralId ∧ l1.target = l2.target)

/-- Claim C2's reachability property for a finished network. -/
def TwoHopCovered (centralId : String) (net : NetworkGraph) : Prop :=
  ∀ n ∈ net.nodes, NodeCovered centralId net.links n

/-- The same coverage predicate over an intermediate builder state. -/
def StateCovered (centralId : String) (st : NetState) : Prop :=
  ∀ n ∈ st.nodes, NodeCovered centralId st.links n

/-- Invariant of claim C1 over a builder state: the central node is the
first node emitted, and every node after it has `central = false`. -/
def HeadCentral (cnode : Node) (st : NetState) : Prop :=
  ∃ rest, st.nodes = cnode :: rest ∧ ∀ n ∈ rest, n.central = false

/-! ### JSON documents (claim C5)

`streamDatasetToFile` writes the dataset as text.  JSON values are
modelled by `Json` (numbers as exact decimal rationals), `JSON.stringify`
by the `enc…` functions below (which also fix the property order of the
runtime objects), the raw-string-interpolation layout of the stream writer
by `streamDatasetOutput`, and `JSON.parse` by the fuel-indexed recursive
parser `parseV`. -/

/-- JSON values. -/
inductive Json where
  | null : Json
  | bool (b : Bool) : Json
  | num (q : ℚ) : Json
  | str (s : String) : Json
  | arr (items : List Json) : Json
  | obj (members : List (String × Json)) : Json
deriving Repr

/-- The decimal digit characters. -/
def digitChar : Nat → Char
  | 0 => '0' | 1 => '1' | 2 => '2' | 3 => '3' | 4 => '4'
  | 5 => '5' | 6 => '6' | 7 => '7' | 8 => '8' | 9 => '9'
  | _ => '!'

/-- The lower-case hexadecimal digit characters. -/
def hexDigit (n : Nat) : Char :=
  if n < 10 then digitChar n
  else if n = 10 then 'a' else if n = 11 then 'b' else if n = 12 then 'c'
  else if n = 13 then 'd' else if n = 14 then 'e' else if n = 15 then 'f'
  else '!'

/-- Fuel-indexed worker producing the decimal digits of a natural number
(most significant first). -/
def natDigsGo : Nat → Nat → List Char
  | 0, _ => []
  | fuel+1, n =>
    if n < 10 then [digitChar n]
    else natDigsGo fuel (n / 10) ++ [digitChar (n % 10)]

/-- Decimal digits of a natural number. -/
def natDigs (n : Nat) : List Char := natDigsGo (n + 1) n

/-- Exactly `k` decimal digits of `f` (left-padded with zeros). -/
def padDigits (k f : Nat) : List Char :=
  List.replicate (k - (natDigs f).length) '0' ++ natDigs f

/-- Bounded search for an exponent `k` (starting at `start`) with
`den ∣ 10 ^ k`. -/
def searchPow10 (den : Nat) : Nat → Nat → Option Nat
  | start, 0 => if den ∣ 10 ^ start then some start else none
  | start, fuel+1 =>
    if den ∣ 10 ^ start then some start else searchPow10 den (start + 1) fuel

/-- A rational is decimal-representable when its (reduced) denominator
divides a power of ten — exactly the values a JavaScript number can carry
into a JSON document.  The fixed exponent `q.den` is always large enough. -/
def decRepr (q : ℚ) : Prop := q.den ∣ 10 ^ q.den

/-- Decimal rendering of a rational (model of `JSON.stringify` on a
number): sign, integer digits and, when the denominator is not 1, `.`
followed by the fraction digits.  Values with a non-decimal denominator do
not arise from JavaScript numbers; they fall back to the integer part. -/
def printQ (q : ℚ) : List Char :=
  (if q.num < 0 then ['-'] else []) ++
  match searchPow10 q.den 0 q.den with
  | some k =>
    if k = 0 then natDigs q.num.natAbs
    else
      natDigs (q.num.natAbs * 10 ^ k / q.den / 10 ^ k) ++
        '.' :: padDigits k (q.num.natAbs * 10 ^ k / q.den % 10 ^ k)
  | none => natDigs (q.num.natAbs / q.den)

/-- JSON escape of one character inside a string literal, as
`JSON.stringify` performs it. -/
def escChar (c : Char) : List Char :=
  if c = '"' then ['\\', '"']
  else if c = '\\' then ['\\', '\\']
  else if c = '\n' then ['\\', 'n']
  else if c = '\r' then ['\\', 'r']
  else if c = '\t' then ['\\', 't']
  else if c = '\x08' then ['\\', 'b']
  else if c = '\x0c' then ['\\', 'f']
  else if c.toNat < 32 then
    ['\\', 'u', '0', '0', hexDigit (c.toNat / 16), hexDigit (c.toNat % 16)]
  else [c]

/-- Escaped body of a JSON string literal. -/
def encStrBody (cs : List Char) : List Char := cs.flatMap escChar

/-- A JSON string literal. -/
def encStr (s : String) : List Char := '"' :: encStrBody s.data ++ ['"']

/-- Comma-join pre-rendered pieces. -/
def commaJoin : List (List Char) → List Char
  | [] => []
  | [m] => m
  | m :: m2 :: rest => m ++ ',' :: commaJoin (m2 :: rest)

/-- One rendered object member. -/
def member (k : String) (v : List Char) : List Char := encStr k ++ ':' :: v

/-- A rendered JSON object from rendered members. -/
def encObjT (ms : List (List Char)) : List Char := '{' :: commaJoin ms ++ ['}']

/-- A rendered JSON array from rendered items. -/
def encArrT (items : List (List Char)) : List Char :=
  '[' :: commaJoin items ++ [']']

/-- `JSON.stringify` of one `Grant` (property order of the object built in
`processXmlFile`). -/
def encGrant (g : Grant) : List Char :=
  encObjT
    [ member "recipientEIN" (encStr g.recipientEIN),
      member "recipientName" (encStr g.recipientName),
      member "amount" (printQ g.amount),
      member "year" (printQ (g.year : ℚ)),
      member "recipientCity" (encStr g.recipientCity),
      member "recipientState" (encStr g.recipientState),
      member "recipientZip" (encStr g.recipientZip) ]

/-- `JSON.stringify` of one `grantsReceived` entry. -/
def encGrantReceived (e : GrantReceived) : List Char :=
  encObjT
    [ member "funderEIN" (encStr e.funderEIN),
      member "funderName" (encStr e.funderName),
      member "amount" (printQ e.amount),
      member "year" (printQ (e.year : ℚ)) ]

/-- `JSON.stringify` of a metadata record: the optional address fields are
omitted when absent (JavaScript `undefined`), while `assets` / `revenue`
are always present — `none` there models `NaN`, which stringifies to
`null`. -/
def encMetaJs (md : MetaJs) : List Char :=
  encObjT
    ((match md.address with
      | some a => [member "address" (encStr a)]
      | none => []) ++
     (match md.city with
      | some c => [member "city" (encStr c)]
      | none => []) ++
     (match md.state with
      | some s => [member "state" (encStr s)]
      | none => []) ++
     [ member "assets"
        (match md.assets with
         | some q => printQ q
         | none => ['n','u','l','l']),
       member "revenue"
        (match md.revenue with
         | some q => printQ q
         | none => ['n','u','l','l']) ])

/-- `JSON.stringify` of one `Foundation`. -/
def encFoundation (f : Foundation) : List Char :=
  encObjT
    ([ member "ein" (encStr f.ein),
       member "name" (encStr f.name),
       member "grantsGiven" (encArrT (f.grantsGiven.map encGrant)) ] ++
     (match f.metadata with
      | some md => [member "metadata" (encMetaJs md)]
      | none => []))

/-- `JSON.stringify` of one `Organization` (the `metadata` property, when
present, was assigned after creation and is therefore last). -/
def encOrganization (o : Organization) : List Char :=
  encObjT
    ([ member "ein" (encStr o.ein),
       member "name" (encStr o.name),
       member "grantsReceived" (encArrT (o.grantsReceived.map encGrantReceived)) ] ++
     (match o.metadata with
      | some md => [member "metadata" (encMetaJs md)]
      | none => []))

/-- `JSON.stringify` of the dataset metadata. -/
def encDatasetMeta (m : DatasetMeta) : List Char :=
  encObjT
    [ member "foundationsProcessed" (printQ (m.foundationsProcessed : ℚ)),
      member "totalGrants" (printQ (m.totalGrants : ℚ)),
      member "generatedAt" (encStr m.generatedAt) ]

/-- The per-entry lines of the stream writer: each entry is written as
`"KEY": VALUE` — with the key interpolated raw, not JSON-escaped —
followed by a comma on every line but the last, then a newline. -/
def streamEntries : List (String × List Char) → List Char
  | [] => []
  | [(k, v)] => '"' :: k.data ++ '"' :: ':' :: ' ' :: v ++ ['\n']
  | (k, v) :: e2 :: rest =>
    '"' :: k.data ++ '"' :: ':' :: ' ' :: v ++ ',' :: '\n' ::
      streamEntries (e2 :: rest)

/-- The concatenation of every chunk `streamDatasetToFile` writes. -/
def streamDatasetOutput (d : CompleteDataset) : String :=
  ⟨"\x7b\n\"foundations\": \x7b\n".data ++
    streamEntries (d.foundations.map (fun p => (p.1, encFoundation p.2))) ++
    "\x7d,\n\"organizations\": \x7b\n".data ++
    streamEntries (d.organizations.map (fun p => (p.1, encOrganization p.2))) ++
    "\x7d,\n\"metadata\": ".data ++ encDatasetMeta d.metadata ++
    "\n\x7d\n".data⟩

/-- Json image of one `Grant`. -/
def grantToJson (g : Grant) : Json :=
  .obj
    [ ("recipientEIN", .str g.recipientEIN),
      ("recipientName", .str g.recipientName),
      ("amount", .num g.amount),
      ("year", .num (g.year : ℚ)),
      ("recipientCity", .str g.recipientCity),
      ("recipientState", .str g.recipientState),
      ("recipientZip", .str g.recipientZip) ]

/-- Json image of one `grantsReceived` entry. -/
def grantReceivedToJson (e : GrantReceived) : Json :=
  .obj
    [ ("funderEIN", .str e.funderEIN),
      ("funderName", .str e.funderName),
      ("amount", .num e.amount),
      ("year", .num (e.year : ℚ)) ]

/-- Json image of a metadata record (same optionality as `encMetaJs`). -/
def metaJsToJson (md : MetaJs) : Json :=
  .obj
    ((match md.address with
      | some a => [("address", Json.str a)]
      | none => []) ++
     (match md.city with
      | some c => [("city", Json.str c)]
      | none => []) ++
     (match md.state with
      | some s => [("state", Json.str s)]
      | none => []) ++
     [ ("assets", match md.assets with
        | some q => Json.num q
        | none => Json.null),
       ("revenue", match md.revenue with
        | some q => Json.num q
        | none => Json.null) ])

/-- Json image of one `Foundation`. -/
def foundationToJson (f : Foundation) : Json :=
  .obj
    ([ ("ein", Json.str f.ein),
       ("name", Json.str f.name),
       ("grantsGiven", Json.arr (f.grantsGiven.map grantToJson)) ] ++
     (match f.metadata with
      | some md => [("metadata", metaJsToJson md)]
      | none => []))

/-- Json image of one `Organization`. -/
def organizationToJson (o : Organization) : Json :=
  .obj
    ([ ("ein", Json.str o.ein),
       ("name", Json.str o.name),
       ("grantsReceived", Json.arr (o.grantsReceived.map grantReceivedToJson)) ] ++
     (match o.metadata with
      | some md => [("metadata", metaJsToJson md)]
      | none => []))

/-- Json image of the dataset metadata. -/
def datasetMetaToJson (m : DatasetMeta) : Json :=
  .obj
    [ ("foundationsProcessed", .num (m.foundationsProcessed : ℚ)),
      ("totalGrants", .num (m.totalGrants : ℚ)),
      ("generatedAt", .str m.generatedAt) ]

/-- Json image of a whole `CompleteDataset`. -/
def datasetToJson (d : CompleteDataset) : Json :=
  .obj
    [ ("foundations", .obj (d.foundations.map
        (fun p => (p.1, foundationToJson p.2)))),
      ("organizations", .obj (d.organizations.map
        (fun p => (p.1, organizationToJson p.2)))),
      ("metadata", datasetMetaToJson d.metadata) ]

/-- JSON whitespace. -/
def isWsJson (c : Char) : Bool := c = ' ' || c = '\n' || c = '\t' || c = '\r'

/-- Drop leading JSON whitespace. -/
def skipWs (cs : List Char) : List Char := cs.dropWhile isWsJson

/-- Value of one hexadecimal digit character. -/
def parseHex (c : Char) : Option Nat :=
  if isDigitChar c then some (digVal c)
  else if 97 ≤ c.toNat && c.toNat ≤ 102 then some (c.toNat - 87)
  else if 65 ≤ c.toNat && c.toNat ≤ 70 then some (c.toNat - 55)
  else none

/-- The character an escape letter names, when it is a single-letter
escape. -/
def escLetter (e : Char) : Option Char :=
  if e = '"' then some '"'
  else if e = '\\' then some '\\'
  else if e = '/' then some '/'
  else if e = 'n' then some '\n'
  else if e = 'r' then some '\r'
  else if e = 't' then some '\t'
  else if e = 'b' then some '\x08'
  else if e = 'f' then some '\x0c'
  else none

/-- Decode one escape sequence (the part after the backslash), returning
the denoted character and the remaining input. -/
def escDecode (rest : List Char) : Option (Char × List Char) :=
  match rest with
  | [] => none
  | e :: rest1 =>
    match escLetter e with
    | some r => some (r, rest1)
    | none =>
      if e = 'u' then
        match rest1 with
        | h1 :: h2 :: h3 :: h4 :: rest2 =>
          match parseHex h1, parseHex h2, parseHex h3, parseHex h4 with
          | some a, some b, some hc, some d =>
            some (Char.ofNat (((a * 16 + b) * 16 + hc) * 16 + d), rest2)
          | _, _, _, _ => none
        | _ => none
      else none

/-- Parse the body of a JSON string literal (after the opening quote) up to
and including the closing quote, resolving escapes.  Fuel-indexed; every
step consumes at least one character. -/
def parseStrBody : Nat → List Char → Option (List Char × List Char)
  | 0, _ => none
  | fuel + 1, cs =>
    match cs with
    | [] => none
    | c :: rest =>
      if c = '"' then some ([], rest)
      else if c = '\\' then
        match escDecode rest with
        | some (r, rest2) => (parseStrBody fuel rest2).map (fun p => (r :: p.1, p.2))
        | none => none
      else (parseStrBody fuel rest).map (fun p => (c :: p.1, p.2))

/-- Integer-or-fraction tail of a number token: `ip` integer digits already
taken, `cs2` what follows them. -/
def numFrac (neg : Bool) (ip cs2 : List Char) : Option (ℚ × List Char) :=
  match cs2 with
  | [] => some (mkRat (intSign neg (digitsToNat ip)) 1, [])
  | c :: cs3 =>
    if c = '.' then
      if (leadDigits cs3).isEmpty then none
      else some (mkRat
        (intSign neg
          (digitsToNat ip * 10 ^ (leadDigits cs3).length +
            digitsToNat (leadDigits cs3)))
        (10 ^ (leadDigits cs3).length), cs3.drop (leadDigits cs3).length)
    else some (mkRat (intSign neg (digitsToNat ip)) 1, cs2)

/-- Number token after the optional sign. -/
def numTail (neg : Bool) (cs1 : List Char) : Option (ℚ × List Char) :=
  if (leadDigits cs1).isEmpty then none
  else numFrac neg (leadDigits cs1) (cs1.drop (leadDigits cs1).length)

/-- Parse a JSON number token (sign, integer digits, optional fraction;
this pipeline's documents carry no exponents). -/
def parseNumToken (cs : List Char) : Option (ℚ × List Char) :=
  match cs with
  | [] => none
  | c :: cs1 => if c = '-' then numTail true cs1 else numTail false (c :: cs1)

mutual

/-- Fuel-indexed recursive-descent JSON value grammar (model of
`JSON.parse`, without exponent forms). -/
def parseV : Nat → List Char → Option (Json × List Char)
  | 0, _ => none
  | fuel+1, cs =>
    match skipWs cs with
    | [] => none
    | c :: cs1 =>
      if c = '"' then
        match parseStrBody fuel cs1 with
        | some (s, r) => some (.str ⟨s⟩, r)
        | none => none
      else if c = '{' then
        match skipWs cs1 with
        | '}' :: r => some (.obj [], r)
        | cs2 =>
          match parseMembersJson fuel cs2 with
          | some (ms, r) => some (.obj ms, r)
          | none => none
      else if c = '[' then
        match skipWs cs1 with
        | ']' :: r => some (.arr [], r)
        | cs2 =>
          match parseItemsJson fuel cs2 with
          | some (xs, r) => some (.arr xs, r)
          | none => none
      else if c = 'n' then
        match cs1 with
        | 'u' :: 'l' :: 'l' :: r => some (.null, r)
        | _ => none
      else if c = 't' then
        match cs1 with
        | 'r' :: 'u' :: 'e' :: r => some (.bool true, r)
        | _ => none
      else if c = 'f' then
        match cs1 with
        | 'a' :: 'l' :: 's' :: 'e' :: r => some (.bool false, r)
        | _ => none
      else if c = '-' || isDigitChar c then
        match parseNumToken (c :: cs1) with
        | some (q, r) => some (.num q, r)
        | none => none
      else none

/-- Members of a nonempty JSON object, starting at the first key's opening
quote. -/
def parseMembersJson : Nat → List Char → Option (List (String × Json) × List Char)
  | 0, _ => none
  | fuel+1, cs =>
    match cs with
    | '"' :: cs1 =>
      match parseStrBody fuel cs1 with
      | some (k, cs2) =>
        match skipWs cs2 with
        | ':' :: cs3 =>
          match parseV fuel cs3 with
          | some (v, cs4) =>
            match skipWs cs4 with
            | ',' :: cs5 =>
              match parseMembersJson fuel (skipWs cs5) with
              | some (ms, r) => some ((⟨k⟩, v) :: ms, r)
              | none => none
            | '}' :: cs5 => some ([(⟨k⟩, v)], cs5)
            | _ => none
          | none => none
        | _ => none
      | none => none
    | _ => none

/-- Items of a nonempty JSON array. -/
def parseItemsJson : Nat → List Char → Option (List Json × List Char)
  | 0, _ => none
  | fuel+1, cs =>
    match parseV fuel cs with
    | some (v, cs2) =>
      match skipWs cs2 with
      | ',' :: cs3 =>
        match parseItemsJson fuel (skipWs cs3) with
        | some (xs, r) => some (v :: xs, r)
        | none => none
      | ']' :: cs3 => some ([v], cs3)
      | _ => none
    | none => none

end

/-- The object branch of `parseV` on the already-dispatched members. -/
def objBranch (f : Nat) (cs2 : List Char) : Option (Json × List Char) :=
  match parseMembersJson f cs2 with
  | some (ms, r) => some (.obj ms, r)
  | none => none

/-- The array branch of `parseV` on the already-dispatched items. -/
def arrBranch (f : Nat) (cs2 : List Char) : Option (Json × List Char) :=
  match parseItemsJson f cs2 with
  | some (xs, r) => some (.arr xs, r)
  | none => none

/-- The body of `parseV` once leading whitespace is gone and the head
character is exposed (definitionally equal to the corresponding arm of
`parseV`). -/
def parseVHead (f : Nat) (c : Char) (cs1 : List Char) : Option (Json × List Char) :=
  if c = '"' then
    match parseStrBody f cs1 with
    | some (s, r) => some (.str ⟨s⟩, r)
    | none => none
  else if c = '{' then
    match skipWs cs1 with
    | '}' :: r => some (.obj [], r)
    | cs2 => objBranch f cs2
  else if c = '[' then
    match skipWs cs1 with
    | ']' :: r => some (.arr [], r)
    | cs2 => arrBranch f cs2
  else if c = 'n' then
    match cs1 with
    | 'u' :: 'l' :: 'l' :: r => some (.null, r)
    | _ => none
  else if c = 't' then
    match cs1 with
    | 'r' :: 'u' :: 'e' :: r => some (.bool true, r)
    | _ => none
  else if c = 'f' then
    match cs1 with
    | 'a' :: 'l' :: 's' :: 'e' :: r => some (.bool false, r)
    | _ => none
  else if c = '-' || isDigitChar c then
    match parseNumToken (c :: cs1) with
    | some (q, r) => some (.num q, r)
    | none => none
  else none

/-- Continuation of `parseMembersJson` after a member's value. -/
def membersAfterVal (f : Nat) (k : List Char) (v : Json) :
    List Char → Option (List (String × Json) × List Char)
  | ',' :: cs5 =>
    (match parseMembersJson f (skipWs cs5) with
     | some (ms, r) => some ((⟨k⟩, v) :: ms, r)
     | none => none)
  | '}' :: cs5 => some ([(⟨k⟩, v)], cs5)
  | _ => none

/-- Continuation of `parseMembersJson` after a member's key and colon. -/
def membersAfterColon (f : Nat) (k : List Char) (cs3 : List Char) :
    Option (List (String × Json) × List Char) :=
  match parseV f cs3 with
  | some (v, cs4) => membersAfterVal f k v (skipWs cs4)
  | none => none

/-- Continuation of `parseMembersJson` after a member's key. -/
def membersAfterKey (f : Nat) (k : List Char) (cs2 : List Char) :
    Option (List (String × Json) × List Char) :=
  match skipWs cs2 with
  | ':' :: cs3 => membersAfterColon f k cs3
  | _ => none

/-- Continuation of `parseItemsJson` after an item's value. -/
def itemsAfterVal (f : Nat) (v : Json) :
    List Char → Option (List Json × List Char)
  | ',' :: cs3 =>
    (match parseItemsJson f (skipWs cs3) with
     | some (xs, r) => some (v :: xs, r)
     | none => none)
  | ']' :: cs3 => some ([v], cs3)
  | _ => none

/-- Model of `JSON.parse` on a whole document: one value, then only
whitespace may remain. -/
def parseJson (s : String) : Option Json :=
  match parseV (s.data.length + 1) s.data with
  | some (j, r) => if (skipWs r).isEmpty then some j else none
  | none => none

/-- The character following a number token must not extend it. -/
def numSafe : List Char → Prop
  | [] => True
  | c :: _ => isDigitChar c = false ∧ c ≠ '.'

/-- A rendered value `V` encodes the Json value `j`: with fuel beyond the
value's own length and any non-number-extending continuation, the parser
consumes exactly `V`. -/
def EncodesVal (V : List Char) (j : Json) : Prop :=
  ∀ (fuel : Nat) (rest : List Char), V.length < fuel →
    numSafe rest → parseV fuel (V ++ rest) = some (j, rest)

/-- Characters the stream writer may interpolate raw between quotes
without breaking the JSON string syntax (nothing `JSON.stringify` would
escape). -/
def jsonPlainChar (c : Char) : Bool :=
  !(c = '"') && !(c = '\\') && !(decide (c.toNat < 32))

/-- All of a map key's characters are safe for raw interpolation. -/
def keySafe (k : String) : Prop := ∀ c ∈ k.data, jsonPlainChar c = true

/-- All keys of both maps of a dataset are safe for raw interpolation. -/
def datasetKeysSafe (d : CompleteDataset) : Prop :=
  (∀ p ∈ d.foundations, keySafe p.1) ∧ (∀ p ∈ d.organizations, keySafe p.1)

/-- Every number stored in a metadata record is decimal-representable. -/
def metaDecimalOk (md : MetaJs) : Prop :=
  (∀ q, md.assets = some q → decRepr q) ∧ (∀ q, md.revenue = some q → decRepr q)

/-- Every number stored in the dataset is decimal-representable (true of
every value a JavaScript number can hold). -/
def datasetDecimalOk (d : CompleteDataset) : Prop :=
  (∀ p ∈ d.foundations, (∀ g ∈ p.2.grantsGiven, decRepr g.amount) ∧
    (∀ md, p.2.metadata = some md → metaDecimalOk md)) ∧
  (∀ p ∈ d.organizations, (∀ e ∈ p.2.grantsReceived, decRepr e.amount) ∧
    (∀ md, p.2.metadata = some md → metaDecimalOk md))

/-! ### Concrete test inputs used by the closed witness theorems -/

/-- A concrete 990-PF recipient row with a valid name and amount. -/
def rowAcme : RecipientXml :=
  { businessNameLine1Txt := some "Acme", personNm := none, organizationNm := none,
    recipientEIN := some "987", amt := some "5000", amount := none,
    cashGrantAmt := none, usAddress := none }

/-- A concrete 990-PF recipient row with a zero amount (must be dropped). -/
def rowBob : RecipientXml :=
  { businessNameLine1Txt := none, personNm := some "Bob", organizationNm := none,
    recipientEIN := none, amt := some "0", amount := none,
    cashGrantAmt := none, usAddress := none }

/-- A concrete parsed 990-PF return with one good and one bad grant row. -/
def cretC4 : ParsedReturn :=
  { returnData := some
      { irs990PF := some
          { balanceSheets := none, revenueExpenses := none,
            suppInfoGrantGroups := some [rowAcme, rowBob],
            grantOrContributionPdDurYrGrp := none,
            grantOrContribPaidDuringYear := none }
        irs990 := none }
    returnHeader := some
      { filer := some
          { ein := some "123", businessNameLine1Txt := some "TestF",
            businessNameLine1 := none, usAddress := none }
        taxYr := some "2022" } }

/-- The concrete on-disk document wrapping `cretC4`. -/
def cdocC4 : RawDoc :=
  { hasIRS990PFTag := true, hasIRS990Tag := true, parsed := .ok cretC4 }

/-- The record `processXmlFile` extracts from `cdocC4`. -/
def cresC4 : PFRecord :=
  { funderEIN := some "123", funderName := "TestF",
    grants := [{ recipientEIN := "987", recipientName := "Acme", amount := 5000,
                 year := 2022, recipientCity := "", recipientState := "",
                 recipientZip := "" }],
    metadata := some { address := none, city := none, state := none,
                       assets := some 0, revenue := some 0 } }

/-- A concrete foundation with no grants. -/
def fndW : Foundation :=
  { ein := "E1", name := "F1", grantsGiven := [], metadata := none }

/-- A concrete one-foundation dataset. -/
def dsW : CompleteDataset :=
  { foundations := [("E1", fndW)], organizations := [],
    metadata := { foundationsProcessed := 1, totalGrants := 0, generatedAt := "t" } }

/-- The network `buildCustomEINNetwork` derives from `dsW` for EIN `E1`. -/
def netW : NetworkGraph :=
  { nodes := [centralNodeCustom "E1" fndW], links := [] }

/-- A concrete dataset whose only organization is named `Acme Inc`. -/
def dsC7 : CompleteDataset :=
  { foundations := [],
    organizations := [("111",
      { ein := "111", name := "Acme Inc", grantsReceived := [], metadata := none })],
    metadata := { foundationsProcessed := 0, totalGrants := 0, generatedAt := "t" } }

/-- A concrete grant with no recipient EIN whose normalised name matches
exactly one organization of `dsC7`. -/
def gC7 : Grant :=
  { recipientEIN := "", recipientName := "Acme", amount := 5, year := 2023,
    recipientCity := "", recipientState := "", recipientZip := "" }

/-- Key/rendering/Json triple of an optional string member (omitted when
absent), as `encMetaJs` and `metaJsToJson` lay it out. -/
def metaOptTriple (nm : String) : Option String → List (String × List Char × Json)
  | some a => [(nm, encStr a, .str a)]
  | none => []

/-- Key/rendering/Json triple of a nullable number member. -/
def metaNumTriple (nm : String) : Option ℚ → String × List Char × Json
  | some q => (nm, printQ q, .num q)
  | none => (nm, ['n', 'u', 'l', 'l'], .null)

/-- Key/rendering/Json triple of the optional trailing metadata member of a
foundation or organization. -/
def metaTripleOpt : Option MetaJs → List (String × List Char × Json)
  | some md => [("metadata", encMetaJs md, metaJsToJson md)]
  | none => []

/-- The member triples of a rendered metadata record. -/
def metaTriples (md : MetaJs) : List (String × List Char × Json) :=
  metaOptTriple "address" md.address ++ metaOptTriple "city" md.city ++
    metaOptTriple "state" md.state ++
    [metaNumTriple "assets" md.assets, metaNumTriple "revenue" md.revenue]

/-- A dataset whose only foundation key contains a double quote, exactly
the raw-interpolation hazard of the stream writer. -/
def cexC5 : CompleteDataset :=
  { foundations :=
      [("a\"b", { ein := "x", name := "F", grantsGiven := [], metadata := none })],
    organizations := [],
    metadata := { foundationsProcessed := 1, totalGrants := 0, generatedAt := "t" } }

/-- A grant with a fractional amount and strings needing escapes. -/
def gW5 : Grant :=
  { recipientEIN := "98-7", recipientName := "Acme \"A\" Inc", amount := mkRat 25 10,
    year := 2023, recipientCity := "Salt\nLake", recipientState := "UT",
    recipientZip := "84101" }

/-- A dataset exercising every encoder branch with safe map keys. -/
def dsW5 : CompleteDataset :=
  { foundations :=
      [("12-3", { ein := "12-3", name := "Fund\\One", grantsGiven := [gW5],
                  metadata := some { address := some "1 Way", city := none,
                                     state := some "UT", assets := some 100,
                                     revenue := none } })],
    organizations :=
      [("98-7", { ein := "98-7", name := "Acme \"A\" Inc",
                  grantsReceived :=
                    [{ funderEIN := "12-3", funderName := "Fund\\One",
                       amount := mkRat 25 10, year := 2023 }],
                  metadata := none })],
    metadata := { foundationsProcessed := 1, totalGrants := 1,
                  generatedAt := "2024-01-01T00:00:00.000Z" } }

/-! ## Association-list lemmas -/

theorem alFind_mem {α : Type} {k : String} {v : α} :
    ∀ {l : List (String × α)}, alFind k l = some v → (k, v) ∈ l := by
  intro l
  induction l with
  | nil => intro h; simp [alFind] at h
  | cons p rest ih =>
    intro h
    obtain ⟨k', v'⟩ := p
    by_cases hk : k' = k
    · subst hk
      simp [alFind] at h
      subst h
      exact List.mem_cons_self _ _
    · simp [alFind, hk] at h
      exact List.mem_cons_of_mem _ (ih h)

theorem alFind_isSome_of_mem_keys {α : Type} {k : String} :
    ∀ {l : List (String × α)}, k ∈ alKeys l → (alFind k l).isSome = true := by
  intro l
  induction l with
  | nil => intro h; simp [alKeys] at h
  | cons p rest ih =>
    intro h
    obtain ⟨k', v'⟩ := p
    by_cases hk : k' = k
    · simp [alFind, hk]
    · simp [alKeys] at h
      rcases h with h | h
      · exact absurd h.symm hk
      · simpa [alFind, hk] using ih (by simpa [alKeys] using h)

theorem alFind_append {α : Type} (k : String) (l₁ l₂ : List (String × α)) :
    alFind k (l₁ ++ l₂) =
      match alFind k l₁ with
      | some v => some v
      | none => alFind k l₂ := by
  induction l₁ with
  | nil => simp [alFind]
  | cons p rest ih =>
    obtain ⟨k', v'⟩ := p
    by_cases hk : k' = k <;> simp [alFind, hk, ih]

theorem alFind_setIfAbsent_self {α : Type} (k : String) (v : α)
    (l : List (String × α)) :
    alFind k (alSetIfAbsent k v l) =
      match alFind k l with
      | some v' => some v'
      | none => some v := by
  unfold alSetIfAbsent
  cases h : alFind k l with
  | some v' => simp [h]
  | none => simp [alFind_append, h, alFind]

theorem alSumBy_append {α : Type} (w : α → Nat) (l₁ l₂ : List (String × α)) :
    alSumBy w (l₁ ++ l₂) = alSumBy w l₁ + alSumBy w l₂ := by
  simp [alSumBy]

theorem alSumBy_singleton {α : Type} (w : α → Nat) (k : String) (v : α) :
    alSumBy w [(k, v)] = w v := by
  simp [alSumBy]

theorem alSumBy_setIfAbsent {α : Type} (w : α → Nat) (k : String) (v : α)
    (l : List (String × α)) :
    alSumBy w (alSetIfAbsent k v l) =
      alSumBy w l + (match alFind k l with | some _ => 0 | none => w v) := by
  unfold alSetIfAbsent
  cases h : alFind k l with
  | some v' => simp
  | none => simp [alSumBy_append, alSumBy]

theorem alSumBy_adjust {α : Type} (w : α → Nat) (k : String) (g : α → α)
    {v : α} :
    ∀ {l : List (String × α)}, alFind k l = some v →
      alSumBy w (alAdjust k g l) + w v = alSumBy w l + w (g v) := by
  intro l
  induction l with
  | nil => intro h; simp [alFind] at h
  | cons p rest ih =>
    intro h
    obtain ⟨k', v'⟩ := p
    by_cases hk : k' = k
    · subst hk
      simp [alFind] at h
      subst h
      simp [alAdjust, alSumBy]
      omega
    · simp [alFind, hk] at h
      have := ih h
      simp [alAdjust, hk, alSumBy] at this ⊢
      omega

theorem alSumBy_erase {α : Type} (w : α → Nat) (k : String) {v : α} :
    ∀ {l : List (String × α)}, alFind k l = some v →
      alSumBy w (alErase k l) + w v = alSumBy w l := by
  intro l
  induction l with
  | nil => intro h; simp [alFind] at h
  | cons p rest ih =>
    intro h
    obtain ⟨k', v'⟩ := p
    by_cases hk : k' = k
    · subst hk
      simp [alFind] at h
      subst h
      simp [alErase, alSumBy]
      omega
    · simp [alFind, hk] at h
      have := ih h
      simp [alErase, hk, alSumBy] at this ⊢
      omega

theorem alFind_adjust_ne {α : Type} {k' k : String} (g : α → α)
    (hne : k' ≠ k) :
    ∀ (l : List (String × α)), alFind k' (alAdjust k g l) = alFind k' l := by
  intro l
  induction l with
  | nil => simp [alAdjust]
  | cons p rest ih =>
    obtain ⟨k₀, v₀⟩ := p
    by_cases hk : k₀ = k
    · subst hk
      have : ¬(k₀ = k') := fun h => hne (h.symm ▸ rfl)
      simp [alAdjust, alFind, this]
    · by_cases hk2 : k₀ = k' <;> simp [alAdjust, alFind, hk, hk2, ih, hne]

theorem alFind_adjust_isSome {α : Type} (k' k : String) (g : α → α)
    (l : List (String × α)) :
    (alFind k' (alAdjust k g l)).isSome = (alFind k' l).isSome := by
  induction l with
  | nil => simp [alAdjust]
  | cons p rest ih =>
    obtain ⟨k₀, v₀⟩ := p
    by_cases hk : k₀ = k
    · subst hk
      by_cases hk2 : k₀ = k' <;> simp [alAdjust, alFind, hk2]
    · by_cases hk2 : k₀ = k'
      · subst hk2
        simp [alAdjust, alFind, hk]
      · simp [alAdjust, alFind, hk, hk2, ih]

theorem alFind_erase_ne {α : Type} {k' k : String} (hne : k' ≠ k) :
    ∀ (l : List (String × α)), alFind k' (alErase k l) = alFind k' l := by
  intro l
  induction l with
  | nil => simp [alErase]
  | cons p rest ih =>
    obtain ⟨k₀, v₀⟩ := p
    by_cases hk : k₀ = k
    · subst hk
      have : ¬(k₀ = k') := fun h => hne (h.symm ▸ rfl)
      simp [alErase, alFind, this]
    · by_cases hk2 : k₀ = k' <;> simp [alErase, alFind, hk, hk2, ih, hne]

theorem alPush_sub {α : Type} {S : α → Prop} {x : α} {k : String} :
    ∀ {l : List (String × List α)},
      (∀ q ∈ l, ∀ e ∈ q.2, S e) → S x →
      ∀ q ∈ alPush k x l, ∀ e ∈ q.2, S e := by
  intro l
  induction l with
  | nil =>
    intro _ hx q hq e he
    simp [alPush] at hq
    subst hq
    simp at he
    exact he ▸ hx
  | cons p rest ih =>
    intro hl hx q hq e he
    obtain ⟨k₀, xs₀⟩ := p
    by_cases hk : k₀ = k
    · simp [alPush, hk] at hq
      rcases hq with hq | hq
      · subst hq
        simp at he
        rcases he with he | he
        · exact hl (k₀, xs₀) (List.mem_cons_self _ _) e (by simpa using he)
        · exact he ▸ hx
      · exact hl q (List.mem_cons_of_mem _ hq) e he
    · simp [alPush, hk] at hq
      rcases hq with hq | hq
      · subst hq
        exact hl (k₀, xs₀) (List.mem_cons_self _ _) e he
      · exact ih (fun q hq => hl q (List.mem_cons_of_mem _ hq)) hx q hq e he

/-! ## Dataset-builder lemmas (claim C10) -/

theorem wOrg_pushReceived (e : GrantReceived) (o : Organization) :
    wOrg (pushReceived e o) = wOrg o + 1 := by
  simp [wOrg, pushReceived]

theorem wFnd_appendGiven (gs : List Grant) (f : Foundation) :
    wFnd (appendGiven gs f) = wFnd f + gs.length := by
  simp [wFnd, appendGiven]

theorem addGrantToOrgs_sum (fe fn : String) (orgs : List (String × Organization))
    (g : Grant) :
    alSumBy wOrg (addGrantToOrgs fe fn orgs g) = alSumBy wOrg orgs + 1 := by
  unfold addGrantToOrgs
  cases h : alFind (recipientKeyOf g) orgs with
  | some v =>
    have hset : alSetIfAbsent (recipientKeyOf g)
        (newOrgEntry (recipientKeyOf g) g.recipientName) orgs = orgs := by
      unfold alSetIfAbsent; rw [h]
    rw [hset]
    have hadj := alSumBy_adjust wOrg (recipientKeyOf g)
      (pushReceived
        { funderEIN := fe, funderName := fn, amount := g.amount, year := g.year }) h
    rw [wOrg_pushReceived] at hadj
    omega
  | none =>
    have hset : alSetIfAbsent (recipientKeyOf g)
        (newOrgEntry (recipientKeyOf g) g.recipientName) orgs
        = orgs ++ [(recipientKeyOf g, newOrgEntry (recipientKeyOf g) g.recipientName)] := by
      unfold alSetIfAbsent; rw [h]
    rw [hset]
    have hfind : alFind (recipientKeyOf g)
        (orgs ++ [(recipientKeyOf g, newOrgEntry (recipientKeyOf g) g.recipientName)])
        = some (newOrgEntry (recipientKeyOf g) g.recipientName) := by
      rw [alFind_append, h]
      simp [alFind]
    have hadj := alSumBy_adjust wOrg (recipientKeyOf g)
      (pushReceived
        { funderEIN := fe, funderName := fn, amount := g.amount, year := g.year }) hfind
    rw [alSumBy_append, wOrg_pushReceived, alSumBy_singleton] at hadj
    have h0 : wOrg (newOrgEntry (recipientKeyOf g) g.recipientName) = 0 := rfl
    rw [h0] at hadj
    omega

theorem foldl_addGrantToOrgs_sum (fe fn : String) :
    ∀ (gs : List Grant) (orgs : List (String × Organization)),
      alSumBy wOrg (gs.foldl (addGrantToOrgs fe fn) orgs)
        = alSumBy wOrg orgs + gs.length := by
  intro gs
  induction gs with
  | nil => intro orgs; simp
  | cons g rest ih =>
    intro orgs
    simp only [List.foldl_cons, List.length_cons]
    rw [ih, addGrantToOrgs_sum]
    omega

theorem addRecordStep_counts (st : BuildState) (r : PFRecord) :
    (addRecordStep st r).totalGrants = st.totalGrants + recordContribution r ∧
    alSumBy wFnd (addRecordStep st r).foundations
      = alSumBy wFnd st.foundations + recordContribution r ∧
    alSumBy wOrg (addRecordStep st r).organizations
      = alSumBy wOrg st.organizations + recordContribution r := by
  cases hein : r.funderEIN with
  | none => simp [addRecordStep, recordContribution, hein]
  | some e =>
    by_cases he : e = ""
    · simp [addRecordStep, recordContribution, hein, he]
    · simp only [addRecordStep, recordContribution, hein, if_neg he]
      refine ⟨trivial, ?_, ?_⟩
      · cases h : alFind e st.foundations with
        | some f =>
          have hset : alSetIfAbsent e
              (newFoundationEntry e r.funderName r.metadata) st.foundations
              = st.foundations := by
            unfold alSetIfAbsent; rw [h]
          rw [hset]
          have hadj := alSumBy_adjust wFnd e (appendGiven r.grants) h
          rw [wFnd_appendGiven] at hadj
          omega
        | none =>
          have hset : alSetIfAbsent e
              (newFoundationEntry e r.funderName r.metadata) st.foundations
              = st.foundations ++ [(e, newFoundationEntry e r.funderName r.metadata)] := by
            unfold alSetIfAbsent; rw [h]
          rw [hset]
          have hfind : alFind e
              (st.foundations ++ [(e, newFoundationEntry e r.funderName r.metadata)])
              = some (newFoundationEntry e r.funderName r.metadata) := by
            rw [alFind_append, h]
            simp [alFind]
          have hadj := alSumBy_adjust wFnd e (appendGiven r.grants) hfind
          rw [alSumBy_append, wFnd_appendGiven, alSumBy_singleton] at hadj
          have h0 : wFnd (newFoundationEntry e r.funderName r.metadata) = 0 := rfl
          rw [h0] at hadj
          omega
      · exact foldl_addGrantToOrgs_sum e r.funderName r.grants st.organizations

theorem foldl_addRecordStep_counts :
    ∀ (records : List PFRecord) (st : BuildState),
      (records.foldl addRecordStep st).totalGrants
        = st.totalGrants + (records.map recordContribution).sum ∧
      alSumBy wFnd (records.foldl addRecordStep st).foundations
        = alSumBy wFnd st.foundations + (records.map recordContribution).sum ∧
      alSumBy wOrg (records.foldl addRecordStep st).organizations
        = alSumBy wOrg st.organizations + (records.map recordContribution).sum := by
  intro records
  induction records with
  | nil => intro st; simp
  | cons r rest ih =>
    intro st
    simp only [List.foldl_cons, List.map_cons, List.sum_cons]
    obtain ⟨h1, h2, h3⟩ := addRecordStep_counts st r
    obtain ⟨g1, g2, g3⟩ := ih (addRecordStep st r)
    refine ⟨?_, ?_, ?_⟩ <;> omega

/-! ## Consolidation lemmas (claim C3) -/

theorem consolidateStep_sum (idx : List (String × List String))
    (orgs : List (String × Organization)) (pk : String)
    (hpk : strHasStart pk "no_ein_" = true) (hcov : IdxCovered idx orgs) :
    alSumBy wOrg (consolidateStep idx orgs pk) = alSumBy wOrg orgs ∧
    IdxCovered idx (consolidateStep idx orgs pk) := by
  cases h1 : alFind pk orgs with
  | none =>
    have hstep : consolidateStep idx orgs pk = orgs := by
      unfold consolidateStep; rw [h1]
    rw [hstep]; exact ⟨rfl, hcov⟩
  | some org =>
    cases h2 : alFind (normalizeOrgName org.name) idx with
    | none =>
      have hstep : consolidateStep idx orgs pk = orgs := by
        unfold consolidateStep; rw [h1]; simp only [h2]
      rw [hstep]; exact ⟨rfl, hcov⟩
    | some matchList =>
      by_cases hlen : matchList.length > 0
      · cases h3 : matchList.find? (fun ein => !strHasStart ein "no_ein_") with
        | none =>
          have hstep : consolidateStep idx orgs pk = orgs := by
            unfold consolidateStep; rw [h1]; simp only [h2, h3, if_pos hlen]
          rw [hstep]; exact ⟨rfl, hcov⟩
        | some realEIN =>
          have hreal_mem : realEIN ∈ matchList := List.mem_of_find?_eq_some h3
          have hreal_np : strHasStart realEIN "no_ein_" = false := by
            have := List.find?_some h3
            simpa using this
          have hne : realEIN ≠ pk := by
            intro heq
            rw [heq, hpk] at hreal_np
            exact Bool.noConfusion hreal_np
          have hfound : (alFind realEIN orgs).isSome = true :=
            hcov _ (alFind_mem h2) realEIN hreal_mem hreal_np
          have hstep : consolidateStep idx orgs pk
              = alErase pk (alAdjust realEIN
                  (fun o => { o with grantsReceived :=
                    o.grantsReceived ++ org.grantsReceived }) orgs) := by
            unfold consolidateStep
            rw [h1]
            simp only [h2, h3, if_pos hlen, ne_eq, hne, not_false_eq_true, if_pos,
              hfound, if_true]
          rw [hstep]
          obtain ⟨v, hv⟩ := Option.isSome_iff_exists.mp hfound
          have hadj := alSumBy_adjust wOrg realEIN
            (fun o => { o with grantsReceived := o.grantsReceived ++ org.grantsReceived })
            hv
          have hpk' : alFind pk (alAdjust realEIN
              (fun o => { o with grantsReceived := o.grantsReceived ++ org.grantsReceived })
              orgs) = some org := by
            rw [alFind_adjust_ne _ (Ne.symm hne)]; exact h1
          have hera := alSumBy_erase wOrg pk hpk'
          constructor
          · simp only [wOrg, List.length_append] at hadj hera ⊢
            omega
          · intro q hq e he henp
            have hepk : e ≠ pk := by
              intro heq
              rw [heq, hpk] at henp
              exact Bool.noConfusion henp
            rw [alFind_erase_ne hepk, alFind_adjust_isSome]
            exact hcov q hq e he henp
      · have hstep : consolidateStep idx orgs pk = orgs := by
          unfold consolidateStep; rw [h1]; simp only [h2, if_neg hlen]
        rw [hstep]; exact ⟨rfl, hcov⟩

theorem consolidateFold_sum (idx : List (String × List String)) :
    ∀ (pks : List String) (orgs : List (String × Organization)),
      (∀ pk ∈ pks, strHasStart pk "no_ein_" = true) → IdxCovered idx orgs →
      alSumBy wOrg (pks.foldl (consolidateStep idx) orgs) = alSumBy wOrg orgs := by
  intro pks
  induction pks with
  | nil => intro orgs _ _; rfl
  | cons pk rest ih =>
    intro orgs hpks hcov
    simp only [List.foldl_cons]
    obtain ⟨hsum, hcov'⟩ := consolidateStep_sum idx orgs pk
      (hpks pk (List.mem_cons_self _ _)) hcov
    rw [ih _ (fun p hp => hpks p (List.mem_cons_of_mem _ hp)) hcov', hsum]

theorem buildIdx_elems_sub (S : String → Prop) :
    ∀ (l : List (String × Organization)) (idx0 : List (String × List String)),
      (∀ q ∈ idx0, ∀ e ∈ q.2, S e) → (∀ p ∈ l, S p.1) →
      ∀ q ∈ l.foldl (fun idx p => alPush (normalizeOrgName p.2.name) p.1 idx) idx0,
        ∀ e ∈ q.2, S e := by
  intro l
  induction l with
  | nil => intro idx0 h0 _ q hq e he; exact h0 q hq e he
  | cons p rest ih =>
    intro idx0 h0 hl q hq e he
    refine ih _ ?_ (fun p hp => hl p (List.mem_cons_of_mem _ hp)) q hq e he
    exact alPush_sub h0 (hl p (List.mem_cons_self _ _))

/-! ## Network-builder lemmas (claims C1, C2, C7) -/

theorem foldl_inv {α σ : Type} (P : σ → Prop) (f : σ → α → σ)
    (h : ∀ s a, P s → P (f s a)) :
    ∀ (l : List α) (s : σ), P s → P (l.foldl f s) := by
  intro l
  induction l with
  | nil => intro s hs; exact hs
  | cons a l ih => intro s hs; exact ih _ (h s a hs)

theorem foldl_inv_mem {α σ : Type} (P : σ → Prop) (f : σ → α → σ) :
    ∀ (l : List α), (∀ s a, a ∈ l → P s → P (f s a)) →
      ∀ (s : σ), P s → P (l.foldl f s) := by
  intro l
  induction l with
  | nil => intro _ s hs; exact hs
  | cons a l ih =>
    intro h s hs
    exact ih (fun s b hb => h s b (List.mem_cons_of_mem _ hb)) _
      (h s a (List.mem_cons_self _ _) hs)

theorem alPush_buckets_nonempty {α : Type} (k : String) (x : α) :
    ∀ {m : List (String × List α)}, (∀ q ∈ m, q.2 ≠ []) →
      ∀ q ∈ alPush k x m, q.2 ≠ [] := by
  intro m
  induction m with
  | nil =>
    intro _ q hq
    simp [alPush] at hq
    subst hq
    simp
  | cons p rest ih =>
    intro h q hq
    obtain ⟨k0, xs⟩ := p
    by_cases hk : k0 = k
    · simp [alPush, hk] at hq
      rcases hq with hq | hq
      · subst hq; simp
      · exact h q (List.mem_cons_of_mem _ hq)
    · simp [alPush, hk] at hq
      rcases hq with hq | hq
      · subst hq
        exact h (k0, xs) (List.mem_cons_self _ _)
      · exact ih (fun q hq => h q (List.mem_cons_of_mem _ hq)) q hq

theorem alPush_buckets_keyed {α : Type} (keyf : α → String) (k : String) (x : α)
    (hx : keyf x = k) :
    ∀ {m : List (String × List α)},
      (∀ q ∈ m, ∀ y ∈ q.2, keyf y = q.1) →
      ∀ q ∈ alPush k x m, ∀ y ∈ q.2, keyf y = q.1 := by
  intro m
  induction m with
  | nil =>
    intro _ q hq y hy
    simp [alPush] at hq
    subst hq
    simp at hy
    subst hy
    exact hx
  | cons p rest ih =>
    intro h q hq y hy
    obtain ⟨k0, xs⟩ := p
    by_cases hk : k0 = k
    · subst hk
      rw [show alPush k0 x ((k0, xs) :: rest) = (k0, xs ++ [x]) :: rest by
        simp [alPush]] at hq
      rcases List.mem_cons.mp hq with hq | hq
      · subst hq
        rcases List.mem_append.mp hy with hy | hy
        · exact h (k0, xs) (List.mem_cons_self _ _) y hy
        · simp at hy; subst hy; exact hx
      · exact h q (List.mem_cons_of_mem _ hq) y hy
    · rw [show alPush k x ((k0, xs) :: rest) = (k0, xs) :: alPush k x rest by
        simp [alPush, hk]] at hq
      rcases List.mem_cons.mp hq with hq | hq
      · subst hq
        exact h (k0, xs) (List.mem_cons_self _ _) y hy
      · exact ih (fun q hq => h q (List.mem_cons_of_mem _ hq)) q hq y hy

theorem alPush_find_self {α : Type} (k : String) (x : α) :
    ∀ (m : List (String × List α)),
      ∃ gs, alFind k (alPush k x m) = some gs ∧ gs ≠ [] := by
  intro m
  induction m with
  | nil => exact ⟨[x], by simp [alPush, alFind], by simp⟩
  | cons p rest ih =>
    obtain ⟨k0, xs⟩ := p
    by_cases hk : k0 = k
    · exact ⟨xs ++ [x], by simp [alPush, alFind, hk], by simp⟩
    · obtain ⟨gs, hgs, hne⟩ := ih
      exact ⟨gs, by simp [alPush, alFind, hk, hgs], hne⟩

theorem alPush_find_other {α : Type} {n k : String} (hne : n ≠ k) (x : α) :
    ∀ (m : List (String × List α)), alFind n (alPush k x m) = alFind n m := by
  intro m
  have hkn : ¬(k = n) := fun h => hne h.symm
  induction m with
  | nil => simp [alPush, alFind, hkn]
  | cons p rest ih =>
    obtain ⟨k0, xs⟩ := p
    by_cases hk : k0 = k
    · subst hk
      simp [alPush, alFind, hkn]
    · rw [show alPush k x ((k0, xs) :: rest) = (k0, xs) :: alPush k x rest by
        simp [alPush, hk]]
      by_cases hn : k0 = n <;> simp [alFind, hn, ih]

theorem foldl_alPush_nonempty {α β : Type} (keyf : β → String) (valf : β → α) :
    ∀ (l : List β) (m0 : List (String × List α)), (∀ q ∈ m0, q.2 ≠ []) →
      ∀ q ∈ l.foldl (fun m b => alPush (keyf b) (valf b) m) m0, q.2 ≠ [] := by
  intro l
  induction l with
  | nil => intro m0 h0 q hq; exact h0 q hq
  | cons b l ih =>
    intro m0 h0 q hq
    exact ih _ (alPush_buckets_nonempty _ _ h0) q hq

theorem foldl_alPush_keyed {α β : Type} (keyf : β → String) (valf : β → α)
    (groupf : α → String) (hgk : ∀ b, groupf (valf b) = keyf b) :
    ∀ (l : List β) (m0 : List (String × List α)),
      (∀ q ∈ m0, ∀ y ∈ q.2, groupf y = q.1) →
      ∀ q ∈ l.foldl (fun m b => alPush (keyf b) (valf b) m) m0,
        ∀ y ∈ q.2, groupf y = q.1 := by
  intro l
  induction l with
  | nil => intro m0 h0 q hq; exact h0 q hq
  | cons b l ih =>
    intro m0 h0 q hq
    exact ih _ (alPush_buckets_keyed groupf _ _ (hgk b) h0) q hq

theorem NodeCovered_mono {c : String} {links links' : List Link}
    (hsub : ∀ l ∈ links, l ∈ links') {n : Node}
    (h : NodeCovered c links n) : NodeCovered c links' n := by
  intro hc
  obtain ⟨h1, h2, h3⟩ := h hc
  refine ⟨h1, ?_, ?_⟩
  · intro hty
    obtain ⟨l, hl, p⟩ := h2 hty
    exact ⟨l, hsub l hl, p⟩
  · intro hty
    obtain ⟨l2, hl2, hs, l1, hl1, p⟩ := h3 hty
    exact ⟨l2, hsub l2 hl2, hs, l1, hsub l1 hl1, p⟩

theorem addOtherFunder_headCentral (ds : CompleteDataset)
    (skipEIN rEIN : String) (cnode : Node) (st : NetState) (gr : GrantReceived)
    (h : HeadCentral cnode st) :
    HeadCentral cnode (addOtherFunder ds skipEIN rEIN st gr) := by
  obtain ⟨rest, heq, hrest⟩ := h
  unfold addOtherFunder
  by_cases h1 : gr.funderEIN = skipEIN
  · rw [if_pos h1]; exact ⟨rest, heq, hrest⟩
  · rw [if_neg h1]
    by_cases h2 : st.added.contains gr.funderEIN
    · rw [if_pos h2]; exact ⟨rest, heq, hrest⟩
    · rw [if_neg h2]
      refine ⟨rest ++ [funderNode ds gr], by simp [heq], ?_⟩
      intro n hn
      rcases List.mem_append.mp hn with hn | hn
      · exact hrest n hn
      · simp at hn; subst hn; rfl

theorem addOtherFunder_covered (ds : CompleteDataset)
    (skipEIN rEIN c : String) (st : NetState) (gr : GrantReceived)
    (h : StateCovered c st ∧ ∃ l ∈ st.links, l.source = c ∧ l.target = rEIN) :
    StateCovered c (addOtherFunder ds skipEIN rEIN st gr) ∧
    ∃ l ∈ (addOtherFunder ds skipEIN rEIN st gr).links,
      l.source = c ∧ l.target = rEIN := by
  obtain ⟨hcov, hcl⟩ := h
  unfold addOtherFunder
  by_cases h1 : gr.funderEIN = skipEIN
  · rw [if_pos h1]; exact ⟨hcov, hcl⟩
  · rw [if_neg h1]
    by_cases h2 : st.added.contains gr.funderEIN
    · rw [if_pos h2]
      constructor
      · intro n hn
        exact NodeCovered_mono (fun l hl => List.mem_append_left _ hl) (hcov n hn)
      · obtain ⟨l, hl, p⟩ := hcl
        exact ⟨l, List.mem_append_left _ hl, p⟩
    · rw [if_neg h2]
      constructor
      · intro n hn
        rcases List.mem_append.mp hn with hn | hn
        · exact NodeCovered_mono (fun l hl => List.mem_append_left _ hl) (hcov n hn)
        · simp at hn
          subst hn
          intro _hc
          refine ⟨Or.inr rfl, ?_, ?_⟩
          · intro hty
            rw [show (funderNode ds gr).type = "funder" from rfl] at hty
            exact absurd hty (by decide)
          · intro _
            refine ⟨otherFunderLink rEIN gr,
              List.mem_append_right _ (by simp), rfl, ?_⟩
            obtain ⟨l, hl, hls, hlt⟩ := hcl
            refine ⟨l, List.mem_append_left _ hl, hls, ?_⟩
            rw [hlt]; rfl
      · obtain ⟨l, hl, p⟩ := hcl
        exact ⟨l, List.mem_append_left _ hl, p⟩

theorem granteeFunderFold_headCentral (ds : CompleteDataset)
    (centralEIN rEIN : String) (cnode : Node) (st2 : NetState)
    (h : HeadCentral cnode st2) :
    HeadCentral cnode (granteeFunderFold ds centralEIN rEIN st2) := by
  unfold granteeFunderFold
  cases alFind rEIN ds.organizations with
  | none => exact h
  | some org =>
    exact foldl_inv (HeadCentral cnode) _
      (fun s a hs => addOtherFunder_headCentral ds centralEIN rEIN cnode s a hs)
      org.grantsReceived st2 h

theorem granteeFunderFold_covered (ds : CompleteDataset)
    (centralEIN rEIN c : String) (st2 : NetState)
    (h : StateCovered c st2 ∧ ∃ l ∈ st2.links, l.source = c ∧ l.target = rEIN) :
    StateCovered c (granteeFunderFold ds centralEIN rEIN st2) := by
  unfold granteeFunderFold
  cases alFind rEIN ds.organizations with
  | none => exact h.1
  | some org =>
    exact (foldl_inv
      (fun s => StateCovered c s ∧ ∃ l ∈ s.links, l.source = c ∧ l.target = rEIN) _
      (fun s a hs => addOtherFunder_covered ds centralEIN rEIN c s a hs)
      org.grantsReceived st2 h).1

theorem granteeStepCustom_headCentral (ds : CompleteDataset)
    (c cn : String) (cnode : Node) (st : NetState) (group : String × List Grant)
    (h : HeadCentral cnode st) :
    HeadCentral cnode (granteeStepCustom ds c cn st group) := by
  rcases group with ⟨k, gs⟩
  cases gs with
  | nil => exact h
  | cons g0 gs' =>
    apply granteeFunderFold_headCentral
    obtain ⟨rest, heq, hrest⟩ := h
    by_cases hadd : st.added.contains k
    · simp only [if_pos hadd]
      exact ⟨rest, heq, hrest⟩
    · simp only [if_neg hadd]
      refine ⟨rest ++ [granteeNodeCustom ds c cn k (g0 :: gs') g0], by simp [heq], ?_⟩
      intro n hn
      rcases List.mem_append.mp hn with hn | hn
      · exact hrest n hn
      · simp at hn; subst hn; rfl

theorem granteeStepCustom_covered (ds : CompleteDataset)
    (c cn : String) (st : NetState) (group : String × List Grant)
    (hcov : StateCovered c st) :
    StateCovered c (granteeStepCustom ds c cn st group) := by
  rcases group with ⟨k, gs⟩
  cases gs with
  | nil => exact hcov
  | cons g0 gs' =>
    apply granteeFunderFold_covered
    constructor
    · intro n hn
      by_cases hadd : st.added.contains k
      · simp only [if_pos hadd] at hn ⊢
        exact NodeCovered_mono (fun l hl => List.mem_append_left _ hl) (hcov n hn)
      · simp only [if_neg hadd] at hn ⊢
        rcases List.mem_append.mp hn with hn | hn
        · exact NodeCovered_mono (fun l hl => List.mem_append_left _ hl) (hcov n hn)
        · simp at hn
          subst hn
          intro _hc
          refine ⟨Or.inl rfl, ?_, ?_⟩
          · intro _
            refine ⟨mkCentralLink c k g0,
              List.mem_append_right _ ?_, rfl, rfl⟩
            simp [centralGrantLinks]
          · intro hty
            rw [show (granteeNodeCustom ds c cn k (g0 :: gs') g0).type = "grantee"
              from rfl] at hty
            exact absurd hty (by decide)
    · refine ⟨mkCentralLink c k g0, List.mem_append_right _ ?_, rfl, rfl⟩
      simp [centralGrantLinks]

theorem hlfUnmatchedStep_headCentral (ug : List HLFGrant) (cnode : Node)
    (st : NetState) (group : String × List AmountYear)
    (h : HeadCentral cnode st) :
    HeadCentral cnode (hlfUnmatchedStep ug st group) := by
  obtain ⟨rest, heq, hrest⟩ := h
  refine ⟨rest ++ [hlfUnmatchedNode ug group.1 group.2],
    by simp [hlfUnmatchedStep, heq], ?_⟩
  intro n hn
  rcases List.mem_append.mp hn with hn | hn
  · exact hrest n hn
  · simp at hn; subst hn; rfl

theorem hlfUnmatchedStep_covered (ug : List HLFGrant) (st : NetState)
    (group : String × List AmountYear) (hne : group.2 ≠ [])
    (hcov : StateCovered "hlf" st) :
    StateCovered "hlf" (hlfUnmatchedStep ug st group) := by
  obtain ⟨g0, gs', hg⟩ := List.exists_cons_of_ne_nil hne
  intro n hn
  rcases List.mem_append.mp hn with hn | hn
  · exact NodeCovered_mono (fun l hl => List.mem_append_left _ hl) (hcov n hn)
  · simp at hn
    subst hn
    intro _hc
    refine ⟨Or.inl rfl, ?_, ?_⟩
    · intro _
      refine ⟨mkHlfLink (hlfGranteeId group.1) g0,
        List.mem_append_right _ ?_, rfl, rfl⟩
      rw [show hlfUnmatchedLinks group.1 group.2
        = (group.2).map (mkHlfLink (hlfGranteeId group.1)) from rfl, hg]
      simp
    · intro hty
      rw [show (hlfUnmatchedNode ug group.1 group.2).type = "grantee"
        from rfl] at hty
      exact absurd hty (by decide)

theorem hlfMatchedStep_headCentral (ds : CompleteDataset)
    (names : List String) (gby : List (String × List AmountYear))
    (cnode : Node) (st : NetState) (p : String × Organization)
    (h : HeadCentral cnode st) :
    HeadCentral cnode (hlfMatchedStep ds names gby st p) := by
  unfold hlfMatchedStep
  by_cases hc : names.contains (lowerTrim p.2.name)
  · rw [if_pos hc]
    apply foldl_inv (HeadCentral cnode) _
      (fun s a hs => addOtherFunder_headCentral ds HLF_EIN p.1 cnode s a hs)
    obtain ⟨rest, heq, hrest⟩ := h
    by_cases hadd : st.added.contains p.1
    · simp only [if_pos hadd]
      exact ⟨rest, heq, hrest⟩
    · simp only [if_neg hadd]
      refine ⟨rest ++ [hlfGranteeNode p.1 p.2
        ((alFind (lowerTrim p.2.name) gby).getD [])], by simp [heq], ?_⟩
      intro n hn
      rcases List.mem_append.mp hn with hn | hn
      · exact hrest n hn
      · simp at hn; subst hn; rfl
  · rw [if_neg hc]; exact h

theorem hlfMatchedStep_covered (ds : CompleteDataset)
    (names : List String) (gby : List (String × List AmountYear))
    (st : NetState) (p : String × Organization)
    (hng : ∀ n, names.contains n = true →
      ∃ gs, alFind n gby = some gs ∧ gs ≠ [])
    (hcov : StateCovered "hlf" st) :
    StateCovered "hlf" (hlfMatchedStep ds names gby st p) := by
  unfold hlfMatchedStep
  by_cases hc : names.contains (lowerTrim p.2.name)
  · rw [if_pos hc]
    obtain ⟨gs, hgs, hne⟩ := hng _ hc
    obtain ⟨g0, gs', hg⟩ := List.exists_cons_of_ne_nil hne
    simp only [hgs, Option.getD_some]
    refine (foldl_inv (fun s => StateCovered "hlf" s ∧
        ∃ l ∈ s.links, l.source = "hlf" ∧ l.target = p.1) _
      (fun s a hs => addOtherFunder_covered ds HLF_EIN p.1 "hlf" s a hs)
      _ _ ⟨?_, ?_⟩).1
    · intro n hn
      by_cases hadd : st.added.contains p.1
      · simp only [if_pos hadd] at hn ⊢
        exact NodeCovered_mono (fun l hl => List.mem_append_left _ hl) (hcov n hn)
      · simp only [if_neg hadd] at hn ⊢
        rcases List.mem_append.mp hn with hn | hn
        · exact NodeCovered_mono (fun l hl => List.mem_append_left _ hl) (hcov n hn)
        · simp at hn
          subst hn
          intro _hc
          refine ⟨Or.inl rfl, ?_, ?_⟩
          · intro _
            refine ⟨mkHlfLink p.1 g0, List.mem_append_right _ ?_, rfl, rfl⟩
            rw [show hlfMatchedLinks p.1 gs = gs.map (mkHlfLink p.1) from rfl, hg]
            simp
          · intro hty
            rw [show (hlfGranteeNode p.1 p.2 gs).type = "grantee" from rfl] at hty
            exact absurd hty (by decide)
    · refine ⟨mkHlfLink p.1 g0, List.mem_append_right _ ?_, rfl, rfl⟩
      rw [show hlfMatchedLinks p.1 gs = gs.map (mkHlfLink p.1) from rfl, hg]
      simp
  · rw [if_neg hc]; exact hcov

theorem hlfNames_grants :
    ∀ (l : List HLFGrant) (names : List String)
      (m : List (String × List AmountYear)),
      (∀ n, names.contains n = true → ∃ gs, alFind n m = some gs ∧ gs ≠ []) →
      ∀ n, (l.foldl (fun s g =>
          if s.contains (lowerTrim g.organization) then s
          else s ++ [lowerTrim g.organization]) names).contains n = true →
        ∃ gs, alFind n (l.foldl (fun m g =>
            alPush (lowerTrim g.organization)
              { amount := g.amount, year := g.year } m) m) = some gs ∧ gs ≠ [] := by
  intro l
  induction l with
  | nil => intro names m h n hn; exact h n hn
  | cons g l ih =>
    intro names m h n hn
    simp only [List.foldl_cons] at hn ⊢
    refine ih _ _ ?_ n hn
    intro n' hn'
    by_cases hkey : n' = lowerTrim g.organization
    · subst hkey
      exact alPush_find_self _ _ m
    · rw [alPush_find_other hkey _ m]
      apply h
      by_cases hc : names.contains (lowerTrim g.organization)
      · rwa [if_pos hc] at hn'
      · rw [if_neg hc] at hn'
        have hmem : n' ∈ names ++ [lowerTrim g.organization] := by
          simpa using hn'
        rcases List.mem_append.mp hmem with h' | h'
        · simpa using h'
        · simp at h'
          exact absurd h' hkey

/-! ## Theorems for the claims -/

/-- Claim C8, counterexample: `unzip` exit code 2 ("errors") with one file
actually extracted is rejected by `extractZip`, contradicting the claim
that a nonzero-file extraction is never treated as a hard failure. -/
theorem c8_extractZip_code2_counterexample :
    extractZipResolves ⟨some 2, true, 1⟩ = false := by decide

/-- Claim C8 (amended): `extractZip` resolves exactly when `unzip` exits
cleanly, or exits with code 1 or 3 while the destination directory exists
and contains at least one extracted entry; every other nonzero exit code —
in particular code 2 — rejects regardless of how many files were
extracted. -/
theorem c8_extractZip_resolution :
    ∀ o : UnzipOutcome,
      extractZipResolves o = true ↔
        (o.exitCode = none ∨
          ∃ c, o.exitCode = some c ∧ (c = 1 ∨ c = 3) ∧
            o.destExists = true ∧ 0 < o.extractedFileCount) := by
  intro o
  obtain ⟨code, dest, count⟩ := o
  match code with
  | none => simp [extractZipResolves]
  | some c =>
    simp only [extractZipResolves]
    by_cases h13 : c = 1 ∨ c = 3
    · have hif : (if c = 1 || c = 3 then dest && decide (0 < count) else false)
          = (dest && decide (0 < count)) := by
        rcases h13 with h | h <;> simp [h]
      rw [hif]
      constructor
      · intro h
        rw [Bool.and_eq_true] at h
        exact Or.inr ⟨c, rfl, h13, by simpa using h.1, by simpa using h.2⟩
      · rintro (h | ⟨c', hc', h13', hd, hcnt⟩)
        · exact absurd h (by simp)
        · cases Option.some.inj hc'
          subst hd
          simp [hcnt]
    · have hif : (if c = 1 || c = 3 then dest && decide (0 < count) else false) = false := by
        have h1 : c ≠ 1 := fun h => h13 (Or.inl h)
        have h3 : c ≠ 3 := fun h => h13 (Or.inr h)
        simp [h1, h3]
      rw [hif]
      constructor
      · intro h; exact absurd h (by simp)
      · rintro (h | ⟨c', hc', h13', hd, hcnt⟩)
        · exact absurd h (by simp)
        · cases Option.some.inj hc'
          exact absurd h13' h13

/-- Claim C9, counterexample: a single-word organization row with an amount
of exactly 10000 dollars is excluded by the filter (the source tests
`parsedAmount <= 10000`), although the claim states that a single-name row
of 10000 dollars or more is retained.  The row is nonempty, has a truthy
amount and is not one of the fixed section names. -/
theorem c9_tenThousand_counterexample :
    keepExcelRow ⟨"John", CellVal.num 10000⟩ = false ∧
    jsWordCount "John" = 1 ∧
    parsedAmountOfCell (CellVal.num 10000) = 10000 ∧
    cellTruthy (CellVal.num 10000) = true := by
  refine ⟨by decide, by decide, by norm_num [parsedAmountOfCell], by decide⟩

/-- Claim C9 (amended): in `loadHLFGrantsFromExcel`, rows named
`Discretionary Grants` or `Mini grants for Storytelling`, and rows lacking
an organization or amount, are always excluded; and a remaining row whose
organization is a single word is excluded exactly when its parsed dollar
amount is at most 10000 dollars (so a single-name row is retained only for
amounts strictly greater than 10000 dollars). -/
theorem c9_excel_filter :
    ∀ r : ExcelRow,
      (r.organization = "" → keepExcelRow r = false) ∧
      (cellTruthy r.amountCell = false → keepExcelRow r = false) ∧
      (r.organization = "Discretionary Grants" ∨
        r.organization = "Mini grants for Storytelling" → keepExcelRow r = false) ∧
      (r.organization ≠ "" → cellTruthy r.amountCell = true →
        r.organization ≠ "Discretionary Grants" →
        r.organization ≠ "Mini grants for Storytelling" →
        jsWordCount r.organization = 1 →
        (keepExcelRow r = false ↔ parsedAmountOfCell r.amountCell ≤ 10000)) := by
  intro r
  refine ⟨?_, ?_, ?_, ?_⟩
  · intro h; simp [keepExcelRow, h]
  · intro h; simp [keepExcelRow, h]
  · rintro (h | h) <;> simp [keepExcelRow, h]
  · intro horg hamt hd hm hsingle
    have hne : ¬(r.organization = "" || !cellTruthy r.amountCell) = true := by
      simp [horg, hamt]
    have hns : ¬(r.organization = "Discretionary Grants" ||
        r.organization = "Mini grants for Storytelling") = true := by
      simp [hd, hm]
    simp only [keepExcelRow, if_neg hne, if_neg hns, hsingle]
    by_cases hle : parsedAmountOfCell r.amountCell ≤ 10000
    · simp [hle]
    · simp [hle]

/-- Claim C9 witness: a single-name row of 9000 dollars instantiates the
amended filter characterisation. -/
theorem c9_excel_filter_witness :
    jsWordCount "John" = 1 ∧
    (keepExcelRow ⟨"John", CellVal.num 9000⟩ = false ↔
      parsedAmountOfCell (CellVal.num 9000) ≤ 10000) :=
  ⟨by decide,
    (c9_excel_filter ⟨"John", CellVal.num 9000⟩).2.2.2
      (by decide) (by decide) (by decide) (by decide) (by decide)⟩

theorem sumGrantsGiven_eq (fs : List (String × Foundation)) :
    sumGrantsGiven fs = alSumBy wFnd fs := rfl

theorem sumGrantsReceived_eq (orgs : List (String × Organization)) :
    sumGrantsReceived orgs = alSumBy wOrg orgs := rfl

/-- Claim C10: `buildBidirectionalDataset` keeps the three grant counts
consistent — the `totalGrants` counter equals the sum of `grantsGiven`
lengths over the foundations map and the sum of `grantsReceived` lengths
over the organizations map, and all three equal the total grant count of
the input records that carry a truthy funder EIN (records without one
contribute nothing). -/
theorem c10_bidirectional_counts :
    ∀ (now : String) (records : List PFRecord),
      (buildBidirectionalDataset now records).metadata.totalGrants
          = sumGrantsGiven (buildBidirectionalDataset now records).foundations ∧
      (buildBidirectionalDataset now records).metadata.totalGrants
          = sumGrantsReceived (buildBidirectionalDataset now records).organizations ∧
      (buildBidirectionalDataset now records).metadata.totalGrants
          = (records.map recordContribution).sum := by
  intro now records
  obtain ⟨h1, h2, h3⟩ := foldl_addRecordStep_counts records ⟨[], [], 0⟩
  have hz1 : alSumBy wFnd (([] : List (String × Foundation))) = 0 := rfl
  have hz2 : alSumBy wOrg (([] : List (String × Organization))) = 0 := rfl
  simp only [buildBidirectionalDataset, sumGrantsGiven_eq, sumGrantsReceived_eq]
  refine ⟨?_, ?_, ?_⟩ <;> simp only [h1, h2, h3] <;> omega

/-- Claim C3: the entity-resolution consolidation pass moves every grant of
a deleted placeholder into a surviving real-EIN entry and never duplicates
or drops one, so the total `grantsReceived` count over all organizations is
unchanged. -/
theorem c3_consolidation_preserves_total :
    ∀ orgs : List (String × Organization),
      sumGrantsReceived (consolidatePass orgs) = sumGrantsReceived orgs := by
  intro orgs
  rw [sumGrantsReceived_eq, sumGrantsReceived_eq]
  unfold consolidatePass
  apply consolidateFold_sum
  · intro pk hpk
    exact (List.mem_filter.mp hpk).2
  · intro q hq e he henp
    have hmem : e ∈ alKeys orgs := by
      refine buildIdx_elems_sub (fun s => s ∈ alKeys orgs) orgs [] ?_ ?_ q hq e he
      · intro q hq; simp at hq
      · intro p hp
        exact List.mem_map.mpr ⟨p, hp, rfl⟩
    exact alFind_isSome_of_mem_keys hmem

theorem extractGrantsPF_retained (taxYear : Int) (entries : List RecipientXml) :
    ∀ g ∈ extractGrantsPF taxYear entries, 0 < g.amount ∧ g.recipientName ≠ "" := by
  intro g hg
  unfold extractGrantsPF at hg
  rw [List.mem_filterMap] at hg
  obtain ⟨r, _, hfr⟩ := hg
  dsimp only at hfr
  cases hparse : parseFloatStr (firstTruthy "0" [r.amt, r.amount, r.cashGrantAmt]) with
  | none => rw [hparse] at hfr; exact absurd hfr (by simp)
  | some amount =>
    simp only [hparse] at hfr
    by_cases hcond : firstTruthy "" [r.businessNameLine1Txt, r.personNm, r.organizationNm] ≠ ""
        ∧ 0 < amount
    · rw [if_pos hcond] at hfr
      cases Option.some.inj hfr
      exact ⟨hcond.2, hcond.1⟩
    · rw [if_neg hcond] at hfr
      exact absurd hfr (by simp)

theorem processParsedPF_grants_shape (data : ParsedReturn) (year : Int)
    (res : PFRecord) (h : processParsedPF data year = some res) :
    ∃ ty entries, res.grants = extractGrantsPF ty entries := by
  unfold processParsedPF at h
  cases hrd : data.returnData with
  | none => rw [hrd] at h; exact absurd h (by simp)
  | some root =>
    cases hrh : data.returnHeader with
    | none => rw [hrd, hrh] at h; exact absurd h (by simp)
    | some header =>
      simp only [hrd, hrh] at h
      cases hpf : root.irs990PF with
      | none => simp [hpf] at h
      | some pf =>
        simp only [hpf] at h
        cases Option.some.inj h
        exact ⟨_, _, rfl⟩

/-- Claim C4: every grant retained on the 990-PF grant-maker path of
`processXmlFile` has a strictly positive parsed amount and a nonempty
recipient name; rows failing either check are dropped, never retained with
defaults. -/
theorem c4_retained_grants_valid :
    ∀ (file : Except JsErr RawDoc) (year : Int) (res : PFRecord),
      processXmlFile file year = some res →
      ∀ g ∈ res.grants, 0 < g.amount ∧ g.recipientName ≠ "" := by
  intro file year res h g hg
  unfold processXmlFile at h
  cases hbody : processXmlFileBody file year with
  | error e => rw [hbody] at h; exact absurd h (by simp)
  | ok r =>
    rw [hbody] at h
    have h' : r = some res := h
    have hshape : ∃ ty entries, res.grants = extractGrantsPF ty entries := by
      cases file with
      | error e =>
        have : processXmlFileBody (Except.error e) year = Except.error e := rfl
        rw [this] at hbody
        exact absurd hbody (by simp)
      | ok doc =>
        have hred : processXmlFileBody (Except.ok doc) year
            = if !doc.hasIRS990PFTag then Except.ok none
              else
                match doc.parsed with
                | .error e => Except.error e
                | .ok data => Except.ok (processParsedPF data year) := rfl
        rw [hred] at hbody
        by_cases htag : doc.hasIRS990PFTag
        · rw [if_neg (by simp [htag])] at hbody
          cases hp : doc.parsed with
          | error e2 => rw [hp] at hbody; exact absurd hbody (by simp)
          | ok data =>
            rw [hp] at hbody
            have hr : processParsedPF data year = some res := by
              rw [Except.ok.inj hbody, h']
            exact processParsedPF_grants_shape data year res hr
        · rw [if_pos (by simp [htag])] at hbody
          have hr : r = none := (Except.ok.inj hbody).symm
          rw [hr] at h'
          exact absurd h' (by simp)
    obtain ⟨ty, entries, hge⟩ := hshape
    rw [hge] at hg
    exact extractGrantsPF_retained ty entries g hg

/-- Claim C4 witness: on a concrete parsed filing with one valid grant row
and one zero-amount row, `processXmlFile` retains exactly the valid row,
and the theorem applies to it. -/
theorem c4_retained_grants_valid_witness :
    processXmlFile (.ok cdocC4) 2023 = some cresC4 ∧
    ∀ g ∈ cresC4.grants, 0 < g.amount ∧ g.recipientName ≠ "" := by
  have hEq : processXmlFile (.ok cdocC4) 2023 = some cresC4 := by decide
  exact ⟨hEq, fun g hg => c4_retained_grants_valid (.ok cdocC4) 2023 cresC4 hEq g hg⟩

/-- Claim C6: the per-document parsers never propagate an exception — any
error raised by the file read or the XML parse inside `processXmlFile` or
`parseXML990File` (the whole bodies run inside `try`) is caught, and the
function returns `null` for that document. -/
theorem c6_parsers_catch_all :
    ∀ (file : Except JsErr RawDoc) (year : Int),
      (∀ e, processXmlFileBody file year = .error e →
        processXmlFile file year = none) ∧
      (∀ e, parseXML990FileBody file = .error e →
        parseXML990File file = none) := by
  intro file year
  constructor
  · intro e he
    unfold processXmlFile
    rw [he]
  · intro e he
    unfold parseXML990File
    rw [he]

/-- Claim C6 witness: a file whose read throws makes both parser bodies
error, and both wrapped parsers return `null`. -/
theorem c6_parsers_catch_all_witness :
    processXmlFileBody (.error ⟨"ENOENT"⟩) 2023 = .error ⟨"ENOENT"⟩ ∧
    processXmlFile (.error ⟨"ENOENT"⟩) 2023 = none ∧
    parseXML990FileBody (.error ⟨"ENOENT"⟩) = .error ⟨"ENOENT"⟩ ∧
    parseXML990File (.error ⟨"ENOENT"⟩) = none :=
  ⟨rfl, (c6_parsers_catch_all (.error ⟨"ENOENT"⟩) 2023).1 ⟨"ENOENT"⟩ rfl,
    rfl, (c6_parsers_catch_all (.error ⟨"ENOENT"⟩) 2023).2 ⟨"ENOENT"⟩ rfl⟩

/-- Claim C1: in every `NetworkGraph` produced by either network builder,
exactly one node carries `central = true`, namely the central node emitted
first; every node emitted after it has no central flag. -/
theorem c1_unique_central :
    (∀ (dataset : CompleteDataset) (allHLFGrantees : List HLFGrant),
      hlfCentralNode.central = true ∧
      ∃ rest, (buildHLFNetwork dataset allHLFGrantees).nodes
          = hlfCentralNode :: rest ∧ ∀ n ∈ rest, n.central = false) ∧
    (∀ (dataset : CompleteDataset) (centralEIN : String) (net : NetworkGraph),
      buildCustomEINNetwork dataset centralEIN = .ok net →
      ∃ cnode rest, net.nodes = cnode :: rest ∧ cnode.central = true ∧
        ∀ n ∈ rest, n.central = false) := by
  constructor
  · intro ds g
    refine ⟨rfl, ?_⟩
    have h0 : HeadCentral hlfCentralNode
        { nodes := [hlfCentralNode], links := [], added := ["hlf"] } :=
      ⟨[], rfl, by simp⟩
    have h1 := foldl_inv (HeadCentral hlfCentralNode) _
      (fun s a hs =>
        hlfUnmatchedStep_headCentral (unmatchedGranteesOf ds g) hlfCentralNode s a hs)
      (hlfGrantsByOrg (unmatchedGranteesOf ds g)) _ h0
    have h2 := foldl_inv (HeadCentral hlfCentralNode) _
      (fun s a hs =>
        hlfMatchedStep_headCentral ds (hlfNamesOf g) (hlfGrantsByOrg g)
          hlfCentralNode s a hs)
      ds.organizations _ h1
    exact h2
  · intro ds ein net h
    unfold buildCustomEINNetwork at h
    cases hf : alFind ein ds.foundations with
    | none => rw [hf] at h; exact absurd h (by simp)
    | some f =>
      rw [hf] at h
      have hnet := (Except.ok.inj h).symm
      have h0 : HeadCentral (centralNodeCustom ein f)
          { nodes := [centralNodeCustom ein f], links := [], added := [ein] } :=
        ⟨[], rfl, by simp⟩
      have h1 := foldl_inv (HeadCentral (centralNodeCustom ein f)) _
        (fun s a hs =>
          granteeStepCustom_headCentral ds ein f.name (centralNodeCustom ein f) s a hs)
        (groupGrantsByRecipient (buildNameToEINIndex ds) ds f.grantsGiven) _ h0
      obtain ⟨rest, heq, hrest⟩ := h1
      refine ⟨centralNodeCustom ein f, rest, ?_, rfl, hrest⟩
      rw [hnet]
      exact heq

/-- Claim C1 witness: a one-foundation dataset produces a network whose
only node is the central one. -/
theorem c1_unique_central_witness :
    buildCustomEINNetwork dsW "E1" = .ok netW ∧
    ∃ cnode rest, netW.nodes = cnode :: rest ∧ cnode.central = true ∧
      ∀ n ∈ rest, n.central = false :=
  ⟨rfl, c1_unique_central.2 dsW "E1" netW rfl⟩

/-- Claim C2: in every produced `NetworkGraph`, every non-central node is
reachable from the central node in at most two hops following emitted
links — every grantee node has a link from the central node, and every
funder node has a link to some grantee that itself has a link from the
central node; no other node kinds are emitted. -/
theorem c2_two_hop_reachability :
    (∀ (dataset : CompleteDataset) (allHLFGrantees : List HLFGrant),
      TwoHopCovered "hlf" (buildHLFNetwork dataset allHLFGrantees)) ∧
    (∀ (dataset : CompleteDataset) (centralEIN : String) (net : NetworkGraph),
      buildCustomEINNetwork dataset centralEIN = .ok net →
      TwoHopCovered centralEIN net) := by
  constructor
  · intro ds g
    have h0 : StateCovered "hlf"
        { nodes := [hlfCentralNode], links := [], added := ["hlf"] } := by
      intro n hn
      simp at hn
      subst hn
      intro hc
      exact absurd hc (by simp [hlfCentralNode])
    have hne : ∀ q ∈ hlfGrantsByOrg (unmatchedGranteesOf ds g), q.2 ≠ [] := by
      intro q hq
      have hq' : q ∈ (unmatchedGranteesOf ds g).foldl
          (fun m (b : HLFGrant) => alPush (lowerTrim b.organization)
            ({ amount := b.amount, year := b.year } : AmountYear) m) [] := hq
      exact foldl_alPush_nonempty (fun b : HLFGrant => lowerTrim b.organization)
        (fun b : HLFGrant => ({ amount := b.amount, year := b.year } : AmountYear))
        (unmatchedGranteesOf ds g) [] (by simp) q hq'
    have h1 := foldl_inv_mem (StateCovered "hlf") _
      (hlfGrantsByOrg (unmatchedGranteesOf ds g))
      (fun s a ha hs =>
        hlfUnmatchedStep_covered (unmatchedGranteesOf ds g) s a (hne a ha) hs)
      _ h0
    have hnames : ∀ n, (hlfNamesOf g).contains n = true →
        ∃ gs, alFind n (hlfGrantsByOrg g) = some gs ∧ gs ≠ [] := by
      intro n hn
      refine hlfNames_grants g [] [] ?_ n hn
      intro n' hn'
      simp [List.contains] at hn'
    have h2 := foldl_inv (StateCovered "hlf") _
      (fun s a hs =>
        hlfMatchedStep_covered ds (hlfNamesOf g) (hlfGrantsByOrg g) s a hnames hs)
      ds.organizations _ h1
    exact h2
  · intro ds ein net h
    unfold buildCustomEINNetwork at h
    cases hf : alFind ein ds.foundations with
    | none => rw [hf] at h; exact absurd h (by simp)
    | some f =>
      rw [hf] at h
      have hnet := (Except.ok.inj h).symm
      have h0 : StateCovered ein
          { nodes := [centralNodeCustom ein f], links := [], added := [ein] } := by
        intro n hn
        simp at hn
        subst hn
        intro hc
        exact absurd hc (by simp [centralNodeCustom])
      have h1 := foldl_inv (StateCovered ein) _
        (fun s a hs => granteeStepCustom_covered ds ein f.name s a hs)
        (groupGrantsByRecipient (buildNameToEINIndex ds) ds f.grantsGiven) _ h0
      rw [hnet]
      exact h1

/-- Claim C2 witness: the one-foundation dataset's network (a single
central node, no links) is vacuously two-hop covered. -/
theorem c2_two_hop_reachability_witness :
    buildCustomEINNetwork dsW "E1" = .ok netW ∧ TwoHopCovered "E1" netW :=
  ⟨rfl, c2_two_hop_reachability.2 dsW "E1" netW rfl⟩

/-- Claim C7: in `buildCustomEINNetwork`, a grant of the central foundation
without a usable recipient EIN whose normalised recipient name is bucketed
to exactly one organization key resolves to that organization's own key —
a key present in the dataset's organizations map, not a freshly minted
placeholder — and every central link emitted for that grant's group
targets it. -/
theorem c7_unique_name_match :
    ∀ (dataset : CompleteDataset) (g : Grant) (e : String),
      usableEINMissing g.recipientEIN = true →
      alFind (normalizeOrgName g.recipientName) (buildNameToEINIndex dataset)
        = some [e] →
      resolveGrantEIN (buildNameToEINIndex dataset) dataset g = e ∧
      (alFind e dataset.organizations).isSome = true ∧
      ∀ grantsList k gs,
        (k, gs) ∈ groupGrantsByRecipient (buildNameToEINIndex dataset) dataset
          grantsList →
        g ∈ gs →
        k = e ∧ ∀ centralId, ∀ l ∈ centralGrantLinks centralId k gs,
          l.target = e := by
  intro ds g e h1 h2
  have hres : resolveGrantEIN (buildNameToEINIndex ds) ds g = e := by
    unfold resolveGrantEIN
    rw [if_pos h1]
    simp only [h2]
  refine ⟨hres, ?_, ?_⟩
  · have hq := alFind_mem h2
    have hmem : e ∈ alKeys ds.organizations := by
      refine buildIdx_elems_sub (fun s => s ∈ alKeys ds.organizations)
        ds.organizations [] ?_ ?_ _ hq e (by simp)
      · intro q hq; simp at hq
      · intro p hp
        exact List.mem_map.mpr ⟨p, hp, rfl⟩
    exact alFind_isSome_of_mem_keys hmem
  · intro grantsList k gs hkgs hg
    have hkgs' : (k, gs) ∈ grantsList.foldl
        (fun m (b : Grant) =>
          alPush (resolveGrantEIN (buildNameToEINIndex ds) ds b) b m) [] := hkgs
    have hkey := foldl_alPush_keyed
      (fun b : Grant => resolveGrantEIN (buildNameToEINIndex ds) ds b)
      (fun b : Grant => b)
      (fun b : Grant => resolveGrantEIN (buildNameToEINIndex ds) ds b)
      (fun b => rfl) grantsList [] (by simp) (k, gs) hkgs' g hg
    have hkey' : resolveGrantEIN (buildNameToEINIndex ds) ds g = k := hkey
    have hk : k = e := by rw [← hkey']; exact hres
    refine ⟨hk, ?_⟩
    intro cid l hl
    obtain ⟨g', _, hg'⟩ := List.mem_map.mp hl
    rw [← hg']
    rw [show (mkCentralLink cid k g').target = k from rfl, hk]

/-- Claim C7 witness: a grant named `Acme` with no recipient EIN resolves
to the real key `111` of the unique matching organization `Acme Inc`. -/
theorem c7_unique_name_match_witness :
    usableEINMissing gC7.recipientEIN = true ∧
    alFind (normalizeOrgName gC7.recipientName) (buildNameToEINIndex dsC7)
      = some ["111"] ∧
    resolveGrantEIN (buildNameToEINIndex dsC7) dsC7 gC7 = "111" := by
  refine ⟨by decide, by decide, ?_⟩
  exact (c7_unique_name_match dsC7 gC7 "111" (by decide) (by decide)).1

/-! ## JSON round-trip lemmas (claim C5) -/

theorem skipWs_not {c : Char} (h : isWsJson c = false) (cs : List Char) :
    skipWs (c :: cs) = c :: cs := by
  simp [skipWs, List.dropWhile, h]

theorem skipWs_ws {c : Char} (h : isWsJson c = true) (cs : List Char) :
    skipWs (c :: cs) = skipWs cs := by
  simp [skipWs, List.dropWhile, h]

theorem digitChar_spec {d : Nat} (h : d < 10) :
    isDigitChar (digitChar d) = true ∧ digVal (digitChar d) = d := by
  interval_cases d <;> exact ⟨by decide, by decide⟩

theorem digit_head_route {c : Char} (h : isDigitChar c = true) :
    c ≠ '"' ∧ c ≠ '{' ∧ c ≠ '[' ∧ c ≠ 'n' ∧ c ≠ 't' ∧ c ≠ 'f' ∧ c ≠ '-' ∧
      c ≠ '.' ∧ isWsJson c = false := by
  refine ⟨?_, ?_, ?_, ?_, ?_, ?_, ?_, ?_, ?_⟩
  · rintro rfl; exact absurd h (by decide)
  · rintro rfl; exact absurd h (by decide)
  · rintro rfl; exact absurd h (by decide)
  · rintro rfl; exact absurd h (by decide)
  · rintro rfl; exact absurd h (by decide)
  · rintro rfl; exact absurd h (by decide)
  · rintro rfl; exact absurd h (by decide)
  · rintro rfl; exact absurd h (by decide)
  · simp [isDigitChar] at h
    have h1 : ¬ c = ' ' := by rintro rfl; revert h; decide
    have h2 : ¬ c = '\n' := by rintro rfl; revert h; decide
    have h3 : ¬ c = '\t' := by rintro rfl; revert h; decide
    have h4 : ¬ c = '\r' := by rintro rfl; revert h; decide
    simp [isWsJson, h1, h2, h3, h4]

theorem digitsToNat_go (A : Nat) (ys : List Char) :
    ys.foldl (fun acc c => 10 * acc + digVal c) A =
      A * 10 ^ ys.length + digitsToNat ys := by
  induction ys generalizing A with
  | nil => simp [digitsToNat]
  | cons c ys ih =>
    have h1 : digitsToNat (c :: ys) =
        (10 * 0 + digVal c) * 10 ^ ys.length + digitsToNat ys := by
      rw [digitsToNat, List.foldl_cons, ih]
    simp only [List.foldl_cons, ih, h1, List.length_cons]
    ring

theorem digitsToNat_append (xs ys : List Char) :
    digitsToNat (xs ++ ys) = digitsToNat xs * 10 ^ ys.length + digitsToNat ys := by
  rw [digitsToNat, List.foldl_append, digitsToNat_go]
  rfl

theorem digitsToNat_replicate_zero (j : Nat) (ds : List Char) :
    digitsToNat (List.replicate j '0' ++ ds) = digitsToNat ds := by
  induction j with
  | zero => simp
  | succ j ih =>
    rw [List.replicate_succ, List.cons_append]
    have : digitsToNat ('0' :: (List.replicate j '0' ++ ds)) =
        (10 * 0 + digVal '0') * 10 ^ (List.replicate j '0' ++ ds).length +
          digitsToNat (List.replicate j '0' ++ ds) := by
      rw [digitsToNat, List.foldl_cons, digitsToNat_go]
    rw [this, ih]
    simp [digVal]

theorem natDigsGo_ok :
    ∀ fuel n, n < 10 ^ (fuel + 1) →
      natDigsGo (fuel + 1) n ≠ [] ∧
      (∀ c ∈ natDigsGo (fuel + 1) n, isDigitChar c = true) ∧
      digitsToNat (natDigsGo (fuel + 1) n) = n ∧
      (natDigsGo (fuel + 1) n).length ≤ fuel + 1 := by
  intro fuel
  induction fuel with
  | zero =>
    intro n hn
    have h10 : n < 10 := by simpa using hn
    rw [natDigsGo, if_pos h10]
    obtain ⟨hd, hv⟩ := digitChar_spec h10
    refine ⟨by simp, ?_, ?_, by simp⟩
    · intro c hc
      simp at hc
      subst hc
      exact hd
    · simp [digitsToNat, List.foldl_cons, hv]
  | succ fuel ih =>
    intro n hn
    rw [natDigsGo]
    by_cases h10 : n < 10
    · rw [if_pos h10]
      obtain ⟨hd, hv⟩ := digitChar_spec h10
      refine ⟨by simp, ?_, ?_, by simp⟩
      · intro c hc
        simp at hc
        subst hc
        exact hd
      · simp [digitsToNat, List.foldl_cons, hv]
    · rw [if_neg h10]
      have hdiv : n / 10 < 10 ^ (fuel + 1) := by
        rw [Nat.div_lt_iff_lt_mul (by norm_num)]
        calc n < 10 ^ (fuel + 1 + 1) := hn
          _ = 10 ^ (fuel + 1) * 10 := by rw [pow_succ]
      obtain ⟨hne, hdig, hval, hlen⟩ := ih (n / 10) hdiv
      have hmod : n % 10 < 10 := Nat.mod_lt _ (by norm_num)
      obtain ⟨hd2, hv2⟩ := digitChar_spec hmod
      refine ⟨by simp, ?_, ?_, ?_⟩
      · intro c hc
        rcases List.mem_append.mp hc with h | h
        · exact hdig c h
        · simp at h
          subst h
          exact hd2
      · rw [digitsToNat_append, hval]
        simp [digitsToNat, List.foldl_cons, hv2]
        omega
      · rw [List.length_append, List.length_singleton]
        omega

theorem natDigsGo_succ (fuel n : Nat) :
    natDigsGo (fuel + 1) n =
      if n < 10 then [digitChar n]
      else natDigsGo fuel (n / 10) ++ [digitChar (n % 10)] := rfl

theorem natDigsGo_fuel :
    ∀ fuel fuel' n, n < 10 ^ (fuel + 1) → n < 10 ^ (fuel' + 1) →
      natDigsGo (fuel + 1) n = natDigsGo (fuel' + 1) n := by
  intro fuel
  induction fuel with
  | zero =>
    intro fuel' n h h'
    have h10 : n < 10 := by simpa using h
    rw [natDigsGo_succ, natDigsGo_succ, if_pos h10, if_pos h10]
  | succ fuel ih =>
    intro fuel' n h h'
    by_cases h10 : n < 10
    · rw [natDigsGo_succ]
      conv_rhs => rw [natDigsGo_succ]
      rw [if_pos h10, if_pos h10]
    · match fuel' with
      | 0 =>
        exact absurd (by simpa using h') h10
      | fuel'' + 1 =>
        rw [natDigsGo_succ]
        conv_rhs => rw [natDigsGo_succ]
        rw [if_neg h10, if_neg h10]
        have hdiv : ∀ m, n < 10 ^ (m + 1 + 1) → n / 10 < 10 ^ (m + 1) := by
          intro m hm
          rw [Nat.div_lt_iff_lt_mul (by norm_num)]
          calc n < 10 ^ (m + 1 + 1) := hm
            _ = 10 ^ (m + 1) * 10 := by rw [pow_succ]
        rw [ih fuel'' (n / 10) (hdiv _ h) (hdiv _ h')]

theorem nat_lt_pow10 (n : Nat) : n < 10 ^ (n + 1) := by
  induction n with
  | zero => norm_num
  | succ n ih =>
    have hp : 1 ≤ 10 ^ (n + 1) := Nat.one_le_pow _ _ (by norm_num)
    rw [pow_succ]
    omega

theorem natDigs_ok (n : Nat) :
    natDigs n ≠ [] ∧ (∀ c ∈ natDigs n, isDigitChar c = true) ∧
      digitsToNat (natDigs n) = n :=
  have h := natDigsGo_ok n n (nat_lt_pow10 n)
  ⟨h.1, h.2.1, h.2.2.1⟩

theorem natDigs_len {n k : Nat} (h : n < 10 ^ k) (hk : 1 ≤ k) :
    (natDigs n).length ≤ k := by
  have hk' : k = (k - 1) + 1 := by omega
  have heq : natDigs n = natDigsGo ((k - 1) + 1) n :=
    natDigsGo_fuel n (k - 1) n (nat_lt_pow10 n) (by rw [← hk']; exact h)
  rw [heq]
  have := (natDigsGo_ok (k - 1) n (by rw [← hk']; exact h)).2.2.2
  omega

theorem leadDigits_append {ds : List Char} (h : ∀ c ∈ ds, isDigitChar c = true)
    {rest : List Char}
    (hrest : rest = [] ∨ ∃ c cs, rest = c :: cs ∧ isDigitChar c = false) :
    leadDigits (ds ++ rest) = ds ∧ (ds ++ rest).drop ds.length = rest := by
  refine ⟨?_, List.drop_left ds rest⟩
  induction ds with
  | nil =>
    rcases hrest with h0 | ⟨c, cs, h0, hc⟩
    · simp [h0, leadDigits]
    · simp [h0, leadDigits, List.takeWhile_cons, hc]
  | cons d ds ih =>
    have hd : isDigitChar d = true := h d (List.mem_cons_self d ds)
    rw [List.cons_append, leadDigits, List.takeWhile_cons, hd]
    simp only [if_true]
    have := ih (fun c hc => h c (List.mem_cons_of_mem d hc))
    rw [leadDigits] at this
    rw [this]

theorem numSafe_head {rest : List Char} (h : numSafe rest) :
    rest = [] ∨ ∃ c cs, rest = c :: cs ∧ isDigitChar c = false := by
  match rest with
  | [] => exact Or.inl rfl
  | c :: cs => exact Or.inr ⟨c, cs, rfl, h.1⟩

theorem searchPow10_some :
    ∀ fuel start den, den ∣ 10 ^ (start + fuel) →
      ∃ k, searchPow10 den start fuel = some k ∧ den ∣ 10 ^ k := by
  intro fuel
  induction fuel with
  | zero =>
    intro start den h
    exact ⟨start, by rw [searchPow10, if_pos (by simpa using h)], by simpa using h⟩
  | succ fuel ih =>
    intro start den h
    by_cases hd : den ∣ 10 ^ start
    · exact ⟨start, by rw [searchPow10, if_pos hd], hd⟩
    · obtain ⟨k, h1, h2⟩ := ih (start + 1) den (by
        have : start + 1 + fuel = start + (fuel + 1) := by omega
        rw [this]
        exact h)
      exact ⟨k, by rw [searchPow10, if_neg hd]; exact h1, h2⟩

theorem list_isEmpty_false {α : Type} {l : List α} (h : l ≠ []) :
    l.isEmpty = false := by
  cases l with
  | nil => exact absurd rfl h
  | cons a as => rfl

theorem numFrac_none {neg : Bool} {ip : List Char} {rest : List Char}
    (hrest : numSafe rest) :
    numFrac neg ip rest = some (mkRat (intSign neg (digitsToNat ip)) 1, rest) := by
  cases rest with
  | nil => simp only [numFrac]
  | cons c cs3 =>
    simp only [numFrac]
    rw [if_neg hrest.2]

theorem numTail_digits (neg : Bool) (n : Nat) (rest : List Char)
    (hrest : numSafe rest) :
    numTail neg (natDigs n ++ rest) = some (mkRat (intSign neg n) 1, rest) := by
  obtain ⟨hne, hdig, hval⟩ := natDigs_ok n
  obtain ⟨hlead, hdrop⟩ := leadDigits_append hdig (numSafe_head hrest)
  rw [numTail, hlead, if_neg (by simp [list_isEmpty_false hne]), hdrop,
    numFrac_none hrest, hval]

theorem numTail_frac (neg : Bool) (mN fN kN : Nat) (hk : 1 ≤ kN)
    (hfk : fN < 10 ^ kN) (rest : List Char) (hrest : numSafe rest) :
    numTail neg (natDigs mN ++ '.' :: (padDigits kN fN ++ rest)) =
      some (mkRat (intSign neg (mN * 10 ^ kN + fN)) (10 ^ kN), rest) := by
  have hpadlen : (padDigits kN fN).length = kN := by
    rw [padDigits, List.length_append, List.length_replicate]
    have := natDigs_len hfk hk
    omega
  have hpaddig : ∀ c ∈ padDigits kN fN, isDigitChar c = true := by
    intro c hc
    rw [padDigits] at hc
    rcases List.mem_append.mp hc with h | h
    · rw [List.eq_of_mem_replicate h]
      decide
    · exact (natDigs_ok fN).2.1 c h
  have hpadval : digitsToNat (padDigits kN fN) = fN := by
    rw [padDigits, digitsToNat_replicate_zero, (natDigs_ok fN).2.2]
  have hpadne : padDigits kN fN ≠ [] := by
    intro h0
    rw [h0] at hpadlen
    simp at hpadlen
    omega
  obtain ⟨hlead, hdrop⟩ :=
    @leadDigits_append (natDigs mN) (natDigs_ok mN).2.1
      ('.' :: (padDigits kN fN ++ rest))
      (Or.inr ⟨'.', padDigits kN fN ++ rest, rfl, by decide⟩)
  rw [numTail, hlead, if_neg (by simp [list_isEmpty_false (natDigs_ok mN).1]),
    hdrop]
  obtain ⟨hlead2, hdrop2⟩ := leadDigits_append hpaddig (numSafe_head hrest)
  simp only [numFrac]
  rw [if_pos trivial, hlead2, if_neg (by simp [list_isEmpty_false hpadne]),
    hdrop2, hpadval, (natDigs_ok mN).2.2, hpadlen]

theorem parseNumToken_neg (tail : List Char) :
    parseNumToken ('-' :: tail) = numTail true tail := by
  simp [parseNumToken]

theorem parseNumToken_digit_head {d : Char} (ds : List Char)
    (hd : isDigitChar d = true) :
    parseNumToken (d :: ds) = numTail false (d :: ds) := by
  simp only [parseNumToken]
  rw [if_neg (digit_head_route hd).2.2.2.2.2.2.1]

theorem parseNumToken_printQ (q : ℚ) (hq : decRepr q) (rest : List Char)
    (hrest : numSafe rest) :
    parseNumToken (printQ q ++ rest) = some (q, rest) := by
  obtain ⟨k, hsk, hdvd⟩ :=
    searchPow10_some q.den 0 q.den (by rw [Nat.zero_add]; exact hq)
  have hden0 : q.den ≠ 0 := q.den_nz
  have h10k : (10 : Nat) ^ k ≠ 0 := by positivity
  have hprint : printQ q =
      (if q.num < 0 then ['-'] else []) ++
      (if k = 0 then natDigs q.num.natAbs
       else natDigs (q.num.natAbs * 10 ^ k / q.den / 10 ^ k) ++
         '.' :: padDigits k (q.num.natAbs * 10 ^ k / q.den % 10 ^ k)) := by
    rw [printQ, hsk]
  by_cases hk0 : k = 0
  · subst hk0
    have hden1 : q.den = 1 := Nat.dvd_one.mp (by simpa using hdvd)
    have hmk0 : ∀ neg : Bool, (neg = true ↔ q.num < 0) →
        mkRat (intSign neg q.num.natAbs) 1 = q := by
      intro neg hsign
      have hi : intSign neg q.num.natAbs = q.num := by
        cases neg with
        | true =>
          have := hsign.mp rfl
          simp only [intSign, if_true]
          omega
        | false =>
          have hge : ¬ q.num < 0 := fun hc => by simpa using hsign.mpr hc
          simp only [intSign, Bool.false_eq_true, if_false]
          omega
      rw [hi, ← hden1, Rat.mkRat_self]
    rw [hprint, if_pos rfl]
    by_cases hneg : q.num < 0
    · rw [if_pos hneg]
      simp only [List.cons_append, List.nil_append, List.append_assoc]
      rw [parseNumToken_neg, numTail_digits true _ _ hrest,
        hmk0 true (by simpa using hneg)]
    · rw [if_neg hneg]
      simp only [List.nil_append]
      obtain ⟨d, ds, hds⟩ : ∃ d ds, natDigs q.num.natAbs = d :: ds := by
        cases hh : natDigs q.num.natAbs with
        | nil => exact absurd hh (natDigs_ok _).1
        | cons d ds => exact ⟨d, ds, rfl⟩
      rw [hds, List.cons_append,
        parseNumToken_digit_head _ ((natDigs_ok q.num.natAbs).2.1 d
          (by rw [hds]; exact List.mem_cons_self d ds)),
        ← List.cons_append, ← hds, numTail_digits false _ _ hrest,
        hmk0 false (by simp [hneg])]
  · have hk1 : 1 ≤ k := by omega
    have hN : (q.num.natAbs * 10 ^ k / q.den) * q.den = q.num.natAbs * 10 ^ k :=
      Nat.div_mul_cancel (Dvd.dvd.mul_left hdvd _)
    have hmodlt : q.num.natAbs * 10 ^ k / q.den % 10 ^ k < 10 ^ k :=
      Nat.mod_lt _ (Nat.pos_of_ne_zero h10k)
    have hdm : (q.num.natAbs * 10 ^ k / q.den / 10 ^ k) * 10 ^ k +
        q.num.natAbs * 10 ^ k / q.den % 10 ^ k =
        q.num.natAbs * 10 ^ k / q.den := by
      rw [Nat.mul_comm]
      exact Nat.div_add_mod _ _
    have hmk : ∀ neg : Bool,
        (neg = true ↔ q.num < 0) →
        mkRat (intSign neg (q.num.natAbs * 10 ^ k / q.den)) (10 ^ k) = q := by
      intro neg hsign
      have hz : ((q.num.natAbs * 10 ^ k / q.den : Nat) : Int) * (q.den : Int) =
          (q.num.natAbs : Int) * ((10 ^ k : Nat) : Int) := by
        exact_mod_cast hN
      have hiff : mkRat (intSign neg (q.num.natAbs * 10 ^ k / q.den)) (10 ^ k)
          = mkRat q.num q.den ↔
          intSign neg (q.num.natAbs * 10 ^ k / q.den) * (q.den : Int)
            = q.num * ((10 ^ k : Nat) : Int) := Rat.mkRat_eq_iff h10k hden0
      rw [Rat.mkRat_self] at hiff
      rw [hiff]
      cases neg with
      | true =>
        have hneg : q.num < 0 := hsign.mp rfl
        have hqn : (q.num.natAbs : Int) = -q.num := by omega
        simp only [intSign, if_true]
        calc -((q.num.natAbs * 10 ^ k / q.den : Nat) : Int) * (q.den : Int)
            = -((q.num.natAbs : Int) * ((10 ^ k : Nat) : Int)) := by
              rw [← hz]; ring
          _ = q.num * ((10 ^ k : Nat) : Int) := by rw [hqn]; ring
      | false =>
        have hneg : ¬ q.num < 0 := fun hc => by simpa using hsign.mpr hc
        have hqn : (q.num.natAbs : Int) = q.num := by omega
        simp only [intSign, Bool.false_eq_true, if_false]
        rw [hz, hqn]
    rw [hprint, if_neg hk0]
    by_cases hneg : q.num < 0
    · rw [if_pos hneg]
      simp only [List.cons_append, List.nil_append, List.append_assoc]
      rw [parseNumToken_neg,
        numTail_frac true _ _ k hk1 hmodlt rest hrest, hdm,
        hmk true (by simpa using hneg)]
    · rw [if_neg hneg]
      simp only [List.nil_append, List.append_assoc, List.cons_append]
      obtain ⟨d, ds, hds⟩ : ∃ d ds,
          natDigs (q.num.natAbs * 10 ^ k / q.den / 10 ^ k) = d :: ds := by
        cases hh : natDigs (q.num.natAbs * 10 ^ k / q.den / 10 ^ k) with
        | nil => exact absurd hh (natDigs_ok _).1
        | cons d ds => exact ⟨d, ds, rfl⟩
      rw [hds, List.cons_append,
        parseNumToken_digit_head _ ((natDigs_ok _).2.1 d
          (by rw [hds]; exact List.mem_cons_self d ds)),
        ← List.cons_append, ← hds,
        numTail_frac false _ _ k hk1 hmodlt rest hrest, hdm,
        hmk false (by simp [hneg])]

theorem parseStrBody_succ_quote (f : Nat) (rest : List Char) :
    parseStrBody (f + 1) ('"' :: rest) = some ([], rest) := rfl

theorem parseStrBody_succ_esc (f : Nat) (rest : List Char) :
    parseStrBody (f + 1) ('\\' :: rest) =
      match escDecode rest with
      | some (r, rest2) => (parseStrBody f rest2).map (fun p => (r :: p.1, p.2))
      | none => none := rfl

theorem parseStrBody_succ_plain {c : Char} (hq : c ≠ '"') (hb : c ≠ '\\')
    (f : Nat) (rest : List Char) :
    parseStrBody (f + 1) (c :: rest) =
      (parseStrBody f rest).map (fun p => (c :: p.1, p.2)) := by
  have hred : parseStrBody (f + 1) (c :: rest) =
      (if c = '"' then some ([], rest)
       else if c = '\\' then
        match escDecode rest with
        | some (r, rest2) => (parseStrBody f rest2).map (fun p => (r :: p.1, p.2))
        | none => none
       else (parseStrBody f rest).map (fun p => (c :: p.1, p.2))) := rfl
  rw [hred, if_neg hq, if_neg hb]

theorem hexDigit_parseHex {n : Nat} (h : n < 16) :
    parseHex (hexDigit n) = some n := by
  interval_cases n <;> decide

theorem escChar_step (c : Char) (f : Nat) (suffix : List Char) :
    parseStrBody (f + 1) (escChar c ++ suffix) =
      (parseStrBody f suffix).map (fun p => (c :: p.1, p.2)) := by
  by_cases h1 : c = '"'
  · subst h1; rw [show escChar '"' ++ suffix = '\\' :: '"' :: suffix from rfl,
      parseStrBody_succ_esc]
    rfl
  by_cases h2 : c = '\\'
  · subst h2; rw [show escChar '\\' ++ suffix = '\\' :: '\\' :: suffix from rfl,
      parseStrBody_succ_esc]
    rfl
  by_cases h3 : c = '\n'
  · subst h3; rw [show escChar '\n' ++ suffix = '\\' :: 'n' :: suffix from rfl,
      parseStrBody_succ_esc]
    rfl
  by_cases h4 : c = '\r'
  · subst h4; rw [show escChar '\r' ++ suffix = '\\' :: 'r' :: suffix from rfl,
      parseStrBody_succ_esc]
    rfl
  by_cases h5 : c = '\t'
  · subst h5; rw [show escChar '\t' ++ suffix = '\\' :: 't' :: suffix from rfl,
      parseStrBody_succ_esc]
    rfl
  by_cases h6 : c = '\x08'
  · subst h6; rw [show escChar '\x08' ++ suffix = '\\' :: 'b' :: suffix from rfl,
      parseStrBody_succ_esc]
    rfl
  by_cases h7 : c = '\x0c'
  · subst h7; rw [show escChar '\x0c' ++ suffix = '\\' :: 'f' :: suffix from rfl,
      parseStrBody_succ_esc]
    rfl
  by_cases h8 : c.toNat < 32
  · have hesc : escChar c =
        ['\\', 'u', '0', '0', hexDigit (c.toNat / 16), hexDigit (c.toNat % 16)] := by
      rw [escChar, if_neg h1, if_neg h2, if_neg h3, if_neg h4, if_neg h5,
        if_neg h6, if_neg h7, if_pos h8]
    have hdivlt : c.toNat / 16 < 16 := by omega
    have hmodlt : c.toNat % 16 < 16 := by omega
    rw [hesc, show (['\\', 'u', '0', '0', hexDigit (c.toNat / 16),
        hexDigit (c.toNat % 16)] : List Char) ++ suffix =
        '\\' :: 'u' :: '0' :: '0' :: hexDigit (c.toNat / 16) ::
        hexDigit (c.toNat % 16) :: suffix from rfl, parseStrBody_succ_esc]
    have hdec : escDecode ('u' :: '0' :: '0' :: hexDigit (c.toNat / 16) ::
        hexDigit (c.toNat % 16) :: suffix) =
        match parseHex '0', parseHex '0', parseHex (hexDigit (c.toNat / 16)),
            parseHex (hexDigit (c.toNat % 16)) with
        | some a, some b, some hc, some d =>
          some (Char.ofNat (((a * 16 + b) * 16 + hc) * 16 + d), suffix)
        | _, _, _, _ => none := rfl
    rw [hdec, hexDigit_parseHex hdivlt, hexDigit_parseHex hmodlt,
      show parseHex '0' = some 0 from rfl]
    have harith : ((0 * 16 + 0) * 16 + c.toNat / 16) * 16 + c.toNat % 16 =
        c.toNat := by omega
    simp only [harith, Char.ofNat_toNat]
  · have hesc : escChar c = [c] := by
      rw [escChar, if_neg h1, if_neg h2, if_neg h3, if_neg h4, if_neg h5,
        if_neg h6, if_neg h7, if_neg h8]
    rw [hesc, List.singleton_append, parseStrBody_succ_plain h1 h2]

theorem encStrBody_roundtrip (cs : List Char) :
    ∀ fuel, (encStrBody cs).length + 1 ≤ fuel → ∀ tail : List Char,
    parseStrBody fuel (encStrBody cs ++ '"' :: tail) = some (cs, tail) := by
  induction cs with
  | nil =>
    intro fuel hf tail
    obtain ⟨f, rfl⟩ : ∃ f, fuel = f + 1 := ⟨fuel - 1, by omega⟩
    rw [encStrBody, List.flatMap_nil, List.nil_append, parseStrBody_succ_quote]
  | cons c cs ih =>
    intro fuel hf tail
    obtain ⟨f, rfl⟩ : ∃ f, fuel = f + 1 := ⟨fuel - 1, by omega⟩
    have hne : escChar c ≠ [] := by
      rw [escChar]; split_ifs <;> simp
    have hlen : (encStrBody (c :: cs)).length =
        (escChar c).length + (encStrBody cs).length := by
      rw [encStrBody, List.flatMap_cons, List.length_append]
      rfl
    rw [encStrBody, List.flatMap_cons, List.append_assoc, ← encStrBody,
      escChar_step, ih f (by
        have h1 : 1 ≤ (escChar c).length := by
          cases he : escChar c with
          | nil => exact absurd he hne
          | cons a as => simp
        omega) tail]
    rfl

theorem jsonPlain_spec {c : Char} (h : jsonPlainChar c = true) :
    c ≠ '"' ∧ c ≠ '\\' := by
  rw [jsonPlainChar] at h
  simp only [Bool.and_eq_true, Bool.not_eq_true'] at h
  exact ⟨by simpa using h.1.1, by simpa using h.1.2⟩

theorem parseStrBody_raw {k : List Char}
    (hk : ∀ c ∈ k, jsonPlainChar c = true) :
    ∀ fuel, k.length + 1 ≤ fuel → ∀ tail : List Char,
    parseStrBody fuel (k ++ '"' :: tail) = some (k, tail) := by
  induction k with
  | nil =>
    intro fuel hf tail
    obtain ⟨f, rfl⟩ : ∃ f, fuel = f + 1 := ⟨fuel - 1, by omega⟩
    rw [List.nil_append, parseStrBody_succ_quote]
  | cons c cs ih =>
    intro fuel hf tail
    obtain ⟨f, rfl⟩ : ∃ f, fuel = f + 1 := ⟨fuel - 1, by omega⟩
    obtain ⟨hq, hb⟩ := jsonPlain_spec (hk c (List.mem_cons_self c cs))
    rw [List.cons_append, parseStrBody_succ_plain hq hb,
      ih (fun d hd => hk d (List.mem_cons_of_mem c hd)) f
        (by simp at hf; omega) tail]
    rfl

theorem parseV_cons_route {c : Char} (hw : isWsJson c = false) (f : Nat)
    (Y : List Char) : parseV (f + 1) (c :: Y) = parseVHead f c Y := by
  simp only [parseV]
  rw [skipWs_not hw]
  rfl

theorem natDigs_cons (n : Nat) :
    ∃ d ds, natDigs n = d :: ds ∧ isDigitChar d = true := by
  cases hh : natDigs n with
  | nil => exact absurd hh (natDigs_ok n).1
  | cons d ds =>
    exact ⟨d, ds, rfl, (natDigs_ok n).2.1 d (hh ▸ List.mem_cons_self d ds)⟩

theorem printQ_head (q : ℚ) :
    ∃ c cs, printQ q = c :: cs ∧ (c = '-' ∨ isDigitChar c = true) := by
  rw [printQ]
  by_cases hneg : q.num < 0
  · rw [if_pos hneg, List.singleton_append]
    exact ⟨'-', _, rfl, Or.inl rfl⟩
  · rw [if_neg hneg, List.nil_append]
    cases hsk : searchPow10 q.den 0 q.den with
    | none =>
      obtain ⟨d, ds, hds, hd⟩ := natDigs_cons (q.num.natAbs / q.den)
      exact ⟨d, ds, hds, Or.inr hd⟩
    | some k =>
      by_cases hk0 : k = 0
      · subst hk0
        obtain ⟨d, ds, hds, hd⟩ := natDigs_cons q.num.natAbs
        exact ⟨d, ds, hds, Or.inr hd⟩
      · obtain ⟨d, ds, hds, hd⟩ :=
          natDigs_cons (q.num.natAbs * 10 ^ k / q.den / 10 ^ k)
        refine ⟨d, ds ++ '.' :: padDigits k (q.num.natAbs * 10 ^ k / q.den % 10 ^ k),
          ?_, Or.inr hd⟩
        show (if k = 0 then natDigs q.num.natAbs
          else natDigs (q.num.natAbs * 10 ^ k / q.den / 10 ^ k)
            ++ '.' :: padDigits k (q.num.natAbs * 10 ^ k / q.den % 10 ^ k)) = _
        rw [if_neg hk0, hds, List.cons_append]

theorem encodesVal_null : EncodesVal ['n', 'u', 'l', 'l'] .null := by
  intro fuel rest hf hns
  obtain ⟨f, rfl⟩ : ∃ f, fuel = f + 1 := ⟨fuel - 1, by omega⟩
  rw [show (['n', 'u', 'l', 'l'] : List Char) ++ rest =
    'n' :: 'u' :: 'l' :: 'l' :: rest from rfl, parseV_cons_route (by decide)]
  rfl

theorem encodesVal_str (s : String) : EncodesVal (encStr s) (.str s) := by
  intro fuel rest hf hns
  obtain ⟨f, rfl⟩ : ∃ f, fuel = f + 1 := ⟨fuel - 1, by omega⟩
  have hlen : (encStr s).length = (encStrBody s.data).length + 2 := by
    rw [encStr]
    simp
  have hshape : encStr s ++ rest = '"' :: (encStrBody s.data ++ '"' :: rest) := by
    rw [encStr]
    simp
  rw [hshape, parseV_cons_route (by decide)]
  simp only [parseVHead]
  rw [if_pos trivial, encStrBody_roundtrip s.data f (by omega) rest]

theorem encodesVal_num {q : ℚ} (hq : decRepr q) :
    EncodesVal (printQ q) (.num q) := by
  intro fuel rest hf hns
  obtain ⟨f, rfl⟩ : ∃ f, fuel = f + 1 := ⟨fuel - 1, by omega⟩
  obtain ⟨c, cs, hpc, hor⟩ := printQ_head q
  have hws : isWsJson c = false := by
    rcases hor with rfl | hd
    · decide
    · exact (digit_head_route hd).2.2.2.2.2.2.2.2
  have hconds : ¬c = '"' ∧ ¬c = '{' ∧ ¬c = '[' ∧ ¬c = 'n' ∧ ¬c = 't' ∧
      ¬c = 'f' ∧ (decide (c = '-') || isDigitChar c) = true := by
    rcases hor with rfl | hd
    · exact ⟨by decide, by decide, by decide, by decide, by decide, by decide,
        by decide⟩
    · obtain ⟨n1, n2, n3, n4, n5, n6, _, _, _⟩ := digit_head_route hd
      exact ⟨n1, n2, n3, n4, n5, n6, by simp [hd]⟩
  rw [hpc, List.cons_append, parseV_cons_route hws]
  simp only [parseVHead]
  rw [if_neg hconds.1, if_neg hconds.2.1, if_neg hconds.2.2.1,
    if_neg hconds.2.2.2.1, if_neg hconds.2.2.2.2.1, if_neg hconds.2.2.2.2.2.1,
    if_pos hconds.2.2.2.2.2.2, ← List.cons_append, ← hpc,
    parseNumToken_printQ q hq rest hns]

theorem parseMembers_start (f : Nat) (cs1 : List Char) :
    parseMembersJson (f + 1) ('"' :: cs1) =
      match parseStrBody f cs1 with
      | some (k, cs2) => membersAfterKey f k cs2
      | none => none := rfl

theorem parseItems_start (f : Nat) (cs : List Char) :
    parseItemsJson (f + 1) cs =
      match parseV f cs with
      | some (v, cs2) => itemsAfterVal f v (skipWs cs2)
      | none => none := rfl

theorem parseV_ws {w : Char} (hw : isWsJson w = true) (f : Nat) (cs : List Char) :
    parseV (f + 1) (w :: cs) = parseV (f + 1) cs := by
  simp only [parseV]
  rw [skipWs_ws hw]

theorem member_head (k : String) (V : List Char) :
    member k V = '"' :: (encStrBody k.data ++ '"' :: ':' :: V) := by
  simp [member, encStr]

theorem member_length (k : String) (V : List Char) :
    (member k V).length = (encStrBody k.data).length + 3 + V.length := by
  rw [member_head]
  simp
  omega

theorem commaJoin_cons_head {x : List Char} {c : Char} {Z : List Char}
    (hx : x = c :: Z) (xs : List (List Char)) :
    ∃ W, commaJoin (x :: xs) = c :: W := by
  cases xs with
  | nil => exact ⟨Z, by rw [show commaJoin [x] = x from rfl, hx]⟩
  | cons y ys =>
    exact ⟨Z ++ ',' :: commaJoin (y :: ys), by
      rw [show commaJoin (x :: y :: ys) = x ++ ',' :: commaJoin (y :: ys) from rfl,
        hx, List.cons_append]⟩

theorem members_one (k : String) (V : List Char) (j : Json)
    (henc : EncodesVal V j) (f : Nat) (tail : List Char)
    (hkl : (encStrBody k.data).length + 1 ≤ f) (hVl : V.length < f)
    (hns : numSafe tail) :
    parseMembersJson (f + 1) (member k V ++ tail) =
      membersAfterVal f k.data j (skipWs tail) := by
  have hshape : member k V ++ tail =
      '"' :: (encStrBody k.data ++ '"' :: ':' :: (V ++ tail)) := by
    rw [member_head]
    simp
  rw [hshape, parseMembers_start,
    encStrBody_roundtrip k.data f hkl (':' :: (V ++ tail))]
  show membersAfterKey f k.data (':' :: (V ++ tail)) = _
  rw [show membersAfterKey f k.data (':' :: (V ++ tail)) =
      membersAfterColon f k.data (V ++ tail) from rfl,
    membersAfterColon, henc f tail hVl hns]

theorem parseMembers_commaJoin :
    ∀ (ms : List (String × List Char × Json)), ms ≠ [] →
      (∀ t ∈ ms, EncodesVal t.2.1 t.2.2) →
      ∀ fuel rest,
        (commaJoin (ms.map (fun t => member t.1 t.2.1))).length + 1 < fuel →
        parseMembersJson fuel
          (commaJoin (ms.map (fun t => member t.1 t.2.1)) ++ '}' :: rest) =
          some (ms.map (fun t => (t.1, t.2.2)), rest) := by
  intro ms
  induction ms with
  | nil => intro h; exact absurd rfl h
  | cons t ms ih =>
    intro _ henc fuel rest hf
    obtain ⟨f, rfl⟩ : ∃ f, fuel = f + 1 := ⟨fuel - 1, by omega⟩
    have henct : EncodesVal t.2.1 t.2.2 := henc t (List.mem_cons_self _ _)
    cases ms with
    | nil =>
      rw [List.map_cons, List.map_nil,
        show commaJoin [member t.1 t.2.1] = member t.1 t.2.1 from rfl] at hf ⊢
      rw [member_length] at hf
      rw [members_one t.1 t.2.1 t.2.2 henct f ('}' :: rest) (by omega) (by omega)
        ⟨by decide, by decide⟩,
        show skipWs ('}' :: rest) = '}' :: rest from skipWs_not (by decide) rest]
      rfl
    | cons t2 ms2 =>
      rw [List.map_cons] at hf ⊢
      have hcj : commaJoin (member t.1 t.2.1 ::
          (t2 :: ms2).map (fun t => member t.1 t.2.1)) =
          member t.1 t.2.1 ++
            ',' :: commaJoin ((t2 :: ms2).map fun t => member t.1 t.2.1) := by
        rw [List.map_cons]
        rfl
      rw [hcj] at hf ⊢
      rw [List.length_append, member_length] at hf
      simp only [List.length_cons] at hf
      rw [List.append_assoc, List.cons_append,
        members_one t.1 t.2.1 t.2.2 henct f
          (',' :: (commaJoin ((t2 :: ms2).map fun t => member t.1 t.2.1) ++
            '}' :: rest)) (by omega) (by omega) ⟨by decide, by decide⟩,
        show skipWs (',' :: (commaJoin ((t2 :: ms2).map fun t => member t.1 t.2.1) ++
          '}' :: rest)) = ',' :: (commaJoin ((t2 :: ms2).map fun t =>
            member t.1 t.2.1) ++ '}' :: rest) from skipWs_not (by decide) _]
      have hbr : membersAfterVal f t.1.data t.2.2
          (',' :: (commaJoin ((t2 :: ms2).map fun t => member t.1 t.2.1) ++
            '}' :: rest)) =
          match parseMembersJson f
            (skipWs (commaJoin ((t2 :: ms2).map fun t => member t.1 t.2.1) ++
              '}' :: rest)) with
          | some (ms', r) => some ((⟨t.1.data⟩, t.2.2) :: ms', r)
          | none => none := rfl
      rw [hbr]
      obtain ⟨W, hW⟩ := commaJoin_cons_head (member_head t2.1 t2.2.1)
        (ms2.map fun t => member t.1 t.2.1)
      rw [show (member t2.1 t2.2.1 :: ms2.map fun t => member t.1 t.2.1) =
        ((t2 :: ms2).map fun t => member t.1 t.2.1) from by
          rw [List.map_cons]] at hW
      rw [hW, List.cons_append,
        show skipWs ('"' :: (W ++ '}' :: rest)) = '"' :: (W ++ '}' :: rest) from
          skipWs_not (by decide) _, ← List.cons_append, ← hW,
        ih (by simp) (fun u hu => henc u (List.mem_cons_of_mem t hu)) f rest
          (by omega)]
      rfl

theorem items_one (V : List Char) (j : Json) (henc : EncodesVal V j) (f : Nat)
    (tail : List Char) (hVl : V.length < f) (hns : numSafe tail) :
    parseItemsJson (f + 1) (V ++ tail) = itemsAfterVal f j (skipWs tail) := by
  rw [parseItems_start, henc f tail hVl hns]

theorem parseItems_commaJoin :
    ∀ (xs : List (List Char × Json)), xs ≠ [] →
      (∀ t ∈ xs, EncodesVal t.1 t.2) →
      (∀ t ∈ xs, ∃ Z, t.1 = '{' :: Z) →
      ∀ fuel rest, (commaJoin (xs.map Prod.fst)).length + 1 < fuel →
        parseItemsJson fuel (commaJoin (xs.map Prod.fst) ++ ']' :: rest) =
          some (xs.map Prod.snd, rest) := by
  intro xs
  induction xs with
  | nil => intro h; exact absurd rfl h
  | cons t xs ih =>
    intro _ henc hheads fuel rest hf
    obtain ⟨f, rfl⟩ : ∃ f, fuel = f + 1 := ⟨fuel - 1, by omega⟩
    have henct : EncodesVal t.1 t.2 := henc t (List.mem_cons_self _ _)
    cases xs with
    | nil =>
      rw [List.map_cons, List.map_nil,
        show commaJoin [t.1] = t.1 from rfl] at hf ⊢
      rw [items_one t.1 t.2 henct f (']' :: rest) (by omega)
        ⟨by decide, by decide⟩,
        show skipWs (']' :: rest) = ']' :: rest from skipWs_not (by decide) rest]
      rfl
    | cons t2 xs2 =>
      rw [List.map_cons] at hf ⊢
      have hcj : commaJoin (t.1 :: (t2 :: xs2).map Prod.fst) =
          t.1 ++ ',' :: commaJoin ((t2 :: xs2).map Prod.fst) := by
        rw [List.map_cons]
        rfl
      rw [hcj] at hf ⊢
      rw [List.length_append] at hf
      simp only [List.length_cons] at hf
      rw [List.append_assoc, List.cons_append,
        items_one t.1 t.2 henct f
          (',' :: (commaJoin ((t2 :: xs2).map Prod.fst) ++ ']' :: rest))
          (by omega) ⟨by decide, by decide⟩,
        show skipWs (',' :: (commaJoin ((t2 :: xs2).map Prod.fst) ++ ']' :: rest))
          = ',' :: (commaJoin ((t2 :: xs2).map Prod.fst) ++ ']' :: rest) from
          skipWs_not (by decide) _]
      have hbr : itemsAfterVal f t.2
          (',' :: (commaJoin ((t2 :: xs2).map Prod.fst) ++ ']' :: rest)) =
          match parseItemsJson f
            (skipWs (commaJoin ((t2 :: xs2).map Prod.fst) ++ ']' :: rest)) with
          | some (xs', r) => some (t.2 :: xs', r)
          | none => none := rfl
      rw [hbr]
      obtain ⟨Z2, hZ2⟩ := hheads t2 (List.mem_cons_of_mem t (List.mem_cons_self _ _))
      obtain ⟨W, hW⟩ := commaJoin_cons_head hZ2 (xs2.map Prod.fst)
      rw [show (t2.1 :: xs2.map Prod.fst) = ((t2 :: xs2).map Prod.fst) from by
        rw [List.map_cons]] at hW
      rw [hW, List.cons_append,
        show skipWs ('{' :: (W ++ ']' :: rest)) = '{' :: (W ++ ']' :: rest) from
          skipWs_not (by decide) _, ← List.cons_append, ← hW,
        ih (by simp) (fun u hu => henc u (List.mem_cons_of_mem t hu))
          (fun u hu => hheads u (List.mem_cons_of_mem t hu)) f rest (by omega)]
      rfl

theorem encodesVal_obj (ms : List (String × List Char × Json))
    (henc : ∀ t ∈ ms, EncodesVal t.2.1 t.2.2) :
    EncodesVal (encObjT (ms.map fun t => member t.1 t.2.1))
      (.obj (ms.map fun t => (t.1, t.2.2))) := by
  intro fuel rest hf hns
  obtain ⟨f, rfl⟩ : ∃ f, fuel = f + 1 := ⟨fuel - 1, by omega⟩
  have hlen : (encObjT (ms.map fun t => member t.1 t.2.1)).length =
      (commaJoin (ms.map fun t => member t.1 t.2.1)).length + 2 := by
    rw [encObjT]
    simp
  have hshape : encObjT (ms.map fun t => member t.1 t.2.1) ++ rest =
      '{' :: (commaJoin (ms.map fun t => member t.1 t.2.1) ++ '}' :: rest) := by
    rw [encObjT]
    simp
  rw [hshape, parseV_cons_route (by decide)]
  simp only [parseVHead]
  rw [if_neg (by decide), if_pos trivial]
  cases ms with
  | nil =>
    rw [show commaJoin (([] : List (String × List Char × Json)).map fun t =>
      member t.1 t.2.1) ++ '}' :: rest = '}' :: rest from rfl,
      show skipWs ('}' :: rest) = '}' :: rest from skipWs_not (by decide) rest]
    rfl
  | cons t ms2 =>
    obtain ⟨W, hW⟩ := commaJoin_cons_head (member_head t.1 t.2.1)
      (ms2.map fun t => member t.1 t.2.1)
    rw [show (member t.1 t.2.1 :: ms2.map fun t => member t.1 t.2.1) =
      ((t :: ms2).map fun t => member t.1 t.2.1) from by rw [List.map_cons]] at hW
    rw [hW, List.cons_append,
      show skipWs ('"' :: (W ++ '}' :: rest)) = '"' :: (W ++ '}' :: rest) from
        skipWs_not (by decide) _]
    have hbr : (match ('"' :: (W ++ '}' :: rest) : List Char) with
        | '}' :: r => some (Json.obj [], r)
        | cs2 => objBranch f cs2) = objBranch f ('"' :: (W ++ '}' :: rest)) := rfl
    rw [hbr, ← List.cons_append, ← hW, objBranch,
      parseMembers_commaJoin (t :: ms2) (by simp) henc f rest (by omega)]

theorem encodesVal_arr (xs : List (List Char × Json))
    (henc : ∀ t ∈ xs, EncodesVal t.1 t.2)
    (hheads : ∀ t ∈ xs, ∃ Z, t.1 = '{' :: Z) :
    EncodesVal (encArrT (xs.map Prod.fst)) (.arr (xs.map Prod.snd)) := by
  intro fuel rest hf hns
  obtain ⟨f, rfl⟩ : ∃ f, fuel = f + 1 := ⟨fuel - 1, by omega⟩
  have hlen : (encArrT (xs.map Prod.fst)).length =
      (commaJoin (xs.map Prod.fst)).length + 2 := by
    rw [encArrT]
    simp
  have hshape : encArrT (xs.map Prod.fst) ++ rest =
      '[' :: (commaJoin (xs.map Prod.fst) ++ ']' :: rest) := by
    rw [encArrT]
    simp
  rw [hshape, parseV_cons_route (by decide)]
  simp only [parseVHead]
  rw [if_neg (by decide), if_neg (by decide), if_pos trivial]
  cases xs with
  | nil =>
    rw [show commaJoin (([] : List (List Char × Json)).map Prod.fst) ++
      ']' :: rest = ']' :: rest from rfl,
      show skipWs (']' :: rest) = ']' :: rest from skipWs_not (by decide) rest]
    rfl
  | cons t xs2 =>
    obtain ⟨Z, hZ⟩ := hheads t (List.mem_cons_self _ _)
    obtain ⟨W, hW⟩ := commaJoin_cons_head hZ (xs2.map Prod.fst)
    rw [show (t.1 :: xs2.map Prod.fst) = ((t :: xs2).map Prod.fst) from by
      rw [List.map_cons]] at hW
    rw [hW, List.cons_append,
      show skipWs ('{' :: (W ++ ']' :: rest)) = '{' :: (W ++ ']' :: rest) from
        skipWs_not (by decide) _]
    have hbr : (match ('{' :: (W ++ ']' :: rest) : List Char) with
        | ']' :: r => some (Json.arr [], r)
        | cs2 => arrBranch f cs2) = arrBranch f ('{' :: (W ++ ']' :: rest)) := rfl
    rw [hbr, ← List.cons_append, ← hW, arrBranch,
      parseItems_commaJoin (t :: xs2) (by simp) henc hheads f rest (by omega)]

theorem decRepr_intCast (i : Int) : decRepr ((i : ℚ)) := by
  rw [decRepr, Rat.den_intCast]
  exact one_dvd _

theorem decRepr_natCast (n : Nat) : decRepr ((n : ℚ)) := by
  rw [decRepr, Rat.den_natCast]
  exact one_dvd _

theorem encObjT_head (ms : List (List Char)) : ∃ Z, encObjT ms = '{' :: Z :=
  ⟨commaJoin ms ++ ['}'], rfl⟩

theorem encodesVal_grant (g : Grant) (hq : decRepr g.amount) :
    EncodesVal (encGrant g) (grantToJson g) := by
  have h := encodesVal_obj
    [ ("recipientEIN", encStr g.recipientEIN, Json.str g.recipientEIN),
      ("recipientName", encStr g.recipientName, Json.str g.recipientName),
      ("amount", printQ g.amount, Json.num g.amount),
      ("year", printQ ((g.year : ℚ)), Json.num ((g.year : ℚ))),
      ("recipientCity", encStr g.recipientCity, Json.str g.recipientCity),
      ("recipientState", encStr g.recipientState, Json.str g.recipientState),
      ("recipientZip", encStr g.recipientZip, Json.str g.recipientZip) ]
    (by
      intro t ht
      simp only [List.mem_cons, List.not_mem_nil, or_false] at ht
      rcases ht with rfl | rfl | rfl | rfl | rfl | rfl | rfl
      · exact encodesVal_str _
      · exact encodesVal_str _
      · exact encodesVal_num hq
      · exact encodesVal_num (decRepr_intCast g.year)
      · exact encodesVal_str _
      · exact encodesVal_str _
      · exact encodesVal_str _)
  exact h

theorem encodesVal_grantReceived (e : GrantReceived) (hq : decRepr e.amount) :
    EncodesVal (encGrantReceived e) (grantReceivedToJson e) := by
  have h := encodesVal_obj
    [ ("funderEIN", encStr e.funderEIN, Json.str e.funderEIN),
      ("funderName", encStr e.funderName, Json.str e.funderName),
      ("amount", printQ e.amount, Json.num e.amount),
      ("year", printQ ((e.year : ℚ)), Json.num ((e.year : ℚ))) ]
    (by
      intro t ht
      simp only [List.mem_cons, List.not_mem_nil, or_false] at ht
      rcases ht with rfl | rfl | rfl | rfl
      · exact encodesVal_str _
      · exact encodesVal_str _
      · exact encodesVal_num hq
      · exact encodesVal_num (decRepr_intCast e.year))
  exact h

theorem metaOptTriple_members (nm : String) (o : Option String) :
    (metaOptTriple nm o).map (fun t => member t.1 t.2.1) =
      (match o with
       | some a => [member nm (encStr a)]
       | none => []) := by
  cases o <;> rfl

theorem metaOptTriple_json (nm : String) (o : Option String) :
    (metaOptTriple nm o).map (fun t => (t.1, t.2.2)) =
      (match o with
       | some a => [(nm, Json.str a)]
       | none => []) := by
  cases o <;> rfl

theorem encMetaJs_eq (md : MetaJs) :
    encMetaJs md = encObjT ((metaTriples md).map fun t => member t.1 t.2.1) := by
  rw [encMetaJs, metaTriples]
  rw [List.map_append, List.map_append, List.map_append,
    metaOptTriple_members, metaOptTriple_members, metaOptTriple_members]
  cases md.assets <;> cases md.revenue <;> rfl

theorem metaJsToJson_eq (md : MetaJs) :
    metaJsToJson md = .obj ((metaTriples md).map fun t => (t.1, t.2.2)) := by
  rw [metaJsToJson, metaTriples]
  rw [List.map_append, List.map_append, List.map_append,
    metaOptTriple_json, metaOptTriple_json, metaOptTriple_json]
  cases md.assets <;> cases md.revenue <;> rfl

theorem encodesVal_metaJs (md : MetaJs) (h : metaDecimalOk md) :
    EncodesVal (encMetaJs md) (metaJsToJson md) := by
  rw [encMetaJs_eq, metaJsToJson_eq]
  apply encodesVal_obj
  intro t ht
  rw [metaTriples] at ht
  rcases List.mem_append.mp ht with h1 | h1
  · rcases List.mem_append.mp h1 with h2 | h2
    · rcases List.mem_append.mp h2 with h3 | h3
      · cases ho : md.address with
        | none => rw [ho] at h3; simp [metaOptTriple] at h3
        | some a =>
          rw [ho] at h3
          simp only [metaOptTriple, List.mem_singleton] at h3
          subst h3
          exact encodesVal_str _
      · cases ho : md.city with
        | none => rw [ho] at h3; simp [metaOptTriple] at h3
        | some a =>
          rw [ho] at h3
          simp only [metaOptTriple, List.mem_singleton] at h3
          subst h3
          exact encodesVal_str _
    · cases ho : md.state with
      | none => rw [ho] at h2; simp [metaOptTriple] at h2
      | some a =>
        rw [ho] at h2
        simp only [metaOptTriple, List.mem_singleton] at h2
        subst h2
        exact encodesVal_str _
  · simp only [List.mem_cons, List.not_mem_nil, or_false] at h1
    rcases h1 with rfl | rfl
    · cases ho : md.assets with
      | none => exact encodesVal_null
      | some q => exact encodesVal_num (h.1 q ho)
    · cases ho : md.revenue with
      | none => exact encodesVal_null
      | some q => exact encodesVal_num (h.2 q ho)

theorem encodesVal_grantsArr (gs : List Grant) (hq : ∀ g ∈ gs, decRepr g.amount) :
    EncodesVal (encArrT (gs.map encGrant)) (.arr (gs.map grantToJson)) := by
  have h := encodesVal_arr (gs.map (fun g => (encGrant g, grantToJson g)))
    (by
      intro t ht
      obtain ⟨g, hg, rfl⟩ := List.mem_map.mp ht
      exact encodesVal_grant g (hq g hg))
    (by
      intro t ht
      obtain ⟨g, hg, rfl⟩ := List.mem_map.mp ht
      exact encObjT_head _)
  rw [List.map_map, List.map_map] at h
  exact h

theorem encodesVal_receivedArr (es : List GrantReceived)
    (hq : ∀ e ∈ es, decRepr e.amount) :
    EncodesVal (encArrT (es.map encGrantReceived))
      (.arr (es.map grantReceivedToJson)) := by
  have h := encodesVal_arr (es.map (fun e => (encGrantReceived e,
      grantReceivedToJson e)))
    (by
      intro t ht
      obtain ⟨e, he, rfl⟩ := List.mem_map.mp ht
      exact encodesVal_grantReceived e (hq e he))
    (by
      intro t ht
      obtain ⟨e, he, rfl⟩ := List.mem_map.mp ht
      exact encObjT_head _)
  rw [List.map_map, List.map_map] at h
  exact h

theorem encodesVal_foundation (fd : Foundation)
    (hg : ∀ g ∈ fd.grantsGiven, decRepr g.amount)
    (hm : ∀ md, fd.metadata = some md → metaDecimalOk md) :
    EncodesVal (encFoundation fd) (foundationToJson fd) := by
  have heq1 : encFoundation fd = encObjT
      ((([ ("ein", encStr fd.ein, Json.str fd.ein),
           ("name", encStr fd.name, Json.str fd.name),
           ("grantsGiven", encArrT (fd.grantsGiven.map encGrant),
             Json.arr (fd.grantsGiven.map grantToJson)) ] ++
        metaTripleOpt fd.metadata).map fun t => member t.1 t.2.1)) := by
    rw [encFoundation, List.map_append]
    cases fd.metadata <;> rfl
  have heq2 : foundationToJson fd = .obj
      ((([ ("ein", encStr fd.ein, Json.str fd.ein),
           ("name", encStr fd.name, Json.str fd.name),
           ("grantsGiven", encArrT (fd.grantsGiven.map encGrant),
             Json.arr (fd.grantsGiven.map grantToJson)) ] ++
        metaTripleOpt fd.metadata).map fun t => (t.1, t.2.2))) := by
    rw [foundationToJson, List.map_append]
    cases fd.metadata <;> rfl
  rw [heq1, heq2]
  apply encodesVal_obj
  intro t ht
  rcases List.mem_append.mp ht with h1 | h1
  · simp only [List.mem_cons, List.not_mem_nil, or_false] at h1
    rcases h1 with rfl | rfl | rfl
    · exact encodesVal_str _
    · exact encodesVal_str _
    · exact encodesVal_grantsArr fd.grantsGiven hg
  · cases ho : fd.metadata with
    | none => rw [ho] at h1; simp [metaTripleOpt] at h1
    | some md =>
      rw [ho] at h1
      simp only [metaTripleOpt, List.mem_singleton] at h1
      subst h1
      exact encodesVal_metaJs md (hm md ho)

theorem encodesVal_organization (o : Organization)
    (hg : ∀ e ∈ o.grantsReceived, decRepr e.amount)
    (hm : ∀ md, o.metadata = some md → metaDecimalOk md) :
    EncodesVal (encOrganization o) (organizationToJson o) := by
  have heq1 : encOrganization o = encObjT
      ((([ ("ein", encStr o.ein, Json.str o.ein),
           ("name", encStr o.name, Json.str o.name),
           ("grantsReceived", encArrT (o.grantsReceived.map encGrantReceived),
             Json.arr (o.grantsReceived.map grantReceivedToJson)) ] ++
        metaTripleOpt o.metadata).map fun t => member t.1 t.2.1)) := by
    rw [encOrganization, List.map_append]
    cases o.metadata <;> rfl
  have heq2 : organizationToJson o = .obj
      ((([ ("ein", encStr o.ein, Json.str o.ein),
           ("name", encStr o.name, Json.str o.name),
           ("grantsReceived", encArrT (o.grantsReceived.map encGrantReceived),
             Json.arr (o.grantsReceived.map grantReceivedToJson)) ] ++
        metaTripleOpt o.metadata).map fun t => (t.1, t.2.2))) := by
    rw [organizationToJson, List.map_append]
    cases o.metadata <;> rfl
  rw [heq1, heq2]
  apply encodesVal_obj
  intro t ht
  rcases List.mem_append.mp ht with h1 | h1
  · simp only [List.mem_cons, List.not_mem_nil, or_false] at h1
    rcases h1 with rfl | rfl | rfl
    · exact encodesVal_str _
    · exact encodesVal_str _
    · exact encodesVal_receivedArr o.grantsReceived hg
  · cases ho : o.metadata with
    | none => rw [ho] at h1; simp [metaTripleOpt] at h1
    | some md =>
      rw [ho] at h1
      simp only [metaTripleOpt, List.mem_singleton] at h1
      subst h1
      exact encodesVal_metaJs md (hm md ho)

theorem encodesVal_datasetMeta (m : DatasetMeta) :
    EncodesVal (encDatasetMeta m) (datasetMetaToJson m) := by
  have h := encodesVal_obj
    [ ("foundationsProcessed", printQ ((m.foundationsProcessed : ℚ)),
        Json.num ((m.foundationsProcessed : ℚ))),
      ("totalGrants", printQ ((m.totalGrants : ℚ)),
        Json.num ((m.totalGrants : ℚ))),
      ("generatedAt", encStr m.generatedAt, Json.str m.generatedAt) ]
    (by
      intro t ht
      simp only [List.mem_cons, List.not_mem_nil, or_false] at ht
      rcases ht with rfl | rfl | rfl
      · exact encodesVal_num (decRepr_natCast m.foundationsProcessed)
      · exact encodesVal_num (decRepr_natCast m.totalGrants)
      · exact encodesVal_str _)
  exact h

theorem members_one_gen (k : String) (hks : keySafe k)
    (VW : List Char) (j : Json) (f : Nat) (tail : List Char)
    (hkl : k.data.length + 1 ≤ f)
    (hval : parseV f (VW ++ tail) = some (j, tail)) :
    parseMembersJson (f + 1) ('"' :: (k.data ++ '"' :: ':' :: (VW ++ tail))) =
      membersAfterVal f k.data j (skipWs tail) := by
  rw [parseMembers_start, parseStrBody_raw hks f hkl (':' :: (VW ++ tail))]
  show membersAfterKey f k.data (':' :: (VW ++ tail)) = _
  rw [show membersAfterKey f k.data (':' :: (VW ++ tail)) =
      membersAfterColon f k.data (VW ++ tail) from rfl,
    membersAfterColon, hval]

theorem streamEntries_head (k : String) (v : List Char)
    (es : List (String × List Char)) :
    ∃ Z, streamEntries ((k, v) :: es) = '"' :: Z := by
  cases es with
  | nil => exact ⟨k.data ++ '"' :: ':' :: ' ' :: v ++ ['\n'], rfl⟩
  | cons e2 rest =>
    exact ⟨k.data ++ '"' :: ':' :: ' ' :: v ++ ',' :: '\n' ::
      streamEntries (e2 :: rest), rfl⟩

theorem streamEntries_parse :
    ∀ (es : List (String × List Char × Json)), es ≠ [] →
      (∀ t ∈ es, keySafe t.1) →
      (∀ t ∈ es, EncodesVal t.2.1 t.2.2) →
      ∀ fuel rest,
        (streamEntries (es.map fun t => (t.1, t.2.1))).length + 1 < fuel →
        parseMembersJson fuel
          (streamEntries (es.map fun t => (t.1, t.2.1)) ++ '}' :: rest) =
          some (es.map fun t => (t.1, t.2.2), rest) := by
  intro es
  induction es with
  | nil => intro h; exact absurd rfl h
  | cons t es ih =>
    intro _ hks hencs fuel rest hf
    obtain ⟨f, rfl⟩ : ∃ f, fuel = f + 1 := ⟨fuel - 1, by omega⟩
    have hkt : keySafe t.1 := hks t (List.mem_cons_self _ _)
    have henct : EncodesVal t.2.1 t.2.2 := hencs t (List.mem_cons_self _ _)
    cases es with
    | nil =>
      rw [List.map_cons, List.map_nil] at hf ⊢
      have hslen : (streamEntries [(t.1, t.2.1)]).length =
          t.1.data.length + t.2.1.length + 5 := by
        show ('"' :: t.1.data ++ '"' :: ':' :: ' ' :: t.2.1 ++ ['\n']).length = _
        simp
        omega
      have hshape : streamEntries [(t.1, t.2.1)] ++ '}' :: rest =
          '"' :: (t.1.data ++ '"' :: ':' ::
            ((' ' :: t.2.1) ++ ('\n' :: '}' :: rest))) := by
        show ('"' :: t.1.data ++ '"' :: ':' :: ' ' :: t.2.1 ++ ['\n']) ++
          '}' :: rest = _
        simp
      obtain ⟨f', rfl⟩ : ∃ f', f = f' + 1 := ⟨f - 1, by omega⟩
      rw [hshape, members_one_gen t.1 hkt (' ' :: t.2.1) t.2.2 (f' + 1)
        ('\n' :: '}' :: rest) (by omega) (by
          rw [List.cons_append, parseV_ws (by decide)]
          exact henct (f' + 1) ('\n' :: '}' :: rest) (by omega)
            ⟨by decide, by decide⟩),
        skipWs_ws (by decide), skipWs_not (by decide)]
      rfl
    | cons t2 es2 =>
      rw [List.map_cons] at hf ⊢
      have hE2 : streamEntries ((t.1, t.2.1) ::
          (t2 :: es2).map fun t => (t.1, t.2.1)) =
          '"' :: t.1.data ++ '"' :: ':' :: ' ' :: t.2.1 ++ ',' :: '\n' ::
            streamEntries ((t2 :: es2).map fun t => (t.1, t.2.1)) := by
        rw [List.map_cons]
        rfl
      rw [hE2] at hf ⊢
      have hflen : t.1.data.length + t.2.1.length +
          (streamEntries ((t2 :: es2).map fun t => (t.1, t.2.1))).length + 7 <
          f + 1 := by
        simp only [List.length_cons, List.length_append] at hf
        omega
      have hshape : ('"' :: t.1.data ++ '"' :: ':' :: ' ' :: t.2.1 ++ ',' :: '\n' ::
          streamEntries ((t2 :: es2).map fun t => (t.1, t.2.1))) ++ '}' :: rest =
          '"' :: (t.1.data ++ '"' :: ':' :: ((' ' :: t.2.1) ++ (',' :: '\n' ::
            (streamEntries ((t2 :: es2).map fun t => (t.1, t.2.1)) ++
              '}' :: rest)))) := by
        simp
      obtain ⟨f', rfl⟩ : ∃ f', f = f' + 1 := ⟨f - 1, by omega⟩
      rw [hshape, members_one_gen t.1 hkt (' ' :: t.2.1) t.2.2 (f' + 1)
        (',' :: '\n' :: (streamEntries ((t2 :: es2).map fun t => (t.1, t.2.1)) ++
          '}' :: rest)) (by omega) (by
          rw [List.cons_append, parseV_ws (by decide)]
          exact henct (f' + 1) _ (by omega) ⟨by decide, by decide⟩),
        skipWs_not (by decide)]
      have hbr : membersAfterVal (f' + 1) t.1.data t.2.2
          (',' :: '\n' :: (streamEntries ((t2 :: es2).map fun t => (t.1, t.2.1)) ++
            '}' :: rest)) =
          match parseMembersJson (f' + 1)
            (skipWs ('\n' :: (streamEntries ((t2 :: es2).map fun t =>
              (t.1, t.2.1)) ++ '}' :: rest))) with
          | some (ms', r) => some ((⟨t.1.data⟩, t.2.2) :: ms', r)
          | none => none := rfl
      rw [hbr, skipWs_ws (by decide)]
      rw [show ((t2 :: es2).map fun t => (t.1, t.2.1)) =
        ((t2.1, t2.2.1) :: es2.map fun t => (t.1, t.2.1)) from by
          rw [List.map_cons]]
      obtain ⟨Z, hZ⟩ := streamEntries_head t2.1 t2.2.1
        (es2.map fun t => (t.1, t.2.1))
      rw [hZ, List.cons_append, skipWs_not (by decide), ← List.cons_append, ← hZ,
        show ((t2.1, t2.2.1) :: es2.map fun t => (t.1, t.2.1)) =
          ((t2 :: es2).map fun t => (t.1, t.2.1)) from by rw [List.map_cons],
        ih (by simp) (fun u hu => hks u (List.mem_cons_of_mem t hu))
          (fun u hu => hencs u (List.mem_cons_of_mem t hu)) (f' + 1) rest
          (by omega)]
      rfl

theorem mapObj_parse (es : List (String × List Char × Json))
    (hks : ∀ t ∈ es, keySafe t.1)
    (hencs : ∀ t ∈ es, EncodesVal t.2.1 t.2.2)
    (f : Nat) (rest : List Char)
    (hf : (streamEntries (es.map fun t => (t.1, t.2.1))).length + 2 < f) :
    parseV (f + 1) ('{' :: '\n' ::
        (streamEntries (es.map fun t => (t.1, t.2.1)) ++ '}' :: rest)) =
      some (.obj (es.map fun t => (t.1, t.2.2)), rest) := by
  rw [parseV_cons_route (by decide)]
  simp only [parseVHead]
  rw [if_neg (by decide), if_pos trivial]
  cases es with
  | nil =>
    rw [show streamEntries (([] : List (String × List Char × Json)).map fun t =>
      (t.1, t.2.1)) ++ '}' :: rest = '}' :: rest from rfl,
      skipWs_ws (by decide), skipWs_not (by decide)]
    rfl
  | cons t es2 =>
    rw [skipWs_ws (by decide),
      show ((t :: es2).map fun t => (t.1, t.2.1)) =
        ((t.1, t.2.1) :: es2.map fun t => (t.1, t.2.1)) from by rw [List.map_cons]]
    obtain ⟨Z, hZ⟩ := streamEntries_head t.1 t.2.1 (es2.map fun t => (t.1, t.2.1))
    rw [hZ, List.cons_append, skipWs_not (by decide)]
    have hbr : (match ('"' :: (Z ++ '}' :: rest) : List Char) with
        | '}' :: r => some (Json.obj [], r)
        | cs2 => objBranch f cs2) = objBranch f ('"' :: (Z ++ '}' :: rest)) := rfl
    rw [hbr, ← List.cons_append, ← hZ,
      show ((t.1, t.2.1) :: es2.map fun t => (t.1, t.2.1)) =
        ((t :: es2).map fun t => (t.1, t.2.1)) from by rw [List.map_cons],
      objBranch,
      streamEntries_parse (t :: es2) (by simp) hks hencs f rest (by omega)]

theorem objDispatch_quote (f : Nat) (X : List Char) :
    (match ('"' :: X : List Char) with
     | '}' :: r => some (Json.obj [], r)
     | cs2 => objBranch f cs2) = objBranch f ('"' :: X) := rfl

theorem membersAfterVal_comma (f : Nat) (k : List Char) (j : Json) (X : List Char) :
    membersAfterVal f k j (',' :: X) =
      match parseMembersJson f (skipWs X) with
      | some (ms', r) => some ((⟨k⟩, j) :: ms', r)
      | none => none := rfl

theorem membersAfterVal_close (f : Nat) (k : List Char) (j : Json) (X : List Char) :
    membersAfterVal f k j ('}' :: X) = some ([(⟨k⟩, j)], X) := rfl

theorem streamDoc_parse
    (Fts Ots : List (String × List Char × Json)) (M : List Char) (jm : Json)
    (hksF : ∀ t ∈ Fts, keySafe t.1) (hencF : ∀ t ∈ Fts, EncodesVal t.2.1 t.2.2)
    (hksO : ∀ t ∈ Ots, keySafe t.1) (hencO : ∀ t ∈ Ots, EncodesVal t.2.1 t.2.2)
    (hM : EncodesVal M jm) (fuel : Nat)
    (hfuel : (streamEntries (Fts.map fun t => (t.1, t.2.1))).length +
      (streamEntries (Ots.map fun t => (t.1, t.2.1))).length + M.length + 60 ≤
        fuel) :
    parseV fuel ('{' :: '\n' :: ('"' :: ("foundations".data ++ '"' :: ':' ::
      ((' ' :: '{' :: '\n' ::
          (streamEntries (Fts.map fun t => (t.1, t.2.1)) ++ ['}'])) ++
        (',' :: '\n' :: ('"' :: ("organizations".data ++ '"' :: ':' ::
          ((' ' :: '{' :: '\n' ::
              (streamEntries (Ots.map fun t => (t.1, t.2.1)) ++ ['}'])) ++
            (',' :: '\n' :: ('"' :: ("metadata".data ++ '"' :: ':' ::
              ((' ' :: M) ++ ('\n' :: '}' :: ['\n']))))))))))))) =
      some (.obj [("foundations", .obj (Fts.map fun t => (t.1, t.2.2))),
        ("organizations", .obj (Ots.map fun t => (t.1, t.2.2))),
        ("metadata", jm)], ['\n']) := by
  obtain ⟨f, rfl⟩ : ∃ f, fuel = f + 1 := ⟨fuel - 1, by omega⟩
  obtain ⟨f1, rfl⟩ : ∃ f1, f = f1 + 1 := ⟨f - 1, by omega⟩
  obtain ⟨f2, rfl⟩ : ∃ f2, f1 = f2 + 1 := ⟨f1 - 1, by omega⟩
  obtain ⟨f4, rfl⟩ : ∃ f4, f2 = f4 + 1 := ⟨f2 - 1, by omega⟩
  obtain ⟨f5, rfl⟩ : ∃ f5, f4 = f5 + 1 := ⟨f4 - 1, by omega⟩
  have h11 : ("foundations".data).length = 11 := rfl
  have h13 : ("organizations".data).length = 13 := rfl
  have h8 : ("metadata".data).length = 8 := rfl
  rw [parseV_cons_route (by decide)]
  simp only [parseVHead]
  rw [if_neg (by decide), if_pos trivial, skipWs_ws (by decide),
    skipWs_not (by decide), objDispatch_quote, objBranch]
  rw [members_one_gen "foundations" (by rw [keySafe]; decide)
    (' ' :: '{' :: '\n' :: (streamEntries (Fts.map fun t => (t.1, t.2.1)) ++ ['}']))
    (.obj (Fts.map fun t => (t.1, t.2.2))) (f5 + 1 + 1 + 1) _ (by omega) (by
      rw [List.cons_append, parseV_ws (by decide), List.cons_append,
        List.cons_append, List.append_assoc, List.singleton_append]
      exact mapObj_parse Fts hksF hencF (f5 + 1 + 1) _ (by omega))]
  rw [skipWs_not (by decide), membersAfterVal_comma, skipWs_ws (by decide),
    skipWs_not (by decide)]
  rw [members_one_gen "organizations" (by rw [keySafe]; decide)
    (' ' :: '{' :: '\n' :: (streamEntries (Ots.map fun t => (t.1, t.2.1)) ++ ['}']))
    (.obj (Ots.map fun t => (t.1, t.2.2))) (f5 + 1 + 1) _ (by omega) (by
      rw [List.cons_append, parseV_ws (by decide), List.cons_append,
        List.cons_append, List.append_assoc, List.singleton_append]
      exact mapObj_parse Ots hksO hencO (f5 + 1) _ (by omega))]
  rw [skipWs_not (by decide), membersAfterVal_comma, skipWs_ws (by decide),
    skipWs_not (by decide)]
  rw [members_one_gen "metadata" (by rw [keySafe]; decide) (' ' :: M) jm (f5 + 1) _ (by omega)
    (by
      rw [List.cons_append, parseV_ws (by decide)]
      exact hM (f5 + 1) _ (by omega) ⟨by decide, by decide⟩)]
  rw [skipWs_ws (by decide), skipWs_not (by decide), membersAfterVal_close]

/-- C5 (amended): for every dataset whose map keys contain no character
that `JSON.stringify` would escape (no `"`, no backslash, no control
character) and whose numbers are decimal-representable (true of every
JavaScript number), the concatenation of the chunks written by
`streamDatasetToFile` parses back to exactly the dataset's JSON image:
same foundations map, same organizations map, same metadata.  The original
claim, which allowed arbitrary key characters, is refuted by
`c5_stream_counterexample`: keys are interpolated into the output raw,
while string fields (passed through `JSON.stringify`) are safe for
arbitrary characters. -/
theorem c5_stream_roundtrip (d : CompleteDataset) (hk : datasetKeysSafe d)
    (hq : datasetDecimalOk d) :
    parseJson (streamDatasetOutput d) = some (datasetToJson d) := by
  have hksF : ∀ t ∈ d.foundations.map
      (fun p => (p.1, encFoundation p.2, foundationToJson p.2)), keySafe t.1 := by
    intro t ht
    obtain ⟨p, hp, rfl⟩ := List.mem_map.mp ht
    exact hk.1 p hp
  have hencF : ∀ t ∈ d.foundations.map
      (fun p => (p.1, encFoundation p.2, foundationToJson p.2)),
      EncodesVal t.2.1 t.2.2 := by
    intro t ht
    obtain ⟨p, hp, rfl⟩ := List.mem_map.mp ht
    exact encodesVal_foundation p.2 (hq.1 p hp).1 (hq.1 p hp).2
  have hksO : ∀ t ∈ d.organizations.map
      (fun p => (p.1, encOrganization p.2, organizationToJson p.2)),
      keySafe t.1 := by
    intro t ht
    obtain ⟨p, hp, rfl⟩ := List.mem_map.mp ht
    exact hk.2 p hp
  have hencO : ∀ t ∈ d.organizations.map
      (fun p => (p.1, encOrganization p.2, organizationToJson p.2)),
      EncodesVal t.2.1 t.2.2 := by
    intro t ht
    obtain ⟨p, hp, rfl⟩ := List.mem_map.mp ht
    exact encodesVal_organization p.2 (hq.2 p hp).1 (hq.2 p hp).2
  have hFpair : ((d.foundations.map
      (fun p => (p.1, encFoundation p.2, foundationToJson p.2))).map
        fun t => (t.1, t.2.1)) =
      d.foundations.map fun p => (p.1, encFoundation p.2) := by
    rw [List.map_map]
    rfl
  have hOpair : ((d.organizations.map
      (fun p => (p.1, encOrganization p.2, organizationToJson p.2))).map
        fun t => (t.1, t.2.1)) =
      d.organizations.map fun p => (p.1, encOrganization p.2) := by
    rw [List.map_map]
    rfl
  have hFjson : ((d.foundations.map
      (fun p => (p.1, encFoundation p.2, foundationToJson p.2))).map
        fun t => (t.1, t.2.2)) =
      d.foundations.map fun p => (p.1, foundationToJson p.2) := by
    rw [List.map_map]
    rfl
  have hOjson : ((d.organizations.map
      (fun p => (p.1, encOrganization p.2, organizationToJson p.2))).map
        fun t => (t.1, t.2.2)) =
      d.organizations.map fun p => (p.1, organizationToJson p.2) := by
    rw [List.map_map]
    rfl
  have hA : "\x7b\n\"foundations\": \x7b\n".data =
      '{' :: '\n' :: '"' :: ("foundations".data ++ ['"', ':', ' ', '{', '\n']) :=
    rfl
  have hB : "\x7d,\n\"organizations\": \x7b\n".data =
      '}' :: ',' :: '\n' :: '"' ::
        ("organizations".data ++ ['"', ':', ' ', '{', '\n']) := rfl
  have hC : "\x7d,\n\"metadata\": ".data =
      '}' :: ',' :: '\n' :: '"' :: ("metadata".data ++ ['"', ':', ' ']) := rfl
  have hD : "\n\x7d\n".data = ['\n', '}', '\n'] := rfl
  have hshape : (streamDatasetOutput d).data =
      '{' :: '\n' :: ('"' :: ("foundations".data ++ '"' :: ':' ::
        ((' ' :: '{' :: '\n' ::
            (streamEntries (d.foundations.map fun p =>
              (p.1, encFoundation p.2)) ++ ['}'])) ++
          (',' :: '\n' :: ('"' :: ("organizations".data ++ '"' :: ':' ::
            ((' ' :: '{' :: '\n' ::
                (streamEntries (d.organizations.map fun p =>
                  (p.1, encOrganization p.2)) ++ ['}'])) ++
              (',' :: '\n' :: ('"' :: ("metadata".data ++ '"' :: ':' ::
                ((' ' :: encDatasetMeta d.metadata) ++
                  ('\n' :: '}' :: ['\n'])))))))))))) := by
    show "\x7b\n\"foundations\": \x7b\n".data ++
      streamEntries (d.foundations.map fun p => (p.1, encFoundation p.2)) ++
      "\x7d,\n\"organizations\": \x7b\n".data ++
      streamEntries (d.organizations.map fun p => (p.1, encOrganization p.2)) ++
      "\x7d,\n\"metadata\": ".data ++ encDatasetMeta d.metadata ++
      "\n\x7d\n".data = _
    rw [hA, hB, hC, hD]
    simp only [List.cons_append, List.append_assoc, List.singleton_append,
      List.nil_append]
  have hlen : (streamDatasetOutput d).data.length =
      (streamEntries (d.foundations.map fun p =>
        (p.1, encFoundation p.2))).length +
      (streamEntries (d.organizations.map fun p =>
        (p.1, encOrganization p.2))).length +
      (encDatasetMeta d.metadata).length + 59 := by
    show ("\x7b\n\"foundations\": \x7b\n".data ++
      streamEntries (d.foundations.map fun p => (p.1, encFoundation p.2)) ++
      "\x7d,\n\"organizations\": \x7b\n".data ++
      streamEntries (d.organizations.map fun p => (p.1, encOrganization p.2)) ++
      "\x7d,\n\"metadata\": ".data ++ encDatasetMeta d.metadata ++
      "\n\x7d\n".data).length = _
    simp only [List.length_append, List.length_cons, List.length_nil]
    omega
  rw [parseJson, hlen, hshape, ← hFpair, ← hOpair]
  rw [streamDoc_parse
    (d.foundations.map fun p => (p.1, encFoundation p.2, foundationToJson p.2))
    (d.organizations.map fun p => (p.1, encOrganization p.2, organizationToJson p.2))
    (encDatasetMeta d.metadata) (datasetMetaToJson d.metadata)
    hksF hencF hksO hencO (encodesVal_datasetMeta d.metadata)]
  · rw [hFjson, hOjson]
    rfl
  · omega

set_option maxRecDepth 40000 in
/-- C5 counterexample: the stream writer interpolates map keys raw into
the output, so a foundation key containing a double quote produces a
document `JSON.parse` rejects — the original claim fails for arbitrary
key characters. -/
theorem c5_stream_counterexample :
    parseJson (streamDatasetOutput cexC5) = none := rfl

/-- C5 witness: a dataset exercising grants, escapes in string fields,
fractional amounts and both metadata shapes satisfies the amended
hypotheses and round-trips. -/
theorem c5_stream_roundtrip_witness :
    datasetKeysSafe dsW5 ∧ datasetDecimalOk dsW5 ∧
      parseJson (streamDatasetOutput dsW5) = some (datasetToJson dsW5) := by
  have hk5 : datasetKeysSafe dsW5 := by
    constructor
    · intro p hp
      simp only [dsW5, List.mem_singleton] at hp
      subst hp
      rw [keySafe]
      decide
    · intro p hp
      simp only [dsW5, List.mem_singleton] at hp
      subst hp
      rw [keySafe]
      decide
  have hq5 : datasetDecimalOk dsW5 := by
    constructor
    · intro p hp
      simp only [dsW5, List.mem_singleton] at hp
      subst hp
      constructor
      · intro g hg
        simp only [List.mem_singleton] at hg
        subst hg
        rw [decRepr]
        decide
      · intro md hmd
        simp only [Option.some.injEq] at hmd
        subst hmd
        constructor
        · intro q hq'
          simp only [Option.some.injEq] at hq'
          subst hq'
          rw [decRepr]
          decide
        · intro q hq'
          simp at hq'
    · intro p hp
      simp only [dsW5, List.mem_singleton] at hp
      subst hp
      constructor
      · intro e he
        simp only [List.mem_singleton] at he
        subst he
        rw [decRepr]
        decide
      · intro md hmd
        simp at hmd
  exact ⟨hk5, hq5, c5_stream_roundtrip dsW5 hk5 hq5⟩

end GrantsPipeline
